import Mathlib

/-!
# SAT-Asteroids-Demo: collision geometry and impulse response

A shallow embedding of the collision core of `src/main.c`
(`project_onto_vector`, `is_overlap`, `point_in_polygon`, `sat_collision`,
`handle_asteroid_collision`) over an arbitrary linearly ordered field `K`
standing for C `float` in exact arithmetic.

The C library functions `sqrtf`, `cosf`, `sinf` and raylib's `DEG2RAD` are
parameters of the embedding (`FloatMath`); `FloatMath.Exact` says that they
are the exact real functions.  Array-plus-count arguments are lists, an
out-parameter becomes a returned value, and an early `return false` becomes
`none`.
-/

namespace Asteroids

/-! ## Data model -/

/-- raylib `Vector2`: two `float` components. -/
structure Vector2 (K : Type) where
  x : K
  y : K
deriving DecidableEq, Repr

/-- The `float` primitives the program takes from libm and raylib:
`sqrtf`, `cosf`, `sinf` and the constant `DEG2RAD` (`PI/180`). -/
structure FloatMath (K : Type) where
  sqrtf : K → K
  cosf : K → K
  sinf : K → K
  DEG2RAD : K

/-- `EntityType` of `src/main.c`. -/
inductive EntityType where
  | ET_ERROR
  | ET_ASTEROID
  | ET_SHIP
  | ET_PROJECTILE
deriving DecidableEq, Repr

/-- The anonymous `velocity` member of `EntityData`. -/
structure Velocity (K : Type) where
  linear : Vector2 K
  angular : K

/-- The anonymous `hitshape` member of `EntityData`; `num_points` is the
length of `points` (the debug-only `color` member is rendering state and is
left out). -/
structure HitShape (K : Type) where
  points : List (Vector2 K)
  center : Vector2 K

/-- `EntityData` of `src/main.c`. -/
structure EntityData (K : Type) where
  position : Vector2 K
  velocity : Velocity K
  rotation : K
  health : Int
  type : EntityType
  hitshape : HitShape K

/-- `Asteroid` of `src/main.c`; `points` is the `ASTEROID_POINTS`-long outline. -/
structure Asteroid (K : Type) where
  radius : K
  points : List (Vector2 K)
  entity : EntityData K

section Defs

variable {K : Type} [LinearOrderedField K]

/-- The exact-arithmetic reading of the `float` primitives: `sqrtf` is the
non-negative square root, `cosf`/`sinf` lie on the unit circle and take the
values 1 and 0 at angle 0. -/
structure FloatMath.Exact (M : FloatMath K) : Prop where
  sqrtf_nonneg : ∀ x : K, 0 ≤ x → 0 ≤ M.sqrtf x
  sqrtf_mul_self : ∀ x : K, 0 ≤ x → M.sqrtf x * M.sqrtf x = x
  cos_sq_add_sin_sq : ∀ t : K, M.cosf t * M.cosf t + M.sinf t * M.sinf t = 1
  cosf_zero : M.cosf 0 = 1
  sinf_zero : M.sinf 0 = 0

/-- `FLT_MAX` of `<float.h>`: `(2 - 2^-23) * 2^127`. -/
def FLT_MAX : K := 340282346638528859811704183484516925440

/-! ## raymath primitives -/

/-- Modelled from the spec: raymath's `Vector2Zero` (not in the repository). -/
def Vector2Zero : Vector2 K := ⟨0, 0⟩

/-- Modelled from the spec: raymath's `Vector2Add` (not in the repository),
component-wise sum. -/
def Vector2Add (v1 v2 : Vector2 K) : Vector2 K := ⟨v1.x + v2.x, v1.y + v2.y⟩

/-- Modelled from the spec: raymath's `Vector2Subtract` (not in the
repository), component-wise difference. -/
def Vector2Subtract (v1 v2 : Vector2 K) : Vector2 K := ⟨v1.x - v2.x, v1.y - v2.y⟩

/-- Modelled from the spec: raymath's `Vector2Scale` (not in the repository). -/
def Vector2Scale (v : Vector2 K) (scale : K) : Vector2 K := ⟨v.x * scale, v.y * scale⟩

/-- Modelled from the spec: raymath's `Vector2DotProduct` (not in the
repository). -/
def Vector2DotProduct (v1 v2 : Vector2 K) : K := v1.x * v2.x + v1.y * v2.y

/-- Modelled from the spec: raymath's `Vector2Normalize` (not in the
repository): the vector divided by its length, and the zero vector when the
length is not positive. -/
def Vector2Normalize (M : FloatMath K) (v : Vector2 K) : Vector2 K :=
  let length := M.sqrtf (v.x * v.x + v.y * v.y)
  if length > 0 then
    let ilength := 1 / length
    ⟨v.x * ilength, v.y * ilength⟩
  else ⟨0, 0⟩

/-- Modelled from the spec: raymath's `Vector2Rotate` (not in the
repository), rotation by `angle` radians. -/
def Vector2Rotate (M : FloatMath K) (v : Vector2 K) (angle : K) : Vector2 K :=
  let cosres := M.cosf angle
  let sinres := M.sinf angle
  ⟨v.x * cosres - v.y * sinres, v.x * sinres + v.y * cosres⟩

/-! ## Geometry of `src/main.c` -/

/-- `Vector2EdgeNormal` (main.c:333): unit perpendicular `(-dy, dx)` of the
edge `a → b`. -/
def Vector2EdgeNormal (M : FloatMath K) (a b : Vector2 K) : Vector2 K :=
  let edge := Vector2Subtract b a
  let normal : Vector2 K := ⟨-edge.y, edge.x⟩
  Vector2Normalize M normal

/-- `Vector2CrossProduct` (main.c:502). -/
def Vector2CrossProduct (a b : Vector2 K) : K := a.x * b.y - a.y * b.x

/-- One pass of the loop body of `project_onto_vector` (main.c:346-355) on
the running `(*min, *max)`. -/
def project_step (M : FloatMath K) (position : Vector2 K) (rotation : K)
    (axis : Vector2 K) (acc : K × K) (p : Vector2 K) : K × K :=
  let rotatedPoint := Vector2Add (Vector2Rotate M p (M.DEG2RAD * rotation)) position
  let projection := Vector2DotProduct rotatedPoint axis
  let mn := if projection < acc.1 then projection else acc.1
  let mx := if projection > acc.2 then projection else acc.2
  (mn, mx)

/-- `project_onto_vector` (main.c:341): returns `(*min, *max)`.  `points[0]`
seeds both, the loop then runs over `points[1..]`.  (Reading `points[0]` of
an empty array is undefined in C; the embedding reads the zero vector.) -/
def project_onto_vector (M : FloatMath K) (points : List (Vector2 K))
    (position : Vector2 K) (rotation : K) (axis : Vector2 K) : K × K :=
  let first := Vector2DotProduct
    (Vector2Add (Vector2Rotate M (points.getD 0 Vector2Zero) (M.DEG2RAD * rotation)) position) axis
  (points.drop 1).foldl (project_step M position rotation axis) (first, first)

/-- `is_overlap` (main.c:360): `none` is the `false` return (nothing is
written), `some o` is the `true` return with `*overlap = o`. -/
def is_overlap (minA maxA minB maxB : K) : Option K :=
  if maxA < minB ∨ maxB < minA then none
  else some (if maxA < maxB then maxA - minB else maxB - minA)

/-- The loop of `point_in_polygon` (main.c:373): `is` are the remaining
values of `i`, `j` the current value of `j`. -/
def point_in_polygon_loop (M : FloatMath K) (polygon : List (Vector2 K))
    (position : Vector2 K) (rotation : K) (point : Vector2 K) :
    List Nat → Nat → Bool → Bool
  | [], _, result => result
  | i :: is, j, result =>
    let polygon_i :=
      Vector2Add (Vector2Rotate M (polygon.getD i Vector2Zero) (M.DEG2RAD * rotation)) position
    let polygon_j :=
      Vector2Add (Vector2Rotate M (polygon.getD j Vector2Zero) (M.DEG2RAD * rotation)) position
    let hit : Bool :=
      (decide (polygon_i.y > point.y) != decide (polygon_j.y > point.y)) &&
      decide (point.x <
        (polygon_j.x - polygon_i.x) * (point.y - polygon_i.y) / (polygon_j.y - polygon_i.y)
          + polygon_i.x)
    point_in_polygon_loop M polygon position rotation point is i (if hit then !result else result)

/-- `point_in_polygon` (main.c:370): `i` runs over `0 .. count-1`, `j`
starts at `count - 1`. -/
def point_in_polygon (M : FloatMath K) (polygon : List (Vector2 K))
    (position : Vector2 K) (rotation : K) (point : Vector2 K) : Bool :=
  point_in_polygon_loop M polygon position rotation point
    (List.range polygon.length) (polygon.length - 1) false

/-- The body shared by both loops of `sat_collision` (main.c:395-406 and
413-424) once `normal` is known: `none` is `return false`, otherwise the
updated `(minOverlap, smallestAxis)`. -/
def sat_axis_step (M : FloatMath K)
    (shapeA : List (Vector2 K)) (positionA : Vector2 K) (rotationA : K)
    (shapeB : List (Vector2 K)) (positionB : Vector2 K) (rotationB : K)
    (normal : Vector2 K) (st : K × Vector2 K) : Option (K × Vector2 K) :=
  let (minA, maxA) := project_onto_vector M shapeA positionA rotationA normal
  let (minB, maxB) := project_onto_vector M shapeB positionB rotationB normal
  match is_overlap minA maxA minB maxB with
  | none => none
  | some overlap => if overlap < st.1 then some (overlap, normal) else some st

/-- The axis of iteration `i` in either loop of `sat_collision` (main.c:394
and 412): `Vector2EdgeNormal(shape[i], shape[(i + 1) % count])`, taken on the
local (untransformed) points. -/
def edge_normal (M : FloatMath K) (shape : List (Vector2 K)) (i : Nat) : Vector2 K :=
  Vector2EdgeNormal M (shape.getD i Vector2Zero)
    (shape.getD ((i + 1) % shape.length) Vector2Zero)

/-- One `for (i ...)` loop of `sat_collision` over the edges of `shape`
(`shapeA` in the first loop, `shapeB` in the second); `is` are the remaining
values of `i`. -/
def sat_loop (M : FloatMath K) (shape : List (Vector2 K))
    (shapeA : List (Vector2 K)) (positionA : Vector2 K) (rotationA : K)
    (shapeB : List (Vector2 K)) (positionB : Vector2 K) (rotationB : K) :
    List Nat → K × Vector2 K → Option (K × Vector2 K)
  | [], st => some st
  | i :: is, st =>
    let normal := edge_normal M shape i
    match sat_axis_step M shapeA positionA rotationA shapeB positionB rotationB normal st with
    | none => none
    | some st1 => sat_loop M shape shapeA positionA rotationA shapeB positionB rotationB is st1

/-- The two loops of `sat_collision` (main.c:388-425): `none` when a
separating axis made the function return false, otherwise the final
`(minOverlap, smallestAxis)`. -/
def sat_search (M : FloatMath K)
    (shapeA : List (Vector2 K)) (positionA : Vector2 K) (rotationA : K)
    (shapeB : List (Vector2 K)) (positionB : Vector2 K) (rotationB : K) :
    Option (K × Vector2 K) :=
  match sat_loop M shapeA shapeA positionA rotationA shapeB positionB rotationB
      (List.range shapeA.length) (FLT_MAX, ⟨0, 0⟩) with
  | none => none
  | some st => sat_loop M shapeB shapeA positionA rotationA shapeB positionB rotationB
      (List.range shapeB.length) st

/-- `sat_collision` (main.c:386).  The pointer `mtv` is `none` for `NULL`
and `some v` for a pointer to a cell holding `v`; the result is the returned
boolean and the cell's contents afterwards. -/
def sat_collision (M : FloatMath K)
    (shapeA : List (Vector2 K)) (positionA : Vector2 K) (rotationA : K)
    (shapeB : List (Vector2 K)) (positionB : Vector2 K) (rotationB : K)
    (mtv : Option (Vector2 K)) : Bool × Option (Vector2 K) :=
  match sat_search M shapeA positionA rotationA shapeB positionB rotationB with
  | none => (false, mtv)
  | some (minOverlap, smallestAxis) =>
    (true, mtv.map (fun _ => Vector2Scale (Vector2Normalize M smallestAxis) minOverlap))

/-! ## Collision response -/

/-- `handle_asteroid_collision` (main.c:540): returns the two asteroids after
the call. -/
def handle_asteroid_collision (M : FloatMath K) (asteroid0 asteroid1 : Asteroid K)
    (mtv : Vector2 K) : Asteroid K × Asteroid K :=
  let pointOfImpact := Vector2Add asteroid0.entity.position (Vector2Scale mtv 0.5)
  let relativeVelocity :=
    Vector2Subtract asteroid0.entity.velocity.linear asteroid1.entity.velocity.linear
  let collisionNormal := Vector2Normalize M mtv
  let relativeVelocityAlongNormal := Vector2DotProduct relativeVelocity collisionNormal
  let impulseMagnitude := (-(1 + 0.5) * relativeVelocityAlongNormal) /
    (1 / asteroid0.radius + 1 / asteroid1.radius)
  let impulse := Vector2Scale collisionNormal impulseMagnitude
  let linear0 := Vector2Add asteroid0.entity.velocity.linear
    (Vector2Scale impulse (1 / asteroid0.radius))
  let linear1 := Vector2Subtract asteroid1.entity.velocity.linear
    (Vector2Scale impulse (1 / asteroid1.radius))
  let radiusVector0 := Vector2Subtract pointOfImpact asteroid0.entity.position
  let radiusVector1 := Vector2Subtract pointOfImpact asteroid1.entity.position
  let torque0 := Vector2CrossProduct radiusVector0 impulse
  let torque1 := Vector2CrossProduct radiusVector1 impulse
  let angular0 := asteroid0.entity.velocity.angular +
    torque0 / (asteroid0.radius * asteroid0.radius)
  let angular1 := asteroid1.entity.velocity.angular -
    torque1 / (asteroid1.radius * asteroid1.radius)
  let position0 := Vector2Add asteroid0.entity.position (Vector2Scale mtv 0.5)
  let position1 := Vector2Subtract asteroid1.entity.position (Vector2Scale mtv 0.5)
  ({ asteroid0 with entity := { asteroid0.entity with
        position := position0, velocity := ⟨linear0, angular0⟩ } },
   { asteroid1 with entity := { asteroid1.entity with
        position := position1, velocity := ⟨linear1, angular1⟩ } })

/-! ## Specification vocabulary -/

/-- Modelled from the spec: raymath's `Vector2Length` (not in the
repository), the Euclidean length. -/
def Vector2Length (M : FloatMath K) (v : Vector2 K) : K := M.sqrtf (v.x * v.x + v.y * v.y)

/-- The world-space image of a local point: rotated by `rotation` degrees,
then translated by `position` (the expression used by `project_onto_vector`
and `point_in_polygon`). -/
def transform (M : FloatMath K) (position : Vector2 K) (rotation : K) (p : Vector2 K) :
    Vector2 K :=
  Vector2Add (Vector2Rotate M p (M.DEG2RAD * rotation)) position

/-- The transformed polygon's vertex list. -/
def transformed (M : FloatMath K) (points : List (Vector2 K)) (position : Vector2 K)
    (rotation : K) : List (Vector2 K) :=
  points.map (transform M position rotation)

/-- The weighted sum of a vertex list. -/
def combine : List K → List (Vector2 K) → Vector2 K
  | c :: cs, v :: vs => Vector2Add (Vector2Scale v c) (combine cs vs)
  | _, _ => ⟨0, 0⟩

/-- The point `p` belongs to the (filled) convex polygon with vertices `vs`:
it is a convex combination of the vertices. -/
def InPolygon (vs : List (Vector2 K)) (p : Vector2 K) : Prop :=
  ∃ w : List K, w.length = vs.length ∧ (∀ c ∈ w, 0 ≤ c) ∧ w.sum = 1 ∧ p = combine w vs

/-- The overlap test `sat_collision` performs on one axis: both shapes are
projected and the intervals compared. -/
def axis_overlap (M : FloatMath K)
    (shapeA : List (Vector2 K)) (positionA : Vector2 K) (rotationA : K)
    (shapeB : List (Vector2 K)) (positionB : Vector2 K) (rotationB : K)
    (axis : Vector2 K) : Option K :=
  is_overlap
    (project_onto_vector M shapeA positionA rotationA axis).1
    (project_onto_vector M shapeA positionA rotationA axis).2
    (project_onto_vector M shapeB positionB rotationB axis).1
    (project_onto_vector M shapeB positionB rotationB axis).2

/-- The axes `sat_collision` tests, in test order: the edge normals of A by
index, then those of B. -/
def sat_axes (M : FloatMath K) (shapeA shapeB : List (Vector2 K)) : List (Vector2 K) :=
  (List.range shapeA.length).map (edge_normal M shapeA) ++
    (List.range shapeB.length).map (edge_normal M shapeB)

/-- The search of `sat_collision` seen as one pass over a list of axes. -/
def sat_fold (M : FloatMath K)
    (shapeA : List (Vector2 K)) (positionA : Vector2 K) (rotationA : K)
    (shapeB : List (Vector2 K)) (positionB : Vector2 K) (rotationB : K) :
    List (Vector2 K) → K × Vector2 K → Option (K × Vector2 K)
  | [], st => some st
  | n :: ns, st =>
    match sat_axis_step M shapeA positionA rotationA shapeB positionB rotationB n st with
    | none => none
    | some st1 => sat_fold M shapeA positionA rotationA shapeB positionB rotationB ns st1

/-- The MTV contract: `m` is `o * n` for the first axis `n` in test order
whose overlap `o` is the least overlap over all tested axes, and the length
of `m` is `o`. -/
def IsFirstMinMtv (M : FloatMath K)
    (shapeA : List (Vector2 K)) (positionA : Vector2 K) (rotationA : K)
    (shapeB : List (Vector2 K)) (positionB : Vector2 K) (rotationB : K)
    (m : Vector2 K) : Prop :=
  ∃ (k : Nat) (n : Vector2 K) (o : K),
    (sat_axes M shapeA shapeB)[k]? = some n ∧
    axis_overlap M shapeA positionA rotationA shapeB positionB rotationB n = some o ∧
    (∀ n1 ∈ sat_axes M shapeA shapeB, ∀ o1 : K,
      axis_overlap M shapeA positionA rotationA shapeB positionB rotationB n1 = some o1 →
        o ≤ o1) ∧
    (∀ j : Nat, j < k → ∀ (n1 : Vector2 K) (o1 : K),
      (sat_axes M shapeA shapeB)[j]? = some n1 →
      axis_overlap M shapeA positionA rotationA shapeB positionB rotationB n1 = some o1 →
        o < o1) ∧
    m = Vector2Scale n o ∧ Vector2Length M m = o

/-- Every edge `shape[i] → shape[(i + 1) % count]` has non-zero length. -/
def EdgesNonZero (shape : List (Vector2 K)) : Prop :=
  ∀ i : Nat, i < shape.length →
    shape.getD i Vector2Zero ≠ shape.getD ((i + 1) % shape.length) Vector2Zero

/-- The square with corners `(-h,-h), (h,-h), (h,h), (-h,h)`. -/
def centredSquare (h : K) : List (Vector2 K) := [⟨-h, -h⟩, ⟨h, -h⟩, ⟨h, h⟩, ⟨-h, h⟩]

/-- The component of the relative linear velocity (asteroid0 minus
asteroid1) along `normalize(mtv)`: `relativeVelocityAlongNormal` of
`handle_asteroid_collision` (main.c:546-552). -/
def normal_speed (M : FloatMath K) (asteroid0 asteroid1 : Asteroid K) (mtv : Vector2 K) : K :=
  Vector2DotProduct
    (Vector2Subtract asteroid0.entity.velocity.linear asteroid1.entity.velocity.linear)
    (Vector2Normalize M mtv)

/-! ### Vocabulary for `point_in_polygon` -/

/-- Twice the signed area of the triangle `a, b, p`: positive when `p` is
strictly to the left of the directed line `a → b`. -/
def side (a b p : Vector2 K) : K :=
  Vector2CrossProduct (Vector2Subtract b a) (Vector2Subtract p a)

/-- The condition of the `if` in `point_in_polygon` (main.c:377-378). -/
def edge_hit (polygon_i polygon_j point : Vector2 K) : Bool :=
  (decide (polygon_i.y > point.y) != decide (polygon_j.y > point.y)) &&
    decide (point.x <
      (polygon_j.x - polygon_i.x) * (point.y - polygon_i.y) / (polygon_j.y - polygon_i.y)
        + polygon_i.x)

/-- Abscissa at which the line through `a` and `b` meets height `y`. -/
def crossX (a b : Vector2 K) (y : K) : K := a.x + (b.x - a.x) * (y - a.y) / (b.y - a.y)

/-- Number of edges `W k → W (k+1)`, `k < n`, whose test in
`point_in_polygon` flips the result. -/
def crossings (W : ℕ → Vector2 K) (p : Vector2 K) (n : ℕ) : ℕ :=
  ∑ k in Finset.range n, if edge_hit (W (k + 1)) (W k) p = true then 1 else 0

/-- The transformed vertices in wrap-around order: `W k` is the image of
`polygon[k % count]`. -/
def cyclic_vertex (M : FloatMath K) (polygon : List (Vector2 K)) (position : Vector2 K)
    (rotation : K) (k : ℕ) : Vector2 K :=
  transform M position rotation (polygon.getD (k % polygon.length) Vector2Zero)

/-- The vertex list is in strictly convex position with orientation `s`
(`s = 1` counter-clockwise, `s = -1` clockwise): every vertex other than the
two ends of an edge lies strictly on the interior side of that edge's line. -/
def ConvexPolygon (s : K) (vs : List (Vector2 K)) : Prop :=
  ∀ i k : ℕ, i < vs.length → k < vs.length → k ≠ i → k ≠ (i + 1) % vs.length →
    0 < s * side (vs.getD i Vector2Zero) (vs.getD ((i + 1) % vs.length) Vector2Zero)
      (vs.getD k Vector2Zero)

/-- The point is strictly on the interior side of every edge line. -/
def StrictlyInside (s : K) (vs : List (Vector2 K)) (p : Vector2 K) : Prop :=
  ∀ i : ℕ, i < vs.length →
    0 < s * side (vs.getD i Vector2Zero) (vs.getD ((i + 1) % vs.length) Vector2Zero) p

/-- The point is strictly on the exterior side of some edge line. -/
def StrictlyOutside (s : K) (vs : List (Vector2 K)) (p : Vector2 K) : Prop :=
  ∃ i : ℕ, i < vs.length ∧
    s * side (vs.getD i Vector2Zero) (vs.getD ((i + 1) % vs.length) Vector2Zero) p < 0

/-! ### Scenario data -/

/-- The square `(0,0)-(10,10)` of the two-squares scenario. -/
def squareA : List (Vector2 K) := [⟨0, 0⟩, ⟨10, 0⟩, ⟨10, 10⟩, ⟨0, 10⟩]

/-- The square `(5,5)-(15,15)` of the two-squares scenario. -/
def squareB : List (Vector2 K) := [⟨5, 5⟩, ⟨15, 5⟩, ⟨15, 15⟩, ⟨5, 15⟩]

/-- A right triangle with legs 4 and 3, listed counter-clockwise. -/
def triangle345 : List (Vector2 K) := [⟨0, 0⟩, ⟨4, 0⟩, ⟨4, 3⟩]

/-- The unit square, listed counter-clockwise. -/
def unitSquare : List (Vector2 K) := [⟨0, 0⟩, ⟨1, 0⟩, ⟨1, 1⟩, ⟨0, 1⟩]

/-! ## The dynamic array of `C-Collection-Vector/vector.c`

`Vec β` is the `Vec` struct over storage units of type `β` (a `byte` in C,
`sizeof(byte) = 1`).  `data` is the allocation as a list of units, a pointer
into it is an offset, `NULL` data is the empty allocation.  `size_t` sizes
are natural numbers; `fe_idx` wraps at `SIZE_MAX`.  For the two collections
of `main.c` a storage unit is one whole element (an `Asteroid *`, read as a
heap address, or a `Projectile`), so `elem_size` is 1 there. -/

/-- `SIZE_MAX` of a 64-bit `size_t`. -/
def SIZE_MAX : Nat := 2 ^ 64 - 1

/-- `INVALID_FE_IDX` (vector.h:63): `(size_t)-1`. -/
def INVALID_FE_IDX : Nat := SIZE_MAX

/-- `VECTOR_DEFAULT_CAP` (vector.h:61). -/
def VECTOR_DEFAULT_CAP : Nat := 10

/-- A `void_cmp_func` pointer: the comparators of vector.c or a user function. -/
inductive CmpFunc where
  | vec_char_cmp
  | vec_int_cmp
  | vec_uint_cmp
  | vec_ll_cmp
  | vec_ull_cmp
  | user (tag : Nat)
deriving DecidableEq, Repr

/-- A `free_entry` pointer: `vec_deref_free` (vector.c:6), `vec_free_asteroid`
(main.c:472) or a user function. -/
inductive FreeEntry where
  | vec_deref_free
  | vec_free_asteroid
  | user (tag : Nat)
deriving DecidableEq, Repr

/-- `struct Vec` (vector.h:91).  The function pointers `cmp` and `free_entry`
are `none` for `NULL`; `grow` maps `len`, `capacity` and `elem_size` of the
vector it is called on to the new capacity. -/
structure Vec (β : Type) where
  data : List β
  len : Nat
  capacity : Nat
  elem_size : Nat
  cmp : Option CmpFunc
  grow : Nat → Nat → Nat → Nat
  free_entry : Option FreeEntry
  fe_idx : Nat

section VecDefs

variable {β : Type}

/-- The `n` units of the allocation `data` that start at offset `off`. -/
def mem_read (data : List β) (off n : Nat) : List β := (data.drop off).take n

/-- `memcpy`/`memmove` of the units `src` to offset `off` of the allocation
`data`.  Units that would fall outside the allocation are dropped (writing
there is undefined in C). -/
def mem_write (data : List β) (off : Nat) (src : List β) : List β :=
  (data.take off ++ src ++ data.drop (off + src.length)).take data.length

/-- `realloc(data, n)`: the first `min(old size, n)` units are kept; what a fresh
unit at offset `k` holds is indeterminate and given by `junk k`. -/
def mem_realloc (junk : Nat → β) (data : List β) (n : Nat) : List β :=
  (data ++ (List.range (n - data.length)).map (fun k => junk (data.length + k))).take n

/-- `default_growth_rate` (vector.c:11). -/
def default_growth_rate (_len capacity _elem_size : Nat) : Nat := capacity * 2

/-- `vec_at` (vector.c:105): the offset of slot `index`, unchecked. -/
def vec_at (v : Vec β) (index : Nat) : Nat := index * v.elem_size

/-- `vec_at_s` (vector.c:110): `none` is `NULL`. -/
def vec_at_s (v : Vec β) (index : Nat) : Option Nat :=
  if index ≥ v.len then none else some (vec_at v index)

/-- `vec_resize` (vector.c:120). -/
def vec_resize [Zero β] (junk : Nat → β) (v : Vec β) (new_cap : Nat) : Vec β :=
  if new_cap = v.capacity then v
  else
    let new_cap := if new_cap = 0 then new_cap + 1 else new_cap
    let new_data := mem_realloc junk v.data (new_cap * v.elem_size)
    let old_cap_start := v.capacity * v.elem_size
    let new_data :=
      if old_cap_start < new_cap then
        let region_len := new_cap - v.capacity
        mem_write new_data old_cap_start (List.replicate (region_len * v.elem_size) 0)
      else new_data
    { v with capacity := new_cap, data := new_data }

/-- `vec_new` (vector.c:81): `none` when `VEC_ASSERT(elem_size != 0)` ends the
program.  The members not named in the initializer (`fe_idx`) are zero. -/
def vec_new [Zero β] (junk : Nat → β) (capacity elem_size : Nat) (cmp : Option CmpFunc)
    (grow : Option (Nat → Nat → Nat → Nat)) (free_entry : Option FreeEntry) : Option (Vec β) :=
  if elem_size = 0 then none
  else
    let p : Vec β :=
      { elem_size := elem_size, capacity := 0, len := 0, data := [], cmp := cmp,
        grow := grow.getD default_growth_rate, free_entry := free_entry, fe_idx := 0 }
    some (vec_resize junk p capacity)

/-- `vec_push_back` (vector.c:141).  `data` is `none` for a `NULL` pointer and
otherwise the memory readable from the pointer, of which `elem_size` units
are copied. -/
def vec_push_back [Zero β] (junk : Nat → β) (v : Vec β) (data : Option (List β)) : Vec β :=
  match data with
  | none => v
  | some src =>
    let v := if v.len ≥ v.capacity then vec_resize junk v (v.grow v.len v.capacity v.elem_size)
      else v
    { v with data := mem_write v.data (vec_at v v.len) (src.take v.elem_size), len := v.len + 1 }

/-- The statement `v->fe_idx--` guarded by `v->fe_idx != INVALID_FE_IDX`
(vector.c:264 and 281), on a 64-bit `size_t`. -/
def fe_idx_step (fe_idx : Nat) : Nat :=
  if fe_idx ≠ INVALID_FE_IDX then (fe_idx + SIZE_MAX) % (SIZE_MAX + 1) else fe_idx

/-- `vec_remove` (vector.c:259). -/
def vec_remove (v : Vec β) (index : Nat) : Vec β :=
  if index ≥ v.len then v
  else
    let v := { v with fe_idx := fe_idx_step v.fe_idx }
    let v :=
      if index < v.len - 1 then
        { v with data := (mem_write v.data (vec_at v index)
            (mem_read v.data (vec_at v (index + 1)) ((v.len - index - 1) * v.elem_size))) }
      else v
    { v with len := v.len - 1 }

/-- `vec_remove_fast` (vector.c:276). -/
def vec_remove_fast (v : Vec β) (index : Nat) : Vec β :=
  if index ≥ v.len then v
  else
    let v := { v with fe_idx := fe_idx_step v.fe_idx }
    let v := { v with data := (mem_write v.data (vec_at v index)
      (mem_read v.data (vec_at v (v.len - 1)) v.elem_size)) }
    { v with len := v.len - 1 }

/-- `vec_copy` (vector.c:290).  `raw` is the indeterminate content of the
freshly allocated struct (`free_entry` and `fe_idx` are never assigned);
`none` when `VEC_ASSERT` ends the program. -/
def vec_copy [Zero β] (junk : Nat → β) (raw : Vec β) (v : Vec β) : Option (Vec β) :=
  let ret : Vec β :=
    { raw with grow := v.grow, cmp := v.cmp, elem_size := v.elem_size, len := 0, data := [],
               capacity := 0 }
  let ret := vec_resize junk ret v.capacity
  if v.capacity = 0 then some ret
  else if ¬(ret.capacity = v.capacity) then none
  else some { ret with data := mem_write ret.data 0 (mem_read v.data 0 v.capacity) }

/-- `vec_pop_front` (vector.c:342): the returned pointer (`none` for `NULL`)
and the vector afterwards. -/
def vec_pop_front (v : Vec β) : Option Nat × Vec β :=
  if v.len < 1 then (none, v)
  else
    let ret := vec_at v 0
    (some ret, vec_remove v 0)

/-- The loop of `vec_append` (vector.c:362); `is` are the remaining values
of `i`.  The result is the return code and `dest` afterwards. -/
def vec_append_loop [Zero β] (junk : Nat → β) (source : Vec β) :
    List Nat → Vec β → Int × Vec β
  | [], dest => (0, dest)
  | i :: is, dest =>
    match vec_at_s source i with
    | none => (2, dest)
    | some data =>
      vec_append_loop junk source is (vec_push_back junk dest (some (source.data.drop data)))

/-- `vec_append` (vector.c:357) for two distinct vectors. -/
def vec_append [Zero β] (junk : Nat → β) (dest source : Vec β) : Int × Vec β :=
  if dest.elem_size ≠ source.elem_size then (1, dest)
  else vec_append_loop junk source (List.range source.capacity) dest

/-! ### Reading a vector -/

/-- The element in slot `i`: the `elem_size` units at `vec_at v i`. -/
def vec_elem (v : Vec β) (i : Nat) : List β := mem_read v.data (vec_at v i) v.elem_size

/-- The contents of a vector: its first `len` elements in order. -/
def vec_elems (v : Vec β) : List (List β) := (List.range v.len).map (vec_elem v)

/-- The allocation holds at least the `len` elements of the vector. -/
def VecHolds (v : Vec β) : Prop := v.len * v.elem_size ≤ v.data.length

instance (v : Vec β) : Decidable (VecHolds v) := by
  unfold VecHolds
  infer_instance

end VecDefs

/-! ## Asteroid construction and splitting (main.c:93-148, 477-500) -/

/-- `ASTEROID_RADIUS_BIG` (main.c:81). -/
def ASTEROID_RADIUS_BIG : K := 32

/-- `ASTEROID_RADIUS_MEDIUM` (main.c:82). -/
def ASTEROID_RADIUS_MEDIUM : K := 16

/-- `ASTEROID_RADIUS_SMALL` (main.c:83). -/
def ASTEROID_RADIUS_SMALL : K := 8

/-- `ASTEROID_POINTS` (main.c:84). -/
def ASTEROID_POINTS : Nat := 11

/-- Modelled from the spec: raylib's `PI` (not in the repository), recovered
from `DEG2RAD = PI / 180`. -/
def PI (M : FloatMath K) : K := M.DEG2RAD * 180

/-- The ambient random source: `draws k` is the raw value of the `k`-th draw,
`pos` the number of draws made so far. -/
structure Rng where
  draws : Nat → Nat
  pos : Nat

/-- Modelled from the spec: raylib's `GetRandomValue` (not in the
repository): an integer in `[min, max]` taken from the random source. -/
def GetRandomValue (min max : Int) (rng : Rng) : Int × Rng :=
  (min + (rng.draws rng.pos : Int) % (max - min + 1), { rng with pos := rng.pos + 1 })

/-- Modelled from the spec: raymath's `Vector2Equals` (not in the
repository): component-wise equality up to the relative tolerance
`EPSILON = 0.000001`. -/
def Vector2Equals (p q : Vector2 K) : Bool :=
  decide (|p.x - q.x| ≤ 0.000001 * max 1 (max |p.x| |q.x|)) &&
    decide (|p.y - q.y| ≤ 0.000001 * max 1 (max |p.y| |q.y|))

/-- The local variables of the loop in `asteroid_new` (main.c:107-132). -/
structure OutlineState (K : Type) where
  points : List (Vector2 K)
  max_y : K
  max_x : K
  min_y : K
  min_x : K
  rng : Rng

/-- One pass of the loop body of `asteroid_new` (main.c:111-131) for index `i`. -/
def asteroid_new_step (M : FloatMath K) (asteroid_radius : K) (st : OutlineState K) (i : Nat) :
    OutlineState K :=
  let angle := (i : K) / (ASTEROID_POINTS : K) * 2 * PI M
  let draw := GetRandomValue 0 50 st.rng
  let radius := asteroid_radius * 0.5 + ((draw.1 : K) / 100) * asteroid_radius
  let p : Vector2 K := ⟨M.cosf angle * radius, M.sinf angle * radius⟩
  { points := st.points ++ [p],
    max_x := if p.x > st.max_x then p.x else st.max_x,
    max_y := if p.y > st.max_y then p.y else st.max_y,
    min_x := if p.x < st.min_x then p.x else st.min_x,
    min_y := if p.y < st.min_y then p.y else st.min_y,
    rng := draw.2 }

/-- `asteroid_new` (main.c:93): the new asteroid object and the random source
afterwards.  Both allocations are taken to succeed; every member not
assigned is zero (`*asteroid = (Asteroid){0}`). -/
def asteroid_new (M : FloatMath K) (rng : Rng) (asteroid_radius : K) (pos vel : Vector2 K) :
    Asteroid K × Rng :=
  let st := (List.range ASTEROID_POINTS).foldl (asteroid_new_step M asteroid_radius)
    ⟨[], -1, -1, 1000, 1000, rng⟩
  ({ radius := asteroid_radius,
     points := st.points,
     entity :=
      { position := pos,
        velocity := ⟨vel, 0⟩,
        rotation := 0,
        health := 0,
        type := EntityType.ET_ASTEROID,
        hitshape :=
          ⟨[⟨st.min_x, st.min_y⟩, ⟨st.max_x, st.min_y⟩, ⟨st.max_x, st.max_y⟩,
            ⟨st.min_x, st.max_y⟩],
           ⟨(st.max_x - st.min_x) / 2, (st.max_y - st.min_y) / 2⟩⟩ } },
   st.rng)

/-- What `asteroid_split` works on: the random source, the heap of asteroid
objects (an `Asteroid *` is an index into it, `malloc` appends) and the
vector of asteroid pointers. -/
structure SplitState (K : Type) where
  rng : Rng
  heap : List (Asteroid K)
  vec : Vec Nat

/-- One pass of the loop of `asteroid_split` for a big asteroid
(main.c:485-490). -/
def asteroid_split_big_step (M : FloatMath K) (junk : Nat → Nat) (asteroid : Asteroid K)
    (st : SplitState K) (_i : Nat) : SplitState K :=
  let vx := GetRandomValue (-2) 2 st.rng
  let vy := GetRandomValue (-2) 2 vx.2
  let made := asteroid_new M vy.2 ASTEROID_RADIUS_MEDIUM asteroid.entity.position
    ⟨(vx.1 : K), (vy.1 : K)⟩
  let medium : Asteroid K :=
    if Vector2Equals asteroid.entity.velocity.linear Vector2Zero = true then
      { made.1 with entity := { made.1.entity with
          velocity := { made.1.entity.velocity with linear := ⟨1, 1⟩ } } }
    else made.1
  { rng := made.2,
    heap := st.heap ++ [medium],
    vec := vec_push_back junk st.vec (some [st.heap.length]) }

/-- `asteroid_split` (main.c:477).  `asteroid` is the object the pointer
argument refers to (it is only read). -/
def asteroid_split (M : FloatMath K) (junk : Nat → Nat) (asteroid : Asteroid K)
    (st : SplitState K) : SplitState K :=
  let st : SplitState K :=
    { st with vec := { st.vec with free_entry := some FreeEntry.vec_free_asteroid } }
  if asteroid.radius = ASTEROID_RADIUS_BIG then
    (List.range 4).foldl (asteroid_split_big_step M junk asteroid) st
  else if asteroid.radius = ASTEROID_RADIUS_MEDIUM then
    let vx1 := GetRandomValue (-2) 2 st.rng
    let vy1 := GetRandomValue (-2) 2 vx1.2
    let asteroid1 := asteroid_new M vy1.2 ASTEROID_RADIUS_SMALL asteroid.entity.position
      ⟨(vx1.1 : K), (vy1.1 : K)⟩
    let vx2 := GetRandomValue (-2) 2 asteroid1.2
    let vy2 := GetRandomValue (-2) 2 vx2.2
    let asteroid2 := asteroid_new M vy2.2 ASTEROID_RADIUS_SMALL asteroid.entity.position
      ⟨(vx2.1 : K), (vy2.1 : K)⟩
    let vec := vec_push_back junk st.vec (some [st.heap.length])
    let vec := vec_push_back junk vec (some [st.heap.length + 1])
    { rng := asteroid2.2, heap := st.heap ++ [asteroid1.1, asteroid2.1], vec := vec }
  else st

/-- The vector is as `vec_new` and `vec_push_back` keep it: the allocation
has exactly `capacity` slots, `len` does not exceed `capacity`, `capacity` is
at least 1 and the growth function is `default_growth_rate`. -/
def VecWF {β : Type} (v : Vec β) : Prop :=
  v.data.length = v.capacity * v.elem_size ∧ v.len ≤ v.capacity ∧ 1 ≤ v.capacity ∧
    v.grow = default_growth_rate

/-! ## The main loop: collision calls and the projectile scan (main.c:614-679) -/

/-- The collision test as `main` calls it on two entities (main.c:623, 636
and 671): each shape is placed at `entity.position + entity.hitshape.center`
with the entity's rotation. -/
def entity_collision (M : FloatMath K) (a b : EntityData K) (mtv : Option (Vector2 K)) :
    Bool × Option (Vector2 K) :=
  sat_collision M a.hitshape.points (Vector2Add a.position a.hitshape.center) a.rotation
    b.hitshape.points (Vector2Add b.position b.hitshape.center) b.rotation mtv

/-- The overlap of the two hit-shapes' projections on `axis`, the shapes
placed as in `entity_collision`. -/
def entity_axis_overlap (M : FloatMath K) (a b : EntityData K) (axis : Vector2 K) : Option K :=
  axis_overlap M a.hitshape.points (Vector2Add a.position a.hitshape.center) a.rotation
    b.hitshape.points (Vector2Add b.position b.hitshape.center) b.rotation axis

/-- The local `impulse` of `handle_asteroid_collision` (main.c:549-555). -/
def collision_impulse (M : FloatMath K) (asteroid0 asteroid1 : Asteroid K) (mtv : Vector2 K) :
    Vector2 K :=
  Vector2Scale (Vector2Normalize M mtv)
    ((-(1 + 0.5) * Vector2DotProduct
        (Vector2Subtract asteroid0.entity.velocity.linear asteroid1.entity.velocity.linear)
        (Vector2Normalize M mtv)) /
      (1 / asteroid0.radius + 1 / asteroid1.radius))

/-- An asteroid at rest at the origin whose hit-shape is `points` around the
centre `(0, 0)`. -/
def restingAsteroid (points : List (Vector2 K)) : Asteroid K :=
  { radius := 32,
    points := [],
    entity :=
      { position := ⟨0, 0⟩,
        velocity := ⟨⟨0, 0⟩, 0⟩,
        rotation := 0,
        health := 0,
        type := EntityType.ET_ASTEROID,
        hitshape := ⟨points, ⟨0, 0⟩⟩ } }

section VecOps

variable {β : Type}

/-- `vec_insert` (vector.c:163).  `data` is the memory readable from the
pointer, which must be valid (`memcpy` from `NULL` is undefined). -/
def vec_insert [Zero β] (junk : Nat → β) (v : Vec β) (index : Nat) (data : List β) : Vec β :=
  if index > v.len then v
  else
    let v := if v.len ≥ v.capacity then vec_resize junk v (v.grow v.len v.capacity v.elem_size)
      else v
    let moved := mem_write v.data (vec_at v (index + 1))
      (mem_read v.data (vec_at v index) ((v.len - index) * v.elem_size))
    { v with data := mem_write moved (vec_at v index) (data.take v.elem_size), len := v.len + 1 }

/-- `vec_clear` (vector.c:178).  When `free_entry` is set, `V_FOR_EACH_ANSI`
walks `fe_idx` from 0 to `len`, calling `free_entry` on each entry (which
acts on the pointed-to objects, not on the vector); then the allocation is
zeroed and `len` set to 0. -/
def vec_clear [Zero β] (v : Vec β) : Vec β :=
  let v := if v.free_entry.isSome then { v with fe_idx := v.len } else v
  { v with data := mem_write v.data 0 (List.replicate (v.capacity * v.elem_size) 0), len := 0 }

/-- `vec_clamp` (vector.c:200): the allocation is cut to `len` elements (one
element when `len` is 0) and `capacity` is set to `len`. -/
def vec_clamp (junk : Nat → β) (v : Vec β) : Vec β :=
  let tmp :=
    if v.len = 0 then mem_realloc junk v.data v.elem_size
    else mem_realloc junk v.data (v.len * v.elem_size)
  { v with data := tmp, capacity := v.len }

/-- `vec_pop_back` (vector.c:213): the returned pointer (`none` for `NULL`)
and the vector afterwards. -/
def vec_pop_back (v : Vec β) : Option Nat × Vec β :=
  if v.len < 1 then (none, v)
  else
    let v := { v with len := v.len - 1 }
    (some (vec_at v v.len), v)

/-- A call of one of the functions that change a vector, with its arguments. -/
inductive VecOp (β : Type) where
  | push_back (data : Option (List β))
  | insert (index : Nat) (data : List β)
  | remove (index : Nat)
  | remove_fast (index : Nat)
  | pop_back
  | clear
  | clamp
  | resize (new_cap : Nat)

/-- The vector after one call. -/
def vec_apply [Zero β] (junk : Nat → β) (v : Vec β) : VecOp β → Vec β
  | VecOp.push_back data => vec_push_back junk v data
  | VecOp.insert index data => vec_insert junk v index data
  | VecOp.remove index => vec_remove v index
  | VecOp.remove_fast index => vec_remove_fast v index
  | VecOp.pop_back => (vec_pop_back v).2
  | VecOp.clear => vec_clear v
  | VecOp.clamp => vec_clamp junk v
  | VecOp.resize new_cap => vec_resize junk v new_cap

/-- The vector after a sequence of calls. -/
def vec_run [Zero β] (junk : Nat → β) (v : Vec β) (ops : List (VecOp β)) : Vec β :=
  ops.foldl (vec_apply junk) v

end VecOps

/-! ## The ship (main.c:194-320) -/

/-- The anonymous `state` member of `Ship` (main.c:199). -/
structure ShipState (K : Type) where
  is_immune : Bool
  last_hit_time : K
  immune_duration : K
  draw_trail : Bool
  last_time_shot : K
  shot_cooldown : K

/-- `Ship` of `src/main.c` (main.c:194). -/
structure Ship (K : Type) where
  body : List (Vector2 K)
  trail : List (Vector2 K)
  entity : EntityData K
  state : ShipState K

/-- `ship_on_hit` (main.c:307).  `now` is the value `GetTime()` returns.  The
empty `if (ship->entity.health <= 0)` block has no effect.  The `int` health
is an unbounded integer here (overflow of `health - 10` is undefined in C). -/
def ship_on_hit (now : K) (ship : Ship K) : Ship K :=
  if ship.state.is_immune = true then ship
  else
    { ship with
      state := { ship.state with is_immune := true, last_hit_time := now },
      entity := { ship.entity with health := ship.entity.health - 10 } }

/-- `ship_new` (main.c:210).  The members not assigned keep the zero of
`Ship ship = {0}`. -/
def ship_new (pos vel : Vector2 K) : Ship K :=
  { body := [⟨-10, -2⟩, ⟨0, 2⟩, ⟨10, -2⟩, ⟨0, 18⟩],
    trail := [⟨-5, 2⟩, ⟨5, 2⟩, ⟨0, -6⟩],
    entity :=
      { position := pos,
        velocity := ⟨vel, 0⟩,
        rotation := 0,
        health := 100,
        type := EntityType.ET_SHIP,
        hitshape := ⟨[⟨-10, -2⟩, ⟨10, -2⟩, ⟨0, 18⟩], ⟨0, 0⟩⟩ },
    state :=
      { is_immune := false,
        last_hit_time := 0,
        immune_duration := 2,
        draw_trail := false,
        last_time_shot := 0,
        shot_cooldown := 0 } }

end Defs

/-! ## Lemmas -/

section Lemmas
variable {K : Type} [LinearOrderedField K]

theorem FloatMath.Exact.sqrtf_zero {M : FloatMath K} (hM : M.Exact) : M.sqrtf 0 = 0 := by
  have h := hM.sqrtf_mul_self 0 le_rfl
  exact mul_self_eq_zero.mp h

theorem FloatMath.Exact.sqrtf_pos {M : FloatMath K} (hM : M.Exact) {x : K} (hx : 0 < x) :
    0 < M.sqrtf x := by
  have h1 := hM.sqrtf_nonneg x hx.le
  have h2 := hM.sqrtf_mul_self x hx.le
  rcases h1.lt_or_eq with h | h
  · exact h
  · rw [← h] at h2; simp at h2; exact absurd h2.symm hx.ne'

theorem FloatMath.Exact.sqrtf_mul_self_eq {M : FloatMath K} (hM : M.Exact) {a : K} (ha : 0 ≤ a) :
    M.sqrtf (a * a) = a := by
  have h0 : 0 ≤ a * a := mul_nonneg ha ha
  have h1 := hM.sqrtf_nonneg _ h0
  have h2 := hM.sqrtf_mul_self _ h0
  nlinarith [sq_nonneg (M.sqrtf (a * a) - a), sq_nonneg (M.sqrtf (a * a) + a)]

theorem FloatMath.Exact.sqrtf_one {M : FloatMath K} (hM : M.Exact) : M.sqrtf 1 = 1 := by
  have h := hM.sqrtf_mul_self_eq (a := 1) zero_le_one
  simpa using h

theorem real_exact :
    FloatMath.Exact (⟨Real.sqrt, Real.cos, Real.sin, Real.pi / 180⟩ : FloatMath ℝ) where
  sqrtf_nonneg := fun x _ => Real.sqrt_nonneg x
  sqrtf_mul_self := fun x hx => Real.mul_self_sqrt hx
  cos_sq_add_sin_sq := fun t => by
    have := Real.cos_sq_add_sin_sq t
    simpa [sq] using this
  cosf_zero := Real.cos_zero
  sinf_zero := Real.sin_zero

/-! ### Normalisation -/

theorem normalize_zero {M : FloatMath K} (hM : M.Exact) :
    Vector2Normalize M (⟨0, 0⟩ : Vector2 K) = ⟨0, 0⟩ := by
  simp [Vector2Normalize, hM.sqrtf_zero]

theorem normalize_sq_of_pos {M : FloatMath K} (hM : M.Exact) (v : Vector2 K)
    (hv : 0 < v.x * v.x + v.y * v.y) :
    (Vector2Normalize M v).x * (Vector2Normalize M v).x +
      (Vector2Normalize M v).y * (Vector2Normalize M v).y = 1 := by
  have hp := hM.sqrtf_pos hv
  have hs := hM.sqrtf_mul_self _ hv.le
  simp only [Vector2Normalize, gt_iff_lt, hp, if_true]
  field_simp
  nlinarith

theorem normalize_zero_or_unit {M : FloatMath K} (hM : M.Exact) (v : Vector2 K) :
    Vector2Normalize M v = ⟨0, 0⟩ ∨
    (Vector2Normalize M v).x * (Vector2Normalize M v).x +
      (Vector2Normalize M v).y * (Vector2Normalize M v).y = 1 := by
  have h0 : 0 ≤ v.x * v.x + v.y * v.y := by nlinarith [mul_self_nonneg v.x, mul_self_nonneg v.y]
  rcases h0.lt_or_eq with h | h
  · exact Or.inr (normalize_sq_of_pos hM v h)
  · left
    simp [Vector2Normalize, ← h, hM.sqrtf_zero]

theorem normalize_of_unit {M : FloatMath K} (hM : M.Exact) (n : Vector2 K)
    (hn : n.x * n.x + n.y * n.y = 1) : Vector2Normalize M n = n := by
  simp [Vector2Normalize, hn, hM.sqrtf_one]

theorem edge_normal_unit {M : FloatMath K} (hM : M.Exact) (a b : Vector2 K) (hab : a ≠ b) :
    (Vector2EdgeNormal M a b).x * (Vector2EdgeNormal M a b).x +
      (Vector2EdgeNormal M a b).y * (Vector2EdgeNormal M a b).y = 1 := by
  unfold Vector2EdgeNormal
  apply normalize_sq_of_pos hM
  simp only [Vector2Subtract]
  have hne : b.x - a.x ≠ 0 ∨ b.y - a.y ≠ 0 := by
    by_contra h
    push_neg at h
    apply hab
    cases a; cases b
    simp only [Vector2.mk.injEq]
    simp only at h
    constructor <;> linarith [h.1, h.2]
  rcases hne with h | h
  · nlinarith [mul_self_pos.mpr h, mul_self_nonneg (b.y - a.y)]
  · nlinarith [mul_self_pos.mpr h, mul_self_nonneg (b.x - a.x)]

theorem normalize_sq_of_ne_zero {M : FloatMath K} (hM : M.Exact) (v : Vector2 K)
    (hv : v ≠ ⟨0, 0⟩) :
    (Vector2Normalize M v).x * (Vector2Normalize M v).x +
      (Vector2Normalize M v).y * (Vector2Normalize M v).y = 1 := by
  apply normalize_sq_of_pos hM
  have hne : v.x ≠ 0 ∨ v.y ≠ 0 := by
    by_contra h
    push_neg at h
    apply hv
    cases v
    simp only [Vector2.mk.injEq]
    exact h
  rcases hne with h | h
  · nlinarith [mul_self_pos.mpr h, mul_self_nonneg v.y]
  · nlinarith [mul_self_pos.mpr h, mul_self_nonneg v.x]

end Lemmas

section ProjLemmas
variable {K : Type} [LinearOrderedField K]

/-- The scalar a point contributes to a projection. -/
theorem project_step_eq (M : FloatMath K) (position : Vector2 K) (rotation : K)
    (axis : Vector2 K) (acc : K × K) (p : Vector2 K) :
    project_step M position rotation axis acc p =
      (min (Vector2DotProduct (transform M position rotation p) axis) acc.1,
       max (Vector2DotProduct (transform M position rotation p) axis) acc.2) := by
  unfold project_step transform
  simp only
  congr 1
  · split_ifs with h
    · exact (min_eq_left h.le).symm
    · exact (min_eq_right (not_lt.mp h)).symm
  · split_ifs with h
    · exact (max_eq_left h.le).symm
    · exact (max_eq_right (not_lt.mp h)).symm

theorem project_fold_bounds (M : FloatMath K) (position : Vector2 K) (rotation : K)
    (axis : Vector2 K) (ps : List (Vector2 K)) (acc : K × K) :
    ((ps.foldl (project_step M position rotation axis) acc).1 ≤ acc.1 ∧
      acc.2 ≤ (ps.foldl (project_step M position rotation axis) acc).2) ∧
    ∀ p ∈ ps,
      (ps.foldl (project_step M position rotation axis) acc).1 ≤
          Vector2DotProduct (transform M position rotation p) axis ∧
        Vector2DotProduct (transform M position rotation p) axis ≤
          (ps.foldl (project_step M position rotation axis) acc).2 := by
  induction ps generalizing acc with
  | nil => simp
  | cons q qs ih =>
    simp only [List.foldl_cons, List.mem_cons, forall_eq_or_imp]
    obtain ⟨⟨h1, h2⟩, h3⟩ := ih (project_step M position rotation axis acc q)
    have e := project_step_eq M position rotation axis acc q
    have e1 : (project_step M position rotation axis acc q).1 ≤ acc.1 := by
      rw [e]; exact min_le_right _ _
    have e2 : acc.2 ≤ (project_step M position rotation axis acc q).2 := by
      rw [e]; exact le_max_right _ _
    have e3 : (project_step M position rotation axis acc q).1 ≤
        Vector2DotProduct (transform M position rotation q) axis := by
      rw [e]; exact min_le_left _ _
    have e4 : Vector2DotProduct (transform M position rotation q) axis ≤
        (project_step M position rotation axis acc q).2 := by
      rw [e]; exact le_max_left _ _
    exact ⟨⟨h1.trans e1, e2.trans h2⟩, ⟨h1.trans e3, e4.trans h2⟩, h3⟩

/-- Every transformed point of a non-empty list projects into the interval
returned by `project_onto_vector`. -/
theorem project_bounds (M : FloatMath K) (points : List (Vector2 K)) (position : Vector2 K)
    (rotation : K) (axis : Vector2 K) (p : Vector2 K) (hp : p ∈ points) :
    (project_onto_vector M points position rotation axis).1 ≤
        Vector2DotProduct (transform M position rotation p) axis ∧
      Vector2DotProduct (transform M position rotation p) axis ≤
        (project_onto_vector M points position rotation axis).2 := by
  cases points with
  | nil => simp at hp
  | cons q qs =>
    unfold project_onto_vector
    simp only [List.getD_cons_zero, List.drop_succ_cons, List.drop_zero]
    obtain ⟨⟨h1, h2⟩, h3⟩ := project_fold_bounds M position rotation axis qs
      (Vector2DotProduct (transform M position rotation q) axis,
       Vector2DotProduct (transform M position rotation q) axis)
    rcases List.mem_cons.mp hp with rfl | hq
    · exact ⟨h1, h2⟩
    · exact h3 p hq

theorem project_min_le_max (M : FloatMath K) (points : List (Vector2 K)) (position : Vector2 K)
    (rotation : K) (axis : Vector2 K) :
    (project_onto_vector M points position rotation axis).1 ≤
      (project_onto_vector M points position rotation axis).2 := by
  unfold project_onto_vector
  obtain ⟨⟨h1, h2⟩, _⟩ := project_fold_bounds M position rotation axis (points.drop 1)
    (Vector2DotProduct
      (Vector2Add (Vector2Rotate M (points.getD 0 Vector2Zero) (M.DEG2RAD * rotation)) position)
      axis,
     Vector2DotProduct
      (Vector2Add (Vector2Rotate M (points.getD 0 Vector2Zero) (M.DEG2RAD * rotation)) position)
      axis)
  exact h1.trans h2

theorem project_fold_translate (M : FloatMath K) (position t : Vector2 K) (rotation : K)
    (axis : Vector2 K) (ps : List (Vector2 K)) (acc : K × K) :
    ps.foldl (project_step M (Vector2Add position t) rotation axis)
        (acc.1 + Vector2DotProduct t axis, acc.2 + Vector2DotProduct t axis) =
      ((ps.foldl (project_step M position rotation axis) acc).1 + Vector2DotProduct t axis,
       (ps.foldl (project_step M position rotation axis) acc).2 + Vector2DotProduct t axis) := by
  induction ps generalizing acc with
  | nil => simp
  | cons q qs ih =>
    simp only [List.foldl_cons]
    rw [← ih]
    congr 1
    rw [project_step_eq, project_step_eq]
    have hd : Vector2DotProduct (transform M (Vector2Add position t) rotation q) axis =
        Vector2DotProduct (transform M position rotation q) axis + Vector2DotProduct t axis := by
      simp only [transform, Vector2DotProduct, Vector2Add]; ring
    simp only [hd, min_add_add_right, max_add_add_right]

/-- Translating a shape by `t` shifts both ends of its projection by `t . axis`. -/
theorem project_translate (M : FloatMath K) (points : List (Vector2 K))
    (position t : Vector2 K) (rotation : K) (axis : Vector2 K) :
    project_onto_vector M points (Vector2Add position t) rotation axis =
      ((project_onto_vector M points position rotation axis).1 + Vector2DotProduct t axis,
       (project_onto_vector M points position rotation axis).2 + Vector2DotProduct t axis) := by
  unfold project_onto_vector
  simp only
  rw [← project_fold_translate]
  congr 1
  simp only [Vector2DotProduct, Vector2Add]
  congr 1 <;> ring

theorem project_zero_axis (M : FloatMath K) (points : List (Vector2 K))
    (position : Vector2 K) (rotation : K) :
    project_onto_vector M points position rotation ⟨0, 0⟩ = (0, 0) := by
  unfold project_onto_vector
  have h : ∀ (ps : List (Vector2 K)),
      ps.foldl (project_step M position rotation ⟨0, 0⟩) ((0 : K), (0 : K)) = (0, 0) := by
    intro ps
    induction ps with
    | nil => rfl
    | cons q qs ih =>
      simp only [List.foldl_cons]
      rw [project_step_eq]
      simpa [Vector2DotProduct] using ih
  simpa [Vector2DotProduct] using h (points.drop 1)

end ProjLemmas

section SatLemmas
variable {K : Type} [LinearOrderedField K]

theorem is_overlap_eq_none_iff (minA maxA minB maxB : K) :
    is_overlap minA maxA minB maxB = none ↔ (maxA < minB ∨ maxB < minA) := by
  unfold is_overlap
  split_ifs with h <;> simp [h]

theorem is_overlap_comm_isSome (minA maxA minB maxB : K) :
    (is_overlap minA maxA minB maxB).isSome = (is_overlap minB maxB minA maxA).isSome := by
  unfold is_overlap
  by_cases h : maxA < minB ∨ maxB < minA
  · have h2 : maxB < minA ∨ maxA < minB := h.symm
    simp [h, h2]
  · have h2 : ¬(maxB < minA ∨ maxA < minB) := fun c => h c.symm
    simp [h, h2]

theorem is_overlap_nonneg {minA maxA minB maxB o : K}
    (h : is_overlap minA maxA minB maxB = some o) : 0 ≤ o := by
  unfold is_overlap at h
  split_ifs at h with h1 h2
  · simp only [Option.some.injEq] at h
    push_neg at h1
    linarith [h1.1]
  · simp only [Option.some.injEq] at h
    push_neg at h1
    linarith [h1.2]

theorem sat_axis_step_eq (M : FloatMath K)
    (shapeA : List (Vector2 K)) (positionA : Vector2 K) (rotationA : K)
    (shapeB : List (Vector2 K)) (positionB : Vector2 K) (rotationB : K)
    (normal : Vector2 K) (st : K × Vector2 K) :
    sat_axis_step M shapeA positionA rotationA shapeB positionB rotationB normal st =
      match axis_overlap M shapeA positionA rotationA shapeB positionB rotationB normal with
      | none => none
      | some overlap => if overlap < st.1 then some (overlap, normal) else some st := by
  rfl

theorem sat_loop_eq_fold (M : FloatMath K) (shape : List (Vector2 K))
    (shapeA : List (Vector2 K)) (positionA : Vector2 K) (rotationA : K)
    (shapeB : List (Vector2 K)) (positionB : Vector2 K) (rotationB : K)
    (is : List Nat) (st : K × Vector2 K) :
    sat_loop M shape shapeA positionA rotationA shapeB positionB rotationB is st =
      sat_fold M shapeA positionA rotationA shapeB positionB rotationB
        (is.map (edge_normal M shape)) st := by
  induction is generalizing st with
  | nil => rfl
  | cons i is ih =>
    simp only [sat_loop, List.map_cons, sat_fold]
    cases sat_axis_step M shapeA positionA rotationA shapeB positionB rotationB
      (edge_normal M shape i) st with
    | none => rfl
    | some st1 => exact ih st1

theorem sat_fold_append (M : FloatMath K)
    (shapeA : List (Vector2 K)) (positionA : Vector2 K) (rotationA : K)
    (shapeB : List (Vector2 K)) (positionB : Vector2 K) (rotationB : K)
    (l1 l2 : List (Vector2 K)) (st : K × Vector2 K) :
    sat_fold M shapeA positionA rotationA shapeB positionB rotationB (l1 ++ l2) st =
      match sat_fold M shapeA positionA rotationA shapeB positionB rotationB l1 st with
      | none => none
      | some st1 => sat_fold M shapeA positionA rotationA shapeB positionB rotationB l2 st1 := by
  induction l1 generalizing st with
  | nil => rfl
  | cons n ns ih =>
    simp only [List.cons_append, sat_fold]
    cases sat_axis_step M shapeA positionA rotationA shapeB positionB rotationB n st with
    | none => rfl
    | some st1 => exact ih st1

/-- The two loops of `sat_collision` are one pass over `sat_axes`. -/
theorem sat_search_eq_fold (M : FloatMath K)
    (shapeA : List (Vector2 K)) (positionA : Vector2 K) (rotationA : K)
    (shapeB : List (Vector2 K)) (positionB : Vector2 K) (rotationB : K) :
    sat_search M shapeA positionA rotationA shapeB positionB rotationB =
      sat_fold M shapeA positionA rotationA shapeB positionB rotationB
        (sat_axes M shapeA shapeB) (FLT_MAX, ⟨0, 0⟩) := by
  unfold sat_search sat_axes
  rw [sat_fold_append, sat_loop_eq_fold]
  cases sat_fold M shapeA positionA rotationA shapeB positionB rotationB
    (List.map (edge_normal M shapeA) (List.range shapeA.length)) (FLT_MAX, ⟨0, 0⟩) with
  | none => rfl
  | some st1 => exact sat_loop_eq_fold ..

theorem sat_collision_fst (M : FloatMath K)
    (shapeA : List (Vector2 K)) (positionA : Vector2 K) (rotationA : K)
    (shapeB : List (Vector2 K)) (positionB : Vector2 K) (rotationB : K)
    (mtv : Option (Vector2 K)) :
    (sat_collision M shapeA positionA rotationA shapeB positionB rotationB mtv).1 =
      (sat_search M shapeA positionA rotationA shapeB positionB rotationB).isSome := by
  unfold sat_collision
  cases sat_search M shapeA positionA rotationA shapeB positionB rotationB with
  | none => rfl
  | some st => rfl

/-- The search survives exactly when every axis of the list shows overlap. -/
theorem sat_fold_isSome_iff (M : FloatMath K)
    (shapeA : List (Vector2 K)) (positionA : Vector2 K) (rotationA : K)
    (shapeB : List (Vector2 K)) (positionB : Vector2 K) (rotationB : K)
    (ns : List (Vector2 K)) (st : K × Vector2 K) :
    (sat_fold M shapeA positionA rotationA shapeB positionB rotationB ns st).isSome = true ↔
      ∀ n ∈ ns,
        (axis_overlap M shapeA positionA rotationA shapeB positionB rotationB n).isSome = true := by
  induction ns generalizing st with
  | nil => simp [sat_fold]
  | cons n ns ih =>
    simp only [sat_fold, sat_axis_step_eq, List.mem_cons, forall_eq_or_imp]
    cases h : axis_overlap M shapeA positionA rotationA shapeB positionB rotationB n with
    | none => simp
    | some o =>
      simp only [Option.isSome_some, true_and]
      split_ifs
      · exact ih _
      · exact ih _

/-- The result of the search: a lower bound of all overlaps, and either the
initial state or the first axis attaining the least overlap. -/
theorem sat_fold_first_min (M : FloatMath K)
    (shapeA : List (Vector2 K)) (positionA : Vector2 K) (rotationA : K)
    (shapeB : List (Vector2 K)) (positionB : Vector2 K) (rotationB : K)
    (ns : List (Vector2 K)) (st st1 : K × Vector2 K)
    (h : sat_fold M shapeA positionA rotationA shapeB positionB rotationB ns st = some st1) :
    (∀ n ∈ ns, ∃ o,
        axis_overlap M shapeA positionA rotationA shapeB positionB rotationB n = some o ∧
          st1.1 ≤ o) ∧
    st1.1 ≤ st.1 ∧
    (st1 = st ∨ ∃ (k : Nat) (n : Vector2 K), ns[k]? = some n ∧ st1.2 = n ∧ st1.1 < st.1 ∧
        axis_overlap M shapeA positionA rotationA shapeB positionB rotationB n = some st1.1 ∧
        ∀ j : Nat, j < k → ∀ (n1 : Vector2 K) (o1 : K), ns[j]? = some n1 →
          axis_overlap M shapeA positionA rotationA shapeB positionB rotationB n1 = some o1 →
          st1.1 < o1) := by
  induction ns generalizing st with
  | nil =>
    simp only [sat_fold, Option.some.injEq] at h
    subst h
    simp
  | cons n ns ih =>
    simp only [sat_fold, sat_axis_step_eq] at h
    cases ho : axis_overlap M shapeA positionA rotationA shapeB positionB rotationB n with
    | none => rw [ho] at h; simp at h
    | some o =>
      rw [ho] at h
      simp only at h
      by_cases hlt : o < st.1
      · rw [if_pos hlt] at h
        obtain ⟨hb, hle, hc⟩ := ih _ h
        simp only at hle
        refine ⟨?_, hle.trans hlt.le, Or.inr ?_⟩
        · intro n1 hn1
          rcases List.mem_cons.mp hn1 with rfl | hn1
          · exact ⟨o, ho, hle⟩
          · exact hb n1 hn1
        · rcases hc with hc | ⟨k, n1, hk, hn, hlt1, hov, hj⟩
          · subst hc
            refine ⟨0, n, by simp, rfl, hlt, ho, ?_⟩
            intro j hj0
            exact absurd hj0 (Nat.not_lt_zero j)
          · simp only at hlt1
            refine ⟨k + 1, n1, by simpa using hk, hn, hlt1.trans hlt, hov, ?_⟩
            intro j hjk n2 o2 hn2 ho2
            cases j with
            | zero =>
              simp only [List.getElem?_cons_zero, Option.some.injEq] at hn2
              subst hn2
              rw [ho] at ho2
              simp only [Option.some.injEq] at ho2
              subst ho2
              exact hlt1
            | succ j =>
              simp only [List.getElem?_cons_succ] at hn2
              exact hj j (by omega) n2 o2 hn2 ho2
      · rw [if_neg hlt] at h
        obtain ⟨hb, hle, hc⟩ := ih _ h
        refine ⟨?_, hle, ?_⟩
        · intro n1 hn1
          rcases List.mem_cons.mp hn1 with rfl | hn1
          · exact ⟨o, ho, hle.trans (not_lt.mp hlt)⟩
          · exact hb n1 hn1
        · rcases hc with hc | ⟨k, n1, hk, hn, hlt1, hov, hj⟩
          · exact Or.inl hc
          · refine Or.inr ⟨k + 1, n1, by simpa using hk, hn, hlt1, hov, ?_⟩
            intro j hjk n2 o2 hn2 ho2
            cases j with
            | zero =>
              simp only [List.getElem?_cons_zero, Option.some.injEq] at hn2
              subst hn2
              rw [ho] at ho2
              simp only [Option.some.injEq] at ho2
              subst ho2
              exact lt_of_lt_of_le hlt1 (not_lt.mp hlt)
            | succ j =>
              simp only [List.getElem?_cons_succ] at hn2
              exact hj j (by omega) n2 o2 hn2 ho2

end SatLemmas

section HullLemmas
variable {K : Type} [LinearOrderedField K]

theorem axis_overlap_comm_isSome (M : FloatMath K)
    (shapeA : List (Vector2 K)) (positionA : Vector2 K) (rotationA : K)
    (shapeB : List (Vector2 K)) (positionB : Vector2 K) (rotationB : K) (n : Vector2 K) :
    (axis_overlap M shapeA positionA rotationA shapeB positionB rotationB n).isSome =
      (axis_overlap M shapeB positionB rotationB shapeA positionA rotationA n).isSome :=
  is_overlap_comm_isSome _ _ _ _

/-- A weighted sum with non-negative weights projects between the weighted
bounds of the vertices. -/
theorem combine_dot_bounds (axis : Vector2 K) (lo hi : K) :
    ∀ (w : List K) (vs : List (Vector2 K)), w.length = vs.length → (∀ c ∈ w, 0 ≤ c) →
      (∀ v ∈ vs, lo ≤ Vector2DotProduct v axis ∧ Vector2DotProduct v axis ≤ hi) →
      lo * w.sum ≤ Vector2DotProduct (combine w vs) axis ∧
        Vector2DotProduct (combine w vs) axis ≤ hi * w.sum
  | [], [], _, _, _ => by simp [combine, Vector2DotProduct]
  | [], _ :: _, h, _, _ => by simp at h
  | _ :: _, [], h, _, _ => by simp at h
  | c :: cs, v :: vs, h, hw, hv => by
    have hc : 0 ≤ c := hw c (List.mem_cons_self _ _)
    obtain ⟨h1, h2⟩ := combine_dot_bounds axis lo hi cs vs (by simpa using h)
      (fun d hd => hw d (List.mem_cons_of_mem _ hd))
      (fun u hu => hv u (List.mem_cons_of_mem _ hu))
    obtain ⟨h3, h4⟩ := hv v (List.mem_cons_self _ _)
    have e : Vector2DotProduct (combine (c :: cs) (v :: vs)) axis =
        c * Vector2DotProduct v axis + Vector2DotProduct (combine cs vs) axis := by
      simp only [combine, Vector2DotProduct, Vector2Add, Vector2Scale]; ring
    rw [e, List.sum_cons]
    constructor
    · nlinarith [mul_le_mul_of_nonneg_left h3 hc]
    · nlinarith [mul_le_mul_of_nonneg_left h4 hc]

/-- A point of a polygon projects between the extreme projections of its
vertices. -/
theorem inPolygon_dot_bounds {vs : List (Vector2 K)} {p : Vector2 K} (hp : InPolygon vs p)
    (axis : Vector2 K) (lo hi : K)
    (hv : ∀ v ∈ vs, lo ≤ Vector2DotProduct v axis ∧ Vector2DotProduct v axis ≤ hi) :
    lo ≤ Vector2DotProduct p axis ∧ Vector2DotProduct p axis ≤ hi := by
  obtain ⟨w, hlen, hw, hsum, rfl⟩ := hp
  have h := combine_dot_bounds axis lo hi w vs hlen hw hv
  rw [hsum, mul_one, mul_one] at h
  exact h

theorem inPolygon_project_bounds (M : FloatMath K) (points : List (Vector2 K))
    (position : Vector2 K) (rotation : K) (axis p : Vector2 K)
    (hp : InPolygon (transformed M points position rotation) p) :
    (project_onto_vector M points position rotation axis).1 ≤ Vector2DotProduct p axis ∧
      Vector2DotProduct p axis ≤ (project_onto_vector M points position rotation axis).2 := by
  apply inPolygon_dot_bounds hp
  intro v hv
  obtain ⟨q, hq, rfl⟩ := List.mem_map.mp hv
  exact project_bounds M points position rotation axis q hq

end HullLemmas


section MtvLemmas
variable {K : Type} [LinearOrderedField K]

theorem sat_axes_unit {M : FloatMath K} (hM : M.Exact) (shapeA shapeB : List (Vector2 K))
    (hA : EdgesNonZero shapeA) (hB : EdgesNonZero shapeB) (n : Vector2 K)
    (hn : n ∈ sat_axes M shapeA shapeB) : n.x * n.x + n.y * n.y = 1 := by
  simp only [sat_axes, List.mem_append, List.mem_map, List.mem_range] at hn
  rcases hn with ⟨i, hi, rfl⟩ | ⟨i, hi, rfl⟩
  · exact edge_normal_unit hM _ _ (hA i hi)
  · exact edge_normal_unit hM _ _ (hB i hi)

theorem sat_axes_zero_or_unit {M : FloatMath K} (hM : M.Exact) (shapeA shapeB : List (Vector2 K))
    (n : Vector2 K) (hn : n ∈ sat_axes M shapeA shapeB) :
    n = ⟨0, 0⟩ ∨ n.x * n.x + n.y * n.y = 1 := by
  simp only [sat_axes, List.mem_append, List.mem_map, List.mem_range] at hn
  rcases hn with ⟨i, _, rfl⟩ | ⟨i, _, rfl⟩
  · exact normalize_zero_or_unit hM _
  · exact normalize_zero_or_unit hM _

theorem length_scale_unit {M : FloatMath K} (hM : M.Exact) (n : Vector2 K) (o : K)
    (hn : n.x * n.x + n.y * n.y = 1) (ho : 0 ≤ o) : Vector2Length M (Vector2Scale n o) = o := by
  have e : n.x * o * (n.x * o) + n.y * o * (n.y * o) = o * o := by
    have : n.x * o * (n.x * o) + n.y * o * (n.y * o) = (n.x * n.x + n.y * n.y) * (o * o) := by ring
    rw [this, hn, one_mul]
  simp only [Vector2Length, Vector2Scale, e]
  exact hM.sqrtf_mul_self_eq ho

theorem sat_collision_some {M : FloatMath K}
    {shapeA : List (Vector2 K)} {positionA : Vector2 K} {rotationA : K}
    {shapeB : List (Vector2 K)} {positionB : Vector2 K} {rotationB : K}
    {v m : Vector2 K}
    (h : sat_collision M shapeA positionA rotationA shapeB positionB rotationB (some v) =
      (true, some m)) :
    ∃ (o : K) (n : Vector2 K),
      sat_search M shapeA positionA rotationA shapeB positionB rotationB = some (o, n) ∧
      m = Vector2Scale (Vector2Normalize M n) o := by
  unfold sat_collision at h
  cases hs : sat_search M shapeA positionA rotationA shapeB positionB rotationB with
  | none => rw [hs] at h; simp at h
  | some st =>
    obtain ⟨o, n⟩ := st
    rw [hs] at h
    simp only [Option.map_some', Prod.mk.injEq, Option.some.injEq, true_and] at h
    exact ⟨o, n, rfl, h.symm⟩

/-- Shifting the right one of two overlapping intervals by the overlap amount
brings the overlap amount to zero. -/
theorem is_overlap_shift {a b c d o : K} (hab : a ≤ b) (hcd : c ≤ d)
    (h : is_overlap a b c d = some o) :
    is_overlap (a + o) (b + o) c d = some 0 ∨ is_overlap a b (c + o) (d + o) = some 0 := by
  have ho := is_overlap_nonneg h
  unfold is_overlap at h
  split_ifs at h with h1 h2
  · simp only [Option.some.injEq] at h
    right
    unfold is_overlap
    have hn : ¬(b < c + o ∨ d + o < a) := by
      rintro (hh | hh) <;> linarith
    rw [if_neg hn, if_pos (by linarith)]
    congr 1
    linarith
  · simp only [Option.some.injEq] at h
    left
    unfold is_overlap
    have hn : ¬(b + o < c ∨ d < a + o) := by
      rintro (hh | hh) <;> linarith
    rw [if_neg hn, if_neg (by linarith)]
    congr 1
    linarith

theorem axis_overlap_zero_axis (M : FloatMath K)
    (shapeA : List (Vector2 K)) (positionA : Vector2 K) (rotationA : K)
    (shapeB : List (Vector2 K)) (positionB : Vector2 K) (rotationB : K) :
    axis_overlap M shapeA positionA rotationA shapeB positionB rotationB ⟨0, 0⟩ = some 0 := by
  simp [axis_overlap, project_zero_axis, is_overlap]

/-- The final state of the search: the axis is zero, or it is a unit vector
whose overlap is the recorded amount. -/
theorem sat_search_axis {M : FloatMath K} (hM : M.Exact)
    {shapeA : List (Vector2 K)} {positionA : Vector2 K} {rotationA : K}
    {shapeB : List (Vector2 K)} {positionB : Vector2 K} {rotationB : K}
    {o : K} {n : Vector2 K}
    (h : sat_search M shapeA positionA rotationA shapeB positionB rotationB = some (o, n)) :
    n = ⟨0, 0⟩ ∨ (n.x * n.x + n.y * n.y = 1 ∧
      axis_overlap M shapeA positionA rotationA shapeB positionB rotationB n = some o) := by
  rw [sat_search_eq_fold] at h
  obtain ⟨-, -, hc⟩ := sat_fold_first_min M shapeA positionA rotationA shapeB positionB
    rotationB _ _ _ h
  rcases hc with hc | ⟨k, n1, hk, rfl, -, hov, -⟩
  · simp only [Prod.mk.injEq] at hc
    exact Or.inl hc.2
  · rcases sat_axes_zero_or_unit hM shapeA shapeB _ (List.getElem?_mem hk) with h0 | h1
    · exact Or.inl h0
    · exact Or.inr ⟨h1, hov⟩

end MtvLemmas

section ScenarioLemmas
variable {K : Type} [LinearOrderedField K]

theorem normalize_of_sq {M : FloatMath K} (hM : M.Exact) (v : Vector2 K) (L : K) (hL : 0 < L)
    (h : v.x * v.x + v.y * v.y = L * L) : Vector2Normalize M v = ⟨v.x / L, v.y / L⟩ := by
  have hs : M.sqrtf (v.x * v.x + v.y * v.y) = L := by
    rw [h]; exact hM.sqrtf_mul_self_eq hL.le
  simp [Vector2Normalize, hs, hL, div_eq_mul_inv]

theorem transform_zero_rotation {M : FloatMath K} (hM : M.Exact) (position p : Vector2 K) :
    transform M position 0 p = Vector2Add p position := by
  simp [transform, Vector2Rotate, hM.cosf_zero, hM.sinf_zero]

theorem squares_axes {M : FloatMath K} (hM : M.Exact) :
    sat_axes M (squareA : List (Vector2 K)) squareB =
      [⟨0, 1⟩, ⟨-1, 0⟩, ⟨0, -1⟩, ⟨1, 0⟩, ⟨0, 1⟩, ⟨-1, 0⟩, ⟨0, -1⟩, ⟨1, 0⟩] := by
  have hrange : List.range 4 = [0, 1, 2, 3] := by decide
  have n1 : Vector2Normalize M (⟨0, 10⟩ : Vector2 K) = ⟨0, 1⟩ := by
    rw [normalize_of_sq hM _ 10 (by norm_num) (by norm_num)]; norm_num
  have n2 : Vector2Normalize M (⟨-10, 0⟩ : Vector2 K) = ⟨-1, 0⟩ := by
    rw [normalize_of_sq hM _ 10 (by norm_num) (by norm_num)]; norm_num
  have n3 : Vector2Normalize M (⟨0, -10⟩ : Vector2 K) = ⟨0, -1⟩ := by
    rw [normalize_of_sq hM _ 10 (by norm_num) (by norm_num)]; norm_num
  have n4 : Vector2Normalize M (⟨10, 0⟩ : Vector2 K) = ⟨1, 0⟩ := by
    rw [normalize_of_sq hM _ 10 (by norm_num) (by norm_num)]; norm_num
  norm_num [sat_axes, squareA, squareB, hrange, edge_normal, Vector2EdgeNormal, Vector2Subtract,
    Vector2Zero, n1, n2, n3, n4]

theorem squares_overlap {M : FloatMath K} (hM : M.Exact) (n : Vector2 K)
    (hn : n ∈ ([⟨0, 1⟩, ⟨-1, 0⟩, ⟨0, -1⟩, ⟨1, 0⟩] : List (Vector2 K))) :
    axis_overlap M squareA ⟨0, 0⟩ 0 squareB ⟨0, 0⟩ 0 n = some 5 := by
  simp only [List.mem_cons, List.mem_singleton, List.not_mem_nil, or_false] at hn
  rcases hn with rfl | rfl | rfl | rfl <;>
  norm_num [axis_overlap, project_onto_vector, project_step, squareA, squareB, Vector2Zero,
    Vector2DotProduct, Vector2Add, Vector2Rotate, hM.cosf_zero, hM.sinf_zero, is_overlap]

theorem squares_search {M : FloatMath K} (hM : M.Exact) :
    sat_search M (squareA : List (Vector2 K)) ⟨0, 0⟩ 0 squareB ⟨0, 0⟩ 0 = some (5, ⟨0, 1⟩) := by
  have h1 := squares_overlap hM (⟨0, 1⟩ : Vector2 K) (by simp)
  have h2 := squares_overlap hM (⟨-1, 0⟩ : Vector2 K) (by simp)
  have h3 := squares_overlap hM (⟨0, -1⟩ : Vector2 K) (by simp)
  have h4 := squares_overlap hM (⟨1, 0⟩ : Vector2 K) (by simp)
  rw [sat_search_eq_fold, squares_axes hM]
  norm_num [sat_fold, sat_axis_step_eq, h1, h2, h3, h4, FLT_MAX]

theorem squares_collision {M : FloatMath K} (hM : M.Exact) (v : Vector2 K) :
    sat_collision M (squareA : List (Vector2 K)) ⟨0, 0⟩ 0 squareB ⟨0, 0⟩ 0 (some v) =
      (true, some ⟨0, 5⟩) := by
  have hu : Vector2Normalize M (⟨0, 1⟩ : Vector2 K) = ⟨0, 1⟩ :=
    normalize_of_unit hM _ (by norm_num)
  simp [sat_collision, squares_search hM, hu, Vector2Scale]

theorem squareA_edges : EdgesNonZero (squareA : List (Vector2 K)) := by
  intro i hi
  simp only [squareA, List.length_cons, List.length_nil] at hi
  interval_cases i <;> norm_num [squareA, Vector2Zero]

theorem squareB_edges : EdgesNonZero (squareB : List (Vector2 K)) := by
  intro i hi
  simp only [squareB, List.length_cons, List.length_nil] at hi
  interval_cases i <;> norm_num [squareB, Vector2Zero]

theorem big_square_edges : EdgesNonZero (centredSquare (FLT_MAX : K)) := by
  intro i hi
  simp only [centredSquare, List.length_cons, List.length_nil] at hi
  interval_cases i <;> norm_num [centredSquare, Vector2Zero, FLT_MAX]

theorem big_square_axes {M : FloatMath K} (hM : M.Exact) :
    sat_axes M (centredSquare (FLT_MAX : K)) (centredSquare FLT_MAX) =
      [⟨0, 1⟩, ⟨-1, 0⟩, ⟨0, -1⟩, ⟨1, 0⟩, ⟨0, 1⟩, ⟨-1, 0⟩, ⟨0, -1⟩, ⟨1, 0⟩] := by
  have hrange : List.range 4 = [0, 1, 2, 3] := by decide
  have n1 : Vector2Normalize M (⟨0, 2 * FLT_MAX⟩ : Vector2 K) = ⟨0, 1⟩ := by
    rw [normalize_of_sq hM _ (2 * FLT_MAX) (by norm_num [FLT_MAX]) (by norm_num)]
    norm_num [FLT_MAX]
  have n2 : Vector2Normalize M (⟨-(2 * FLT_MAX), 0⟩ : Vector2 K) = ⟨-1, 0⟩ := by
    rw [normalize_of_sq hM _ (2 * FLT_MAX) (by norm_num [FLT_MAX]) (by norm_num)]
    norm_num [FLT_MAX]
  have n3 : Vector2Normalize M (⟨0, -(2 * FLT_MAX)⟩ : Vector2 K) = ⟨0, -1⟩ := by
    rw [normalize_of_sq hM _ (2 * FLT_MAX) (by norm_num [FLT_MAX]) (by norm_num)]
    norm_num [FLT_MAX]
  have n4 : Vector2Normalize M (⟨2 * FLT_MAX, 0⟩ : Vector2 K) = ⟨1, 0⟩ := by
    rw [normalize_of_sq hM _ (2 * FLT_MAX) (by norm_num [FLT_MAX]) (by norm_num)]
    norm_num [FLT_MAX]
  have e1 : (FLT_MAX : K) - -FLT_MAX = 2 * FLT_MAX := by ring
  have e2 : -(FLT_MAX : K) - FLT_MAX = -(2 * FLT_MAX) := by ring
  simp only [sat_axes, centredSquare, hrange, edge_normal, Vector2EdgeNormal, Vector2Subtract,
    Vector2Zero, List.length_cons, List.length_nil, List.map_cons, List.map_nil,
    List.getD_cons_zero, List.getD_cons_succ, sub_self, neg_zero, e1, e2, neg_neg,
    n1, n2, n3, n4, List.cons_append, List.nil_append, Nat.reduceAdd, Nat.reduceMod]

theorem big_square_overlap {M : FloatMath K} (hM : M.Exact) (n : Vector2 K)
    (hn : n ∈ ([⟨0, 1⟩, ⟨-1, 0⟩, ⟨0, -1⟩, ⟨1, 0⟩] : List (Vector2 K))) :
    axis_overlap M (centredSquare FLT_MAX) ⟨0, 0⟩ 0 (centredSquare FLT_MAX) ⟨0, 0⟩ 0 n =
      some (2 * FLT_MAX) := by
  simp only [List.mem_cons, List.mem_singleton, List.not_mem_nil, or_false] at hn
  rcases hn with rfl | rfl | rfl | rfl <;>
  norm_num [axis_overlap, project_onto_vector, project_step, centredSquare, Vector2Zero,
    Vector2DotProduct, Vector2Add, Vector2Rotate, hM.cosf_zero, hM.sinf_zero, is_overlap, FLT_MAX]

theorem big_square_collision {M : FloatMath K} (hM : M.Exact) (v : Vector2 K) :
    sat_collision M (centredSquare (FLT_MAX : K)) ⟨0, 0⟩ 0 (centredSquare FLT_MAX) ⟨0, 0⟩ 0
      (some v) = (true, some ⟨0, 0⟩) := by
  have h1 := big_square_overlap hM (⟨0, 1⟩ : Vector2 K) (by simp)
  have h2 := big_square_overlap hM (⟨-1, 0⟩ : Vector2 K) (by simp)
  have h3 := big_square_overlap hM (⟨0, -1⟩ : Vector2 K) (by simp)
  have h4 := big_square_overlap hM (⟨1, 0⟩ : Vector2 K) (by simp)
  have hF : ¬ (2 * (FLT_MAX : K) < FLT_MAX) := by norm_num [FLT_MAX]
  have hs : sat_search M (centredSquare (FLT_MAX : K)) ⟨0, 0⟩ 0 (centredSquare FLT_MAX) ⟨0, 0⟩ 0 =
      some (FLT_MAX, ⟨0, 0⟩) := by
    rw [sat_search_eq_fold, big_square_axes hM]
    simp only [sat_fold, sat_axis_step_eq, h1, h2, h3, h4, hF, if_false]
  simp [sat_collision, hs, normalize_zero hM, Vector2Scale]

theorem big_square_not_first_min {M : FloatMath K} (hM : M.Exact) :
    ¬ IsFirstMinMtv M (centredSquare (FLT_MAX : K)) ⟨0, 0⟩ 0 (centredSquare FLT_MAX) ⟨0, 0⟩ 0
      ⟨0, 0⟩ := by
  rintro ⟨k, n, o, hk, hov, -, -, -, hlen⟩
  have hmem := List.getElem?_mem hk
  rw [big_square_axes hM] at hmem
  have h2 := big_square_overlap hM n (by
    simp only [List.mem_cons, List.mem_singleton, List.not_mem_nil, or_false] at hmem ⊢
    tauto)
  rw [h2] at hov
  simp only [Option.some.injEq] at hov
  have h0 : Vector2Length M (⟨0, 0⟩ : Vector2 K) = 0 := by
    simp [Vector2Length, hM.sqrtf_zero]
  rw [h0, ← hov] at hlen
  norm_num [FLT_MAX] at hlen

theorem rotated_axes {M : FloatMath K} (hM : M.Exact) :
    sat_axes M (triangle345 : List (Vector2 K)) unitSquare =
      [⟨0, 1⟩, ⟨-1, 0⟩, ⟨3 / 5, -4 / 5⟩, ⟨0, 1⟩, ⟨-1, 0⟩, ⟨0, -1⟩, ⟨1, 0⟩] := by
  have r3 : List.range 3 = [0, 1, 2] := by decide
  have r4 : List.range 4 = [0, 1, 2, 3] := by decide
  have n1 : Vector2Normalize M (⟨0, 4⟩ : Vector2 K) = ⟨0, 1⟩ := by
    rw [normalize_of_sq hM _ 4 (by norm_num) (by norm_num)]; norm_num
  have n2 : Vector2Normalize M (⟨-3, 0⟩ : Vector2 K) = ⟨-1, 0⟩ := by
    rw [normalize_of_sq hM _ 3 (by norm_num) (by norm_num)]; norm_num
  have n3 : Vector2Normalize M (⟨3, -4⟩ : Vector2 K) = ⟨3 / 5, -4 / 5⟩ := by
    rw [normalize_of_sq hM _ 5 (by norm_num) (by norm_num)]
  have u1 : Vector2Normalize M (⟨0, 1⟩ : Vector2 K) = ⟨0, 1⟩ :=
    normalize_of_unit hM _ (by norm_num)
  have u2 : Vector2Normalize M (⟨-1, 0⟩ : Vector2 K) = ⟨-1, 0⟩ :=
    normalize_of_unit hM _ (by norm_num)
  have u3 : Vector2Normalize M (⟨0, -1⟩ : Vector2 K) = ⟨0, -1⟩ :=
    normalize_of_unit hM _ (by norm_num)
  have u4 : Vector2Normalize M (⟨1, 0⟩ : Vector2 K) = ⟨1, 0⟩ :=
    normalize_of_unit hM _ (by norm_num)
  norm_num [sat_axes, triangle345, unitSquare, r3, r4, edge_normal, Vector2EdgeNormal,
    Vector2Subtract, Vector2Zero, n1, n2, n3, u1, u2, u3, u4]

theorem rotated_overlap {M : FloatMath K} (hM : M.Exact)
    (hc : M.cosf (M.DEG2RAD * 90) = 0) (hs : M.sinf (M.DEG2RAD * 90) = 1) (n : Vector2 K)
    (hn : n ∈ ([⟨0, 1⟩, ⟨-1, 0⟩, ⟨3 / 5, -4 / 5⟩, ⟨0, 1⟩, ⟨-1, 0⟩, ⟨0, -1⟩, ⟨1, 0⟩] :
      List (Vector2 K))) :
    (axis_overlap M triangle345 ⟨0, 0⟩ 90 unitSquare ⟨-3, 0⟩ 0 n).isSome = true := by
  simp only [List.mem_cons, List.mem_singleton, List.not_mem_nil, or_false] at hn
  rcases hn with rfl | rfl | rfl | rfl | rfl | rfl | rfl <;>
  norm_num [axis_overlap, project_onto_vector, project_step, triangle345, unitSquare, Vector2Zero,
    Vector2DotProduct, Vector2Add, Vector2Rotate, hM.cosf_zero, hM.sinf_zero, hc, hs, is_overlap]

theorem rotated_disjoint {M : FloatMath K} (hM : M.Exact)
    (hc : M.cosf (M.DEG2RAD * 90) = 0) (hs : M.sinf (M.DEG2RAD * 90) = 1) (p : Vector2 K) :
    ¬(InPolygon (transformed M triangle345 ⟨0, 0⟩ 90) p ∧
      InPolygon (transformed M unitSquare ⟨-3, 0⟩ 0) p) := by
  rintro ⟨hA, hB⟩
  have h1 := inPolygon_dot_bounds hA ⟨4, 3⟩ 0 12 (by
    intro v hv
    simp only [transformed, triangle345, List.map_cons, List.map_nil, List.mem_cons,
      List.mem_singleton, List.not_mem_nil, or_false] at hv
    rcases hv with rfl | rfl | rfl <;>
    norm_num [transform, Vector2DotProduct, Vector2Add, Vector2Rotate, hc, hs])
  have h2 := inPolygon_dot_bounds hB ⟨4, 3⟩ (-12) (-5) (by
    intro v hv
    simp only [transformed, unitSquare, List.map_cons, List.map_nil, List.mem_cons,
      List.mem_singleton, List.not_mem_nil, or_false] at hv
    rcases hv with rfl | rfl | rfl | rfl <;>
    norm_num [transform, Vector2DotProduct, Vector2Add, Vector2Rotate, hM.cosf_zero,
      hM.sinf_zero])
  linarith [h1.1, h2.2]

end ScenarioLemmas

section PolygonLemmas
variable {K : Type} [LinearOrderedField K]

/-! ### Ray casting against a strictly convex polygon -/

theorem side_def (a b p : Vector2 K) :
    side a b p = (b.x - a.x) * (p.y - a.y) - (b.y - a.y) * (p.x - a.x) := rfl

theorem edge_hit_up {a b p : Vector2 K} (h1 : a.y ≤ p.y) (h2 : p.y < b.y) :
    edge_hit b a p = true ↔ 0 < side a b p := by
  have hD : a.y - b.y < 0 := by linarith
  have e : side a b p = (p.x - b.x) * (a.y - b.y) - (a.x - b.x) * (p.y - b.y) := by
    rw [side_def]; ring
  have hb : decide (b.y > p.y) = true := by simpa using h2
  have ha : decide (a.y > p.y) = false := by simpa using h1
  simp only [edge_hit, hb, ha, Bool.true_bne, Bool.not_false, Bool.true_and, decide_eq_true_eq]
  rw [← sub_lt_iff_lt_add, lt_div_iff_of_neg hD, e]
  constructor <;> intro h <;> linarith

theorem edge_hit_down {a b p : Vector2 K} (h1 : p.y < a.y) (h2 : b.y ≤ p.y) :
    edge_hit b a p = true ↔ side a b p < 0 := by
  have hD : 0 < a.y - b.y := by linarith
  have e : side a b p = (p.x - b.x) * (a.y - b.y) - (a.x - b.x) * (p.y - b.y) := by
    rw [side_def]; ring
  have hb : decide (b.y > p.y) = false := by simpa using h2
  have ha : decide (a.y > p.y) = true := by simpa using h1
  simp only [edge_hit, hb, ha, Bool.false_bne, Bool.true_and, decide_eq_true_eq]
  rw [← sub_lt_iff_lt_add, lt_div_iff₀ hD, e]
  constructor <;> intro h <;> linarith

theorem edge_hit_level {a b p : Vector2 K} (h : (a.y > p.y) ↔ (b.y > p.y)) :
    edge_hit b a p = false := by
  have : decide (b.y > p.y) = decide (a.y > p.y) := by
    by_cases hb : b.y > p.y
    · simp [hb, h.mpr hb]
    · have ha : ¬ a.y > p.y := fun c => hb (h.mp c)
      simp [hb, ha]
  simp [edge_hit, this]

/-- The side of a line is affine along an edge. -/
theorem side_crossX (c d a b : Vector2 K) (y : K) (hab : b.y - a.y ≠ 0) :
    side c d ⟨crossX a b y, y⟩ * (b.y - a.y) =
      (b.y - y) * side c d a + (y - a.y) * side c d b := by
  simp only [side_def, crossX]
  field_simp
  ring

theorem side_level (a b : Vector2 K) (x y : K) (hab : b.y - a.y ≠ 0) :
    side a b ⟨x, y⟩ = (b.y - a.y) * (crossX a b y - x) := by
  simp only [side_def, crossX]
  field_simp
  ring

/-- The side of a line is affine along a horizontal segment. -/
theorem side_between (c d : Vector2 K) (x0 x1 x y : K) :
    side c d ⟨x, y⟩ * (x1 - x0) =
      (x1 - x) * side c d ⟨x0, y⟩ + (x - x0) * side c d ⟨x1, y⟩ := by
  simp only [side_def]
  ring

theorem side_transform {M : FloatMath K} (hM : M.Exact) (position : Vector2 K) (rotation : K)
    (a b p : Vector2 K) :
    side (transform M position rotation a) (transform M position rotation b)
      (transform M position rotation p) = side a b p := by
  have h := hM.cos_sq_add_sin_sq (M.DEG2RAD * rotation)
  simp only [side_def, transform, Vector2Add, Vector2Rotate]
  generalize M.cosf (M.DEG2RAD * rotation) = c at h
  generalize M.sinf (M.DEG2RAD * rotation) = s at h
  have e : (b.x * c - b.y * s + position.x - (a.x * c - a.y * s + position.x)) *
        (p.x * s + p.y * c + position.y - (a.x * s + a.y * c + position.y)) -
      (b.x * s + b.y * c + position.y - (a.x * s + a.y * c + position.y)) *
        (p.x * c - p.y * s + position.x - (a.x * c - a.y * s + position.x)) =
      (c * c + s * s) * ((b.x - a.x) * (p.y - a.y) - (b.y - a.y) * (p.x - a.x)) := by ring
  rw [e, h, one_mul]

theorem side_self_left (a b : Vector2 K) : side a b a = 0 := by
  simp only [side_def]; ring

theorem side_self_right (a b : Vector2 K) : side a b b = 0 := by
  simp only [side_def]; ring

theorem periodic_mod {α : Type} (W : ℕ → α) (n : ℕ) (hper : ∀ k, W (k + n) = W k) (k : ℕ) :
    W (k % n) = W k := by
  have h : ∀ q r : ℕ, W (r + n * q) = W r := by
    intro q
    induction q with
    | zero => intro r; simp
    | succ q ih =>
      intro r
      rw [Nat.mul_succ, ← Nat.add_assoc, hper, ih]
  have := h (k / n) (k % n)
  rw [Nat.mod_add_div] at this
  exact this.symm

theorem periodic_eq_of_mod {α : Type} (W : ℕ → α) (n : ℕ) (hper : ∀ k, W (k + n) = W k)
    {k l : ℕ} (h : k % n = l % n) : W k = W l := by
  rw [← periodic_mod W n hper k, ← periodic_mod W n hper l, h]

/-- Weak convexity: every vertex is on the closed interior side of every edge. -/
theorem convex_weak (n : ℕ) (W : ℕ → Vector2 K) (hper : ∀ k, W (k + n) = W k) (s : K)
    (hconv : ∀ i k : ℕ, k % n ≠ i % n → k % n ≠ (i + 1) % n →
      0 < s * side (W i) (W (i + 1)) (W k)) (i k : ℕ) :
    0 ≤ s * side (W i) (W (i + 1)) (W k) := by
  by_cases h1 : k % n = i % n
  · rw [periodic_eq_of_mod W n hper h1, side_self_left, mul_zero]
  · by_cases h2 : k % n = (i + 1) % n
    · rw [periodic_eq_of_mod W n hper h2, side_self_right, mul_zero]
    · exact (hconv i k h1 h2).le

/-- Every point of the level line through an edge crossing is weakly inside
each edge line. -/
theorem convex_crossX (n : ℕ) (W : ℕ → Vector2 K) (hper : ∀ k, W (k + n) = W k) (s : K)
    (hconv : ∀ i k : ℕ, k % n ≠ i % n → k % n ≠ (i + 1) % n →
      0 < s * side (W i) (W (i + 1)) (W k)) (i l : ℕ) (y : K)
    (hstr : ((W l).y ≤ y ∧ y < (W (l + 1)).y) ∨ (y < (W l).y ∧ (W (l + 1)).y ≤ y)) :
    0 ≤ s * side (W i) (W (i + 1)) ⟨crossX (W l) (W (l + 1)) y, y⟩ := by
  have h1 := convex_weak n W hper s hconv i l
  have h2 := convex_weak n W hper s hconv i (l + 1)
  rcases hstr with ⟨ha, hb⟩ | ⟨ha, hb⟩
  · have hd : 0 < (W (l + 1)).y - (W l).y := by linarith
    have e := side_crossX (W i) (W (i + 1)) (W l) (W (l + 1)) y hd.ne'
    have : 0 ≤ s * side (W i) (W (i + 1)) ⟨crossX (W l) (W (l + 1)) y, y⟩ *
        ((W (l + 1)).y - (W l).y) := by
      rw [mul_assoc, e]
      have t1 : 0 ≤ ((W (l + 1)).y - y) * (s * side (W i) (W (i + 1)) (W l)) :=
        mul_nonneg (by linarith) h1
      have t2 : 0 ≤ (y - (W l).y) * (s * side (W i) (W (i + 1)) (W (l + 1))) :=
        mul_nonneg (by linarith) h2
      nlinarith
    exact nonneg_of_mul_nonneg_left this hd
  · have hd : 0 < (W l).y - (W (l + 1)).y := by linarith
    have e := side_crossX (W i) (W (i + 1)) (W l) (W (l + 1)) y (by linarith)
    have : 0 ≤ s * side (W i) (W (i + 1)) ⟨crossX (W l) (W (l + 1)) y, y⟩ *
        ((W l).y - (W (l + 1)).y) := by
      have e2 : s * side (W i) (W (i + 1)) ⟨crossX (W l) (W (l + 1)) y, y⟩ *
          ((W l).y - (W (l + 1)).y) =
          (y - (W (l + 1)).y) * (s * side (W i) (W (i + 1)) (W l)) +
            ((W l).y - y) * (s * side (W i) (W (i + 1)) (W (l + 1))) := by
        linear_combination (-s) * e
      rw [e2]
      have t1 : 0 ≤ (y - (W (l + 1)).y) * (s * side (W i) (W (i + 1)) (W l)) :=
        mul_nonneg (by linarith) h1
      have t2 : 0 ≤ ((W l).y - y) * (s * side (W i) (W (i + 1)) (W (l + 1))) :=
        mul_nonneg (by linarith) h2
      linarith
    exact nonneg_of_mul_nonneg_left this hd

theorem no_two_cycle {n k l : ℕ} (hn : 3 ≤ n) (h1 : l % n = (k + 1) % n)
    (h2 : k % n = (l + 1) % n) : False := by
  have e1 : Nat.ModEq n l (k + 1) := h1
  have e2 : Nat.ModEq n k (l + 1) := h2
  have e3 : Nat.ModEq n k (k + 2) := e2.trans (e1.add_right 1)
  have e4 := (Nat.modEq_iff_dvd' (by omega : k ≤ k + 2)).mp e3
  have e5 : n ∣ 2 := by simpa using e4
  have := Nat.le_of_dvd (by norm_num) e5
  omega

theorem succ_mod_cancel {n k l : ℕ} (h : (l + 1) % n = (k + 1) % n) : l % n = k % n := by
  have e : Nat.ModEq n (l + 1) (k + 1) := h
  exact Nat.ModEq.add_right_cancel' 1 e

/-- A level line crosses at most one upward edge of a strictly convex polygon. -/
theorem up_unique (n : ℕ) (hn : 3 ≤ n) (W : ℕ → Vector2 K) (hper : ∀ k, W (k + n) = W k)
    (s : K) (hs : s = 1 ∨ s = -1)
    (hconv : ∀ i k : ℕ, k % n ≠ i % n → k % n ≠ (i + 1) % n →
      0 < s * side (W i) (W (i + 1)) (W k)) (y : K) (k l : ℕ)
    (hk : (W k).y ≤ y ∧ y < (W (k + 1)).y) (hl : (W l).y ≤ y ∧ y < (W (l + 1)).y) :
    k % n = l % n := by
  have hs0 : s ≠ 0 := by rcases hs with rfl | rfl <;> norm_num
  have dk : 0 < (W (k + 1)).y - (W k).y := by linarith [hk.1, hk.2]
  have dl : 0 < (W (l + 1)).y - (W l).y := by linarith [hl.1, hl.2]
  have c1 := convex_crossX n W hper s hconv k l y (Or.inl hl)
  have c2 := convex_crossX n W hper s hconv l k y (Or.inl hk)
  rw [side_level _ _ _ _ dk.ne'] at c1
  rw [side_level _ _ _ _ dl.ne'] at c2
  have c1' : 0 ≤ s * (crossX (W k) (W (k + 1)) y - crossX (W l) (W (l + 1)) y) := by
    have : 0 ≤ ((W (k + 1)).y - (W k).y) *
        (s * (crossX (W k) (W (k + 1)) y - crossX (W l) (W (l + 1)) y)) := by
      linarith [c1]
    exact nonneg_of_mul_nonneg_right this dk
  have c2' : 0 ≤ s * (crossX (W l) (W (l + 1)) y - crossX (W k) (W (k + 1)) y) := by
    have : 0 ≤ ((W (l + 1)).y - (W l).y) *
        (s * (crossX (W l) (W (l + 1)) y - crossX (W k) (W (k + 1)) y)) := by
      linarith [c2]
    exact nonneg_of_mul_nonneg_right this dl
  have hX : crossX (W k) (W (k + 1)) y = crossX (W l) (W (l + 1)) y := by
    have : s * (crossX (W k) (W (k + 1)) y - crossX (W l) (W (l + 1)) y) = 0 := by linarith
    rcases mul_eq_zero.mp this with h | h
    · exact absurd h hs0
    · linarith
  -- the crossing of edge `l` lies on the line of edge `k`, and conversely
  have key : ∀ i j : ℕ, (W j).y ≤ y ∧ y < (W (j + 1)).y →
      crossX (W i) (W (i + 1)) y = crossX (W j) (W (j + 1)) y →
      (W (i + 1)).y - (W i).y ≠ 0 →
      j % n = i % n ∨ j % n = (i + 1) % n := by
    intro i j hj hXij hdi
    by_contra hne
    push_neg at hne
    have hpos := hconv i j hne.1 hne.2
    have w2 := convex_weak n W hper s hconv i (j + 1)
    have dj : 0 < (W (j + 1)).y - (W j).y := by linarith [hj.1, hj.2]
    have e := side_crossX (W i) (W (i + 1)) (W j) (W (j + 1)) y dj.ne'
    rw [side_level _ _ _ _ hdi, hXij, sub_self, mul_zero, zero_mul] at e
    have t1 : 0 < ((W (j + 1)).y - y) * (s * side (W i) (W (i + 1)) (W j)) :=
      mul_pos (by linarith [hj.2]) hpos
    have t2 : 0 ≤ (y - (W j).y) * (s * side (W i) (W (i + 1)) (W (j + 1))) :=
      mul_nonneg (by linarith [hj.1]) w2
    have : s * 0 = ((W (j + 1)).y - y) * (s * side (W i) (W (i + 1)) (W j)) +
        (y - (W j).y) * (s * side (W i) (W (i + 1)) (W (j + 1))) := by
      rw [e]; ring
    rw [mul_zero] at this
    linarith
  by_contra hne
  rcases key k l hl hX dk.ne' with h1 | h1
  · exact hne h1.symm
  · rcases key l k hk hX.symm dl.ne' with h2 | h2
    · exact hne h2
    · exact no_two_cycle hn h1 h2

/-- A level line crosses at most one downward edge of a strictly convex polygon. -/
theorem down_unique (n : ℕ) (hn : 3 ≤ n) (W : ℕ → Vector2 K) (hper : ∀ k, W (k + n) = W k)
    (s : K) (hs : s = 1 ∨ s = -1)
    (hconv : ∀ i k : ℕ, k % n ≠ i % n → k % n ≠ (i + 1) % n →
      0 < s * side (W i) (W (i + 1)) (W k)) (y : K) (k l : ℕ)
    (hk : y < (W k).y ∧ (W (k + 1)).y ≤ y) (hl : y < (W l).y ∧ (W (l + 1)).y ≤ y) :
    k % n = l % n := by
  have hs0 : s ≠ 0 := by rcases hs with rfl | rfl <;> norm_num
  have dk : 0 < (W k).y - (W (k + 1)).y := by linarith [hk.1, hk.2]
  have dl : 0 < (W l).y - (W (l + 1)).y := by linarith [hl.1, hl.2]
  have dk' : (W (k + 1)).y - (W k).y ≠ 0 := by linarith
  have dl' : (W (l + 1)).y - (W l).y ≠ 0 := by linarith
  have c1 := convex_crossX n W hper s hconv k l y (Or.inr hl)
  have c2 := convex_crossX n W hper s hconv l k y (Or.inr hk)
  rw [side_level _ _ _ _ dk'] at c1
  rw [side_level _ _ _ _ dl'] at c2
  have c1' : 0 ≤ s * (crossX (W l) (W (l + 1)) y - crossX (W k) (W (k + 1)) y) := by
    have : 0 ≤ ((W k).y - (W (k + 1)).y) *
        (s * (crossX (W l) (W (l + 1)) y - crossX (W k) (W (k + 1)) y)) := by
      linarith [c1]
    exact nonneg_of_mul_nonneg_right this dk
  have c2' : 0 ≤ s * (crossX (W k) (W (k + 1)) y - crossX (W l) (W (l + 1)) y) := by
    have : 0 ≤ ((W l).y - (W (l + 1)).y) *
        (s * (crossX (W k) (W (k + 1)) y - crossX (W l) (W (l + 1)) y)) := by
      linarith [c2]
    exact nonneg_of_mul_nonneg_right this dl
  have hX : crossX (W k) (W (k + 1)) y = crossX (W l) (W (l + 1)) y := by
    have : s * (crossX (W k) (W (k + 1)) y - crossX (W l) (W (l + 1)) y) = 0 := by linarith
    rcases mul_eq_zero.mp this with h | h
    · exact absurd h hs0
    · linarith
  have key : ∀ i j : ℕ, y < (W j).y ∧ (W (j + 1)).y ≤ y →
      crossX (W i) (W (i + 1)) y = crossX (W j) (W (j + 1)) y →
      (W (i + 1)).y - (W i).y ≠ 0 →
      (j + 1) % n = i % n ∨ (j + 1) % n = (i + 1) % n := by
    intro i j hj hXij hdi
    by_contra hne
    push_neg at hne
    have hpos := hconv i (j + 1) hne.1 hne.2
    have w2 := convex_weak n W hper s hconv i j
    have dj : (W (j + 1)).y - (W j).y ≠ 0 := by linarith [hj.1, hj.2]
    have e := side_crossX (W i) (W (i + 1)) (W j) (W (j + 1)) y dj
    rw [side_level _ _ _ _ hdi, hXij, sub_self, mul_zero, zero_mul] at e
    have t1 : 0 < ((W j).y - y) * (s * side (W i) (W (i + 1)) (W (j + 1))) :=
      mul_pos (by linarith [hj.1]) hpos
    have t2 : 0 ≤ (y - (W (j + 1)).y) * (s * side (W i) (W (i + 1)) (W j)) :=
      mul_nonneg (by linarith [hj.2]) w2
    have : s * 0 = -((y - (W (j + 1)).y) * (s * side (W i) (W (i + 1)) (W j))) -
        ((W j).y - y) * (s * side (W i) (W (i + 1)) (W (j + 1))) := by
      rw [e]; ring
    rw [mul_zero] at this
    linarith
  by_contra hne
  rcases key k l hl hX dk' with h1 | h1
  · rcases key l k hk hX.symm dl' with h2 | h2
    · exact no_two_cycle hn h2.symm h1.symm
    · exact hne (succ_mod_cancel h2)
  · exact hne (succ_mod_cancel h1).symm

theorem periodic_succ {α : Type} (W : ℕ → α) (n : ℕ) (hper : ∀ k, W (k + n) = W k) (k : ℕ) :
    W (k % n + 1) = W (k + 1) := by
  apply periodic_eq_of_mod W n hper
  exact Nat.ModEq.add_right 1 (Nat.mod_modEq k n)

/-- If some edge goes up through the level line, some edge goes down through
it, and conversely. -/
theorem up_iff_down (n : ℕ) (hn : 0 < n) (W : ℕ → Vector2 K) (hper : ∀ k, W (k + n) = W k)
    (y : K) :
    (∃ k, (W k).y ≤ y ∧ y < (W (k + 1)).y) ↔ (∃ k, y < (W k).y ∧ (W (k + 1)).y ≤ y) := by
  obtain ⟨m, rfl⟩ : ∃ m, n = m + 1 := ⟨n - 1, by omega⟩
  constructor
  · rintro ⟨k, h1, h2⟩
    by_contra hno
    push_neg at hno
    have h : ∀ j, y < (W (k + 1 + j)).y := by
      intro j
      induction j with
      | zero => exact h2
      | succ j ih => exact hno (k + 1 + j) ih
    have h3 := h m
    rw [show k + 1 + m = k + (m + 1) by ring, hper] at h3
    exact absurd h3 (not_lt.mpr h1)
  · rintro ⟨k, h1, h2⟩
    by_contra hno
    push_neg at hno
    have h : ∀ j, (W (k + 1 + j)).y ≤ y := by
      intro j
      induction j with
      | zero => exact h2
      | succ j ih => exact hno (k + 1 + j) ih
    have h3 := h m
    rw [show k + 1 + m = k + (m + 1) by ring, hper] at h3
    exact absurd h1 (not_lt.mpr h3)

/-- A point strictly inside every edge line has vertices on both sides of its
level line: some edge straddles the level. -/
theorem inside_straddle (n : ℕ) (hn : 0 < n) (W : ℕ → Vector2 K)
    (hper : ∀ k, W (k + n) = W k) (s : K) (p : Vector2 K)
    (hin : ∀ k, 0 < s * side (W k) (W (k + 1)) p) :
    ∃ k, (W k).y ≤ p.y ∧ p.y < (W (k + 1)).y := by
  by_contra hup
  have hdown : ¬ ∃ k, p.y < (W k).y ∧ (W (k + 1)).y ≤ p.y :=
    fun h => hup ((up_iff_down n hn W hper p.y).mpr h)
  push_neg at hup hdown
  -- all vertices are on the same side of the level line
  have hsame : ∀ k, (p.y < (W k).y ↔ p.y < (W 0).y) := by
    intro k
    induction k with
    | zero => rfl
    | succ k ih =>
      rw [← ih]
      constructor
      · intro h
        by_contra hc
        exact absurd h (not_lt.mpr (by
          have := hup k (not_lt.mp hc)
          exact this))
      · intro h
        exact hdown k h
  have hc : ∀ k, 0 < s * ((p.x - (W k).x) * (p.y - (W (k + 1)).y) -
      (p.x - (W (k + 1)).x) * (p.y - (W k).y)) := by
    intro k
    have := hin k
    rw [side_def] at this
    have e : (p.x - (W k).x) * (p.y - (W (k + 1)).y) -
        (p.x - (W (k + 1)).x) * (p.y - (W k).y) =
        ((W (k + 1)).x - (W k).x) * (p.y - (W k).y) -
          ((W (k + 1)).y - (W k).y) * (p.x - (W k).x) := by ring
    rw [e]; exact this
  have hprod : ∀ k, 0 < (p.y - (W k).y) * (p.y - (W (k + 1)).y) := by
    by_cases h0 : p.y < (W 0).y
    · intro k
      have a1 := (hsame k).mpr h0
      have a2 := (hsame (k + 1)).mpr h0
      exact mul_pos_of_neg_of_neg (by linarith) (by linarith)
    · have hle : ∀ k, 0 ≤ p.y - (W k).y := by
        intro k
        have : ¬ p.y < (W k).y := fun c => h0 ((hsame k).mp c)
        linarith [not_lt.mp this]
      have hne : ∀ k, 0 < p.y - (W (k + 1)).y := by
        intro k
        rcases (hle (k + 1)).lt_or_eq with h | h
        · exact h
        · exfalso
          have c1 := hc k
          have c2 := hc (k + 1)
          rw [← h] at c1 c2
          simp only [mul_zero, zero_sub, sub_zero] at c1 c2
          have d0 := hle k
          have d2 := hle (k + 1 + 1)
          -- `t = s * (p.x - x_{k+1})` would be both positive and negative
          have t1 : 0 < (s * (p.x - (W (k + 1)).x)) * (p.y - (W (k + 1 + 1)).y) := by
            linarith [c2]
          have t2 : 0 < -(s * (p.x - (W (k + 1)).x)) * (p.y - (W k).y) := by
            linarith [c1]
          have p1 : 0 < s * (p.x - (W (k + 1)).x) := by
            by_contra hc'
            have := mul_nonpos_of_nonpos_of_nonneg (not_lt.mp hc') d2
            linarith
          have := mul_nonneg p1.le d0
          linarith
      intro k
      have hk : 0 < p.y - (W k).y := by
        cases k with
        | zero =>
          obtain ⟨m, rfl⟩ : ∃ m, n = m + 1 := ⟨n - 1, by omega⟩
          have := hne m
          rw [show m + 1 = 0 + (m + 1) by ring, hper] at this
          exact this
        | succ k => exact hne k
      exact mul_pos hk (hne k)
  have hd : ∀ k, p.y - (W k).y ≠ 0 := by
    intro k h
    have := hprod k
    rw [h, zero_mul] at this
    exact lt_irrefl _ this
  -- the slope of the ray from `p` to the vertices is strictly monotone
  have hanti : StrictAnti (fun k => s * (p.x - (W k).x) / (p.y - (W k).y)) := by
    apply strictAnti_nat_of_succ_lt
    intro k
    have e : s * (p.x - (W k).x) / (p.y - (W k).y) -
        s * (p.x - (W (k + 1)).x) / (p.y - (W (k + 1)).y) =
        s * ((p.x - (W k).x) * (p.y - (W (k + 1)).y) -
          (p.x - (W (k + 1)).x) * (p.y - (W k).y)) /
          ((p.y - (W k).y) * (p.y - (W (k + 1)).y)) := by
      field_simp [hd k, hd (k + 1)]
      ring
    have : 0 < s * (p.x - (W k).x) / (p.y - (W k).y) -
        s * (p.x - (W (k + 1)).x) / (p.y - (W (k + 1)).y) := by
      rw [e]
      exact div_pos (hc k) (hprod k)
    linarith
  have := hanti hn
  simp only at this
  rw [show n = 0 + n by ring, hper] at this
  exact lt_irrefl _ this

theorem edge_hit_of_not_straddle {a b p : Vector2 K}
    (hup : ¬(a.y ≤ p.y ∧ p.y < b.y)) (hdown : ¬(p.y < a.y ∧ b.y ≤ p.y)) :
    edge_hit b a p = false := by
  apply edge_hit_level
  constructor
  · intro h
    by_contra hc
    exact hdown ⟨h, not_lt.mp hc⟩
  · intro h
    by_contra hc
    exact hup ⟨not_lt.mp hc, h⟩

theorem crossings_zero (n : ℕ) (W : ℕ → Vector2 K) (p : Vector2 K)
    (hup : ¬ ∃ k, (W k).y ≤ p.y ∧ p.y < (W (k + 1)).y)
    (hdown : ¬ ∃ k, p.y < (W k).y ∧ (W (k + 1)).y ≤ p.y) :
    crossings W p n = 0 := by
  apply Finset.sum_eq_zero
  intro k _
  have hl : edge_hit (W (k + 1)) (W k) p = false :=
    edge_hit_of_not_straddle (fun h => hup ⟨k, h⟩) (fun h => hdown ⟨k, h⟩)
  simp [hl]

/-- With one upward and one downward edge through the level line, only those
two edges can flip the result. -/
theorem crossings_two (n : ℕ) (hn : 3 ≤ n) (W : ℕ → Vector2 K) (hper : ∀ k, W (k + n) = W k)
    (s : K) (hs : s = 1 ∨ s = -1)
    (hconv : ∀ i k : ℕ, k % n ≠ i % n → k % n ≠ (i + 1) % n →
      0 < s * side (W i) (W (i + 1)) (W k)) (p : Vector2 K) (a b : ℕ)
    (ha : (W a).y ≤ p.y ∧ p.y < (W (a + 1)).y) (hb : p.y < (W b).y ∧ (W (b + 1)).y ≤ p.y) :
    crossings W p n =
      (if edge_hit (W (a + 1)) (W a) p = true then 1 else 0) +
        (if edge_hit (W (b + 1)) (W b) p = true then 1 else 0) := by
  have hn0 : 0 < n := by omega
  have ea : W (a % n) = W a := periodic_mod W n hper a
  have ea1 : W (a % n + 1) = W (a + 1) := periodic_succ W n hper a
  have eb : W (b % n) = W b := periodic_mod W n hper b
  have eb1 : W (b % n + 1) = W (b + 1) := periodic_succ W n hper b
  have hab : a % n ≠ b % n := by
    intro h
    have : W a = W b := periodic_eq_of_mod W n hper h
    rw [this] at ha
    exact absurd hb.1 (not_lt.mpr ha.1)
  unfold crossings
  rw [Finset.sum_eq_add (a % n) (b % n) hab]
  · rw [ea, ea1, eb, eb1]
  · intro c hc hne
    have hc' : c % n = c := Nat.mod_eq_of_lt (Finset.mem_range.mp hc)
    have hl : edge_hit (W (c + 1)) (W c) p = false := by
      apply edge_hit_of_not_straddle
      · intro h
        have := up_unique n hn W hper s hs hconv p.y c a h ha
        rw [hc'] at this
        exact hne.1 this
      · intro h
        have := down_unique n hn W hper s hs hconv p.y c b h hb
        rw [hc'] at this
        exact hne.2 this
    simp [hl]
  · intro h
    exact absurd (Finset.mem_range.mpr (Nat.mod_lt a hn0)) h
  · intro h
    exact absurd (Finset.mem_range.mpr (Nat.mod_lt b hn0)) h

/-- A point strictly inside a strictly convex polygon flips the result
exactly once. -/
theorem crossings_inside (n : ℕ) (hn : 3 ≤ n) (W : ℕ → Vector2 K)
    (hper : ∀ k, W (k + n) = W k) (s : K) (hs : s = 1 ∨ s = -1)
    (hconv : ∀ i k : ℕ, k % n ≠ i % n → k % n ≠ (i + 1) % n →
      0 < s * side (W i) (W (i + 1)) (W k)) (p : Vector2 K)
    (hin : ∀ k, 0 < s * side (W k) (W (k + 1)) p) :
    crossings W p n = 1 := by
  obtain ⟨a, ha⟩ := inside_straddle n (by omega) W hper s p hin
  obtain ⟨b, hb⟩ := (up_iff_down n (by omega) W hper p.y).mp ⟨a, ha⟩
  rw [crossings_two n hn W hper s hs hconv p a b ha hb]
  have h1 := edge_hit_up (a := W a) (b := W (a + 1)) (p := p) ha.1 ha.2
  have h2 := edge_hit_down (a := W b) (b := W (b + 1)) (p := p) hb.1 hb.2
  have ia := hin a
  have ib := hin b
  rcases hs with rfl | rfl
  · rw [one_mul] at ia ib
    have t1 : edge_hit (W (a + 1)) (W a) p = true := h1.mpr ia
    have t2 : ¬ edge_hit (W (b + 1)) (W b) p = true := fun c => absurd (h2.mp c) (not_lt.mpr ib.le)
    simp [t1, t2]
  · have ia' : side (W a) (W (a + 1)) p < 0 := by linarith
    have ib' : side (W b) (W (b + 1)) p < 0 := by linarith
    have t1 : ¬ edge_hit (W (a + 1)) (W a) p = true :=
      fun c => absurd (h1.mp c) (not_lt.mpr ia'.le)
    have t2 : edge_hit (W (b + 1)) (W b) p = true := h2.mpr ib'
    simp [t1, t2]

/-- A point strictly beyond some edge line of a strictly convex polygon flips
the result zero or two times. -/
theorem crossings_outside (n : ℕ) (hn : 3 ≤ n) (W : ℕ → Vector2 K)
    (hper : ∀ k, W (k + n) = W k) (s : K) (hs : s = 1 ∨ s = -1)
    (hconv : ∀ i k : ℕ, k % n ≠ i % n → k % n ≠ (i + 1) % n →
      0 < s * side (W i) (W (i + 1)) (W k)) (p : Vector2 K)
    (hout : ∃ k, s * side (W k) (W (k + 1)) p < 0) :
    crossings W p n = 0 ∨ crossings W p n = 2 := by
  by_cases hup : ∃ k, (W k).y ≤ p.y ∧ p.y < (W (k + 1)).y
  · obtain ⟨a, ha⟩ := hup
    obtain ⟨b, hb⟩ := (up_iff_down n (by omega) W hper p.y).mp ⟨a, ha⟩
    rw [crossings_two n hn W hper s hs hconv p a b ha hb]
    have h1 := edge_hit_up (a := W a) (b := W (a + 1)) (p := p) ha.1 ha.2
    have h2 := edge_hit_down (a := W b) (b := W (b + 1)) (p := p) hb.1 hb.2
    have da : 0 < (W (a + 1)).y - (W a).y := by linarith [ha.1, ha.2]
    have db : 0 < (W b).y - (W (b + 1)).y := by linarith [hb.1, hb.2]
    have la : side (W a) (W (a + 1)) p =
        ((W (a + 1)).y - (W a).y) * (crossX (W a) (W (a + 1)) p.y - p.x) :=
      side_level (W a) (W (a + 1)) p.x p.y da.ne'
    have lb : side (W b) (W (b + 1)) p =
        ((W (b + 1)).y - (W b).y) * (crossX (W b) (W (b + 1)) p.y - p.x) :=
      side_level (W b) (W (b + 1)) p.x p.y (by linarith)
    have h1' : edge_hit (W (a + 1)) (W a) p = true ↔ p.x < crossX (W a) (W (a + 1)) p.y := by
      rw [h1, la]
      constructor
      · intro h
        have := pos_of_mul_pos_right h da.le
        linarith
      · intro h
        exact mul_pos da (by linarith)
    have h2' : edge_hit (W (b + 1)) (W b) p = true ↔ p.x < crossX (W b) (W (b + 1)) p.y := by
      rw [h2, lb]
      constructor
      · intro h
        by_contra hc
        have : 0 ≤ ((W (b + 1)).y - (W b).y) * (crossX (W b) (W (b + 1)) p.y - p.x) :=
          mul_nonneg_of_nonpos_of_nonpos (by linarith) (by linarith [not_lt.mp hc])
        linarith
      · intro h
        exact mul_neg_of_neg_of_pos (by linarith) (by linarith)
    obtain ⟨e, he⟩ := hout
    have qa := convex_crossX n W hper s hconv e a p.y (Or.inl ha)
    have qb := convex_crossX n W hper s hconv e b p.y (Or.inr hb)
    by_cases ta : edge_hit (W (a + 1)) (W a) p = true
    · by_cases tb : edge_hit (W (b + 1)) (W b) p = true
      · right; simp [ta, tb]
      · exfalso
        have xa := h1'.mp ta
        have xb : crossX (W b) (W (b + 1)) p.y ≤ p.x := not_lt.mp (fun c => tb (h2'.mpr c))
        have hb2 := side_between (W e) (W (e + 1)) (crossX (W b) (W (b + 1)) p.y)
          (crossX (W a) (W (a + 1)) p.y) p.x p.y
        have hpos : 0 < crossX (W a) (W (a + 1)) p.y - crossX (W b) (W (b + 1)) p.y := by
          linarith
        have : 0 ≤ s * side (W e) (W (e + 1)) p *
            (crossX (W a) (W (a + 1)) p.y - crossX (W b) (W (b + 1)) p.y) := by
          have e1 : s * side (W e) (W (e + 1)) p *
              (crossX (W a) (W (a + 1)) p.y - crossX (W b) (W (b + 1)) p.y) =
              (crossX (W a) (W (a + 1)) p.y - p.x) *
                (s * side (W e) (W (e + 1)) ⟨crossX (W b) (W (b + 1)) p.y, p.y⟩) +
              (p.x - crossX (W b) (W (b + 1)) p.y) *
                (s * side (W e) (W (e + 1)) ⟨crossX (W a) (W (a + 1)) p.y, p.y⟩) := by
            linear_combination s * hb2
          rw [e1]
          exact add_nonneg (mul_nonneg (by linarith) qb) (mul_nonneg (by linarith) qa)
        have := nonneg_of_mul_nonneg_left this hpos
        linarith
    · by_cases tb : edge_hit (W (b + 1)) (W b) p = true
      · exfalso
        have xb := h2'.mp tb
        have xa : crossX (W a) (W (a + 1)) p.y ≤ p.x := not_lt.mp (fun c => ta (h1'.mpr c))
        have hb2 := side_between (W e) (W (e + 1)) (crossX (W a) (W (a + 1)) p.y)
          (crossX (W b) (W (b + 1)) p.y) p.x p.y
        have hpos : 0 < crossX (W b) (W (b + 1)) p.y - crossX (W a) (W (a + 1)) p.y := by
          linarith
        have : 0 ≤ s * side (W e) (W (e + 1)) p *
            (crossX (W b) (W (b + 1)) p.y - crossX (W a) (W (a + 1)) p.y) := by
          have e1 : s * side (W e) (W (e + 1)) p *
              (crossX (W b) (W (b + 1)) p.y - crossX (W a) (W (a + 1)) p.y) =
              (crossX (W b) (W (b + 1)) p.y - p.x) *
                (s * side (W e) (W (e + 1)) ⟨crossX (W a) (W (a + 1)) p.y, p.y⟩) +
              (p.x - crossX (W a) (W (a + 1)) p.y) *
                (s * side (W e) (W (e + 1)) ⟨crossX (W b) (W (b + 1)) p.y, p.y⟩) := by
            linear_combination s * hb2
          rw [e1]
          exact add_nonneg (mul_nonneg (by linarith) qa) (mul_nonneg (by linarith) qb)
        have := nonneg_of_mul_nonneg_left this hpos
        linarith
      · left; simp [ta, tb]
  · left
    exact crossings_zero n W p hup
      (fun h => hup ((up_iff_down n (by omega) W hper p.y).mpr h))

theorem point_in_polygon_loop_cons (M : FloatMath K) (polygon : List (Vector2 K))
    (position : Vector2 K) (rotation : K) (point : Vector2 K) (i : ℕ) (is : List ℕ) (j : ℕ)
    (r : Bool) :
    point_in_polygon_loop M polygon position rotation point (i :: is) j r =
      point_in_polygon_loop M polygon position rotation point is i
        (if edge_hit (transform M position rotation (polygon.getD i Vector2Zero))
            (transform M position rotation (polygon.getD j Vector2Zero)) point = true
          then !r else r) := rfl

theorem point_in_polygon_loop_range' (M : FloatMath K) (polygon : List (Vector2 K))
    (position : Vector2 K) (rotation : K) (point : Vector2 K) (m : ℕ) :
    ∀ (a : ℕ) (r : Bool),
      point_in_polygon_loop M polygon position rotation point (List.range' (a + 1) m) a r =
        xor r (Nat.bodd (∑ k in Finset.range m,
          if edge_hit (transform M position rotation (polygon.getD (a + k + 1) Vector2Zero))
              (transform M position rotation (polygon.getD (a + k) Vector2Zero)) point = true
            then 1 else 0)) := by
  induction m with
  | zero => intro a r; simp [point_in_polygon_loop]
  | succ m ih =>
    intro a r
    rw [List.range'_succ, point_in_polygon_loop_cons, ih (a + 1), Finset.sum_range_succ',
      Nat.bodd_add]
    have e : ∀ k, a + 1 + k = a + (k + 1) := fun k => by ring
    simp only [e, Nat.add_zero]
    by_cases h : edge_hit (transform M position rotation (polygon.getD (a + 1) Vector2Zero))
        (transform M position rotation (polygon.getD a Vector2Zero)) point = true
    · simp only [h, if_true, Nat.bodd_one]
      cases r <;> simp
    · simp only [h, if_false, Nat.bodd_zero]
      simp

/-- `point_in_polygon` returns the parity of the number of flipping edges. -/
theorem point_in_polygon_eq_bodd (M : FloatMath K) (polygon : List (Vector2 K))
    (position : Vector2 K) (rotation : K) (point : Vector2 K) (hn : 0 < polygon.length) :
    point_in_polygon M polygon position rotation point =
      Nat.bodd (crossings (cyclic_vertex M polygon position rotation) point polygon.length) := by
  obtain ⟨m, hm⟩ : ∃ m, polygon.length = m + 1 := ⟨polygon.length - 1, by omega⟩
  unfold point_in_polygon crossings cyclic_vertex
  rw [hm, List.range_eq_range', List.range'_succ, point_in_polygon_loop_cons,
    point_in_polygon_loop_range', Finset.sum_range_succ, Nat.bodd_add]
  simp only [Nat.add_sub_cancel, Nat.zero_add, Nat.mod_self]
  have hm0 : m % (m + 1) = m := Nat.mod_eq_of_lt (by omega)
  have hsum : (∑ k in Finset.range m,
      if edge_hit (transform M position rotation (polygon.getD (k + 1) Vector2Zero))
          (transform M position rotation (polygon.getD k Vector2Zero)) point = true
        then 1 else 0) =
      ∑ k in Finset.range m,
        if edge_hit (transform M position rotation (polygon.getD ((k + 1) % (m + 1)) Vector2Zero))
            (transform M position rotation (polygon.getD (k % (m + 1)) Vector2Zero)) point = true
          then 1 else 0 := by
    apply Finset.sum_congr rfl
    intro k hk
    have hk' := Finset.mem_range.mp hk
    rw [Nat.mod_eq_of_lt (by omega : k + 1 < m + 1), Nat.mod_eq_of_lt (by omega : k < m + 1)]
  rw [hsum, hm0]
  by_cases h : edge_hit (transform M position rotation (polygon.getD 0 Vector2Zero))
      (transform M position rotation (polygon.getD m Vector2Zero)) point = true
  · rw [if_pos h, if_pos h]
    simp only [Bool.not_false, Nat.bodd_one]
    exact Bool.xor_comm _ _
  · rw [if_neg h, if_neg h]
    simp only [Nat.bodd_zero, Bool.false_xor, Bool.xor_false]

theorem getD_transformed (M : FloatMath K) (polygon : List (Vector2 K)) (position : Vector2 K)
    (rotation : K) (i : ℕ) (hi : i < polygon.length) :
    (transformed M polygon position rotation).getD i Vector2Zero =
      transform M position rotation (polygon.getD i Vector2Zero) := by
  simp [transformed, List.getD_eq_getElem?_getD, List.getElem?_map, hi]

theorem cyclic_vertex_periodic (M : FloatMath K) (polygon : List (Vector2 K))
    (position : Vector2 K) (rotation : K) (k : ℕ) :
    cyclic_vertex M polygon position rotation (k + polygon.length) =
      cyclic_vertex M polygon position rotation k := by
  simp [cyclic_vertex]

theorem cyclic_vertex_convex {M : FloatMath K} (hM : M.Exact) (polygon : List (Vector2 K))
    (position : Vector2 K) (rotation : K) (s : K) (hlen : 0 < polygon.length)
    (hconv : ConvexPolygon s polygon) (i k : ℕ)
    (h1 : k % polygon.length ≠ i % polygon.length)
    (h2 : k % polygon.length ≠ (i + 1) % polygon.length) :
    0 < s * side (cyclic_vertex M polygon position rotation i)
      (cyclic_vertex M polygon position rotation (i + 1))
      (cyclic_vertex M polygon position rotation k) := by
  simp only [cyclic_vertex, side_transform hM]
  have h := hconv (i % polygon.length) (k % polygon.length) (Nat.mod_lt _ hlen)
    (Nat.mod_lt _ hlen) h1 (by rw [Nat.mod_add_mod]; exact h2)
  rw [Nat.mod_add_mod] at h
  exact h

theorem cyclic_vertex_side (M : FloatMath K) (polygon : List (Vector2 K))
    (position : Vector2 K) (rotation : K) (p : Vector2 K) (k : ℕ) (hlen : 0 < polygon.length) :
    side (cyclic_vertex M polygon position rotation k)
        (cyclic_vertex M polygon position rotation (k + 1)) p =
      side ((transformed M polygon position rotation).getD (k % polygon.length) Vector2Zero)
        ((transformed M polygon position rotation).getD
          ((k % polygon.length + 1) % (transformed M polygon position rotation).length)
          Vector2Zero) p := by
  have hl : (transformed M polygon position rotation).length = polygon.length := by
    simp [transformed]
  rw [hl, getD_transformed _ _ _ _ _ (Nat.mod_lt _ hlen),
    getD_transformed _ _ _ _ _ (Nat.mod_lt _ hlen), Nat.mod_add_mod]
  rfl

theorem triangle345_convex : ConvexPolygon (1 : K) triangle345 := by
  intro i k hi hk h1 h2
  simp only [triangle345, List.length_cons, List.length_nil] at hi hk h2
  interval_cases i <;> interval_cases k <;>
    first
    | exact absurd rfl h1
    | exact absurd rfl h2
    | norm_num [triangle345, Vector2Zero, side_def]

end PolygonLemmas

section MemLemmas
variable {β : Type}

theorem mem_read_getElem? (data : List β) (off n k : Nat) :
    (mem_read data off n)[k]? = if k < n then data[off + k]? else none := by
  unfold mem_read
  rw [List.getElem?_take]
  split_ifs with h
  · rw [List.getElem?_drop]
  · rfl

theorem mem_read_length (data : List β) (off n : Nat) (h : off + n ≤ data.length) :
    (mem_read data off n).length = n := by
  unfold mem_read
  rw [List.length_take, List.length_drop]
  omega

theorem mem_write_length (data : List β) (off : Nat) (src : List β) :
    (mem_write data off src).length = data.length := by
  unfold mem_write
  simp only [List.length_take, List.length_append, List.length_drop]
  omega

theorem mem_write_getElem? (data : List β) (off : Nat) (src : List β) (k : Nat) :
    (mem_write data off src)[k]? =
      if k < data.length then
        (if k < off then data[k]? else if k < off + src.length then src[k - off]? else data[k]?)
      else none := by
  unfold mem_write
  rw [List.getElem?_take]
  by_cases hk : k < data.length
  · rw [if_pos hk, if_pos hk]
    by_cases h1 : k < off
    · rw [if_pos h1, List.append_assoc, List.getElem?_append_left (by
        rw [List.length_take]; omega), List.getElem?_take, if_pos h1]
    · rw [if_neg h1]
      have hoff : off ≤ data.length := by omega
      have hlen : (data.take off).length = off := by rw [List.length_take]; omega
      rw [List.append_assoc, List.getElem?_append_right (by rw [hlen]; omega), hlen]
      by_cases h2 : k < off + src.length
      · rw [if_pos h2, List.getElem?_append_left (by omega)]
      · rw [if_neg h2, List.getElem?_append_right (by omega), List.getElem?_drop]
        congr 1
        omega
  · rw [if_neg hk, if_neg hk]

theorem mem_realloc_length (junk : Nat → β) (data : List β) (n : Nat) :
    (mem_realloc junk data n).length = n := by
  unfold mem_realloc
  simp only [List.length_take, List.length_append, List.length_map, List.length_range]
  omega

theorem mem_realloc_getElem? (junk : Nat → β) (data : List β) (n k : Nat) :
    (mem_realloc junk data n)[k]? =
      if k < n then (if k < data.length then data[k]? else some (junk k)) else none := by
  unfold mem_realloc
  rw [List.getElem?_take]
  by_cases hk : k < n
  · rw [if_pos hk, if_pos hk]
    by_cases h1 : k < data.length
    · rw [if_pos h1, List.getElem?_append_left h1]
    · rw [if_neg h1, List.getElem?_append_right (by omega), List.getElem?_map,
        List.getElem?_range (by omega)]
      simp only [Option.map_some']
      congr 2
      omega
  · rw [if_neg hk, if_neg hk]

/-- Reading back what was just written. -/
theorem mem_read_write_same (data : List β) (off : Nat) (src : List β)
    (h : off + src.length ≤ data.length) :
    mem_read (mem_write data off src) off src.length = src := by
  apply List.ext_getElem?
  intro k
  rw [mem_read_getElem?, mem_write_getElem?]
  by_cases hk : k < src.length
  · rw [if_pos hk, if_pos (by omega), if_neg (by omega), if_pos (by omega)]
    congr 1
    omega
  · rw [if_neg hk]
    exact (List.getElem?_eq_none (by omega)).symm

/-- Reading a region that the write did not touch. -/
theorem mem_read_write_disjoint (data : List β) (off : Nat) (src : List β) (off2 n : Nat)
    (h : off2 + n ≤ off ∨ off + src.length ≤ off2) :
    mem_read (mem_write data off src) off2 n = mem_read data off2 n := by
  apply List.ext_getElem?
  intro k
  rw [mem_read_getElem?, mem_read_getElem?, mem_write_getElem?]
  by_cases hk : k < n
  · rw [if_pos hk, if_pos hk]
    by_cases hd : off2 + k < data.length
    · rw [if_pos hd]
      rcases h with h | h
      · rw [if_pos (by omega)]
      · rw [if_neg (by omega), if_neg (by omega)]
    · rw [if_neg hd]
      exact (List.getElem?_eq_none (by omega)).symm
  · rw [if_neg hk, if_neg hk]

end MemLemmas

section RemoveFast
variable {β : Type}

theorem vec_remove_fast_of_ge (v : Vec β) (i : Nat) (h : v.len ≤ i) : vec_remove_fast v i = v := by
  unfold vec_remove_fast
  rw [if_pos h]

theorem vec_remove_fast_len (v : Vec β) (i : Nat) (h : i < v.len) :
    (vec_remove_fast v i).len = v.len - 1 := by
  unfold vec_remove_fast
  rw [if_neg (by omega)]

theorem vec_remove_fast_data (v : Vec β) (i : Nat) (h : i < v.len) :
    (vec_remove_fast v i).data =
      mem_write v.data (vec_at v i) (mem_read v.data (vec_at v (v.len - 1)) v.elem_size) := by
  unfold vec_remove_fast
  rw [if_neg (by omega)]
  rfl

theorem vec_remove_fast_elem_size (v : Vec β) (i : Nat) :
    (vec_remove_fast v i).elem_size = v.elem_size := by
  unfold vec_remove_fast
  split_ifs <;> rfl

theorem slot_le (es : Nat) {a b : Nat} (h : a < b) : a * es + es ≤ b * es := by
  have := Nat.mul_le_mul_right es (Nat.succ_le_of_lt h)
  rw [Nat.succ_mul] at this
  exact this

/-- The slots of a vector after `vec_remove_fast`: slot `i` holds the former
last element, any other slot is untouched. -/
theorem vec_remove_fast_elem (v : Vec β) (i j : Nat) (hv : VecHolds v) (h : i < v.len) :
    vec_elem (vec_remove_fast v i) j =
      if j = i then vec_elem v (v.len - 1) else vec_elem v j := by
  have hlast : (v.len - 1) * v.elem_size + v.elem_size ≤ v.data.length := by
    have := slot_le v.elem_size (show v.len - 1 < v.len by omega)
    exact this.trans hv
  have hsrc : (mem_read v.data (vec_at v (v.len - 1)) v.elem_size).length = v.elem_size :=
    mem_read_length _ _ _ hlast
  have hi : i * v.elem_size + v.elem_size ≤ v.data.length := (slot_le v.elem_size h).trans hv
  unfold vec_elem
  rw [vec_remove_fast_data v i h]
  simp only [vec_at, vec_remove_fast_elem_size]
  by_cases hji : j = i
  · subst hji
    rw [if_pos rfl]
    have := mem_read_write_same v.data (j * v.elem_size)
      (mem_read v.data ((v.len - 1) * v.elem_size) v.elem_size)
      (by rw [mem_read_length _ _ _ hlast]; exact hi)
    rw [mem_read_length _ _ _ hlast] at this
    exact this
  · rw [if_neg hji]
    apply mem_read_write_disjoint
    rw [mem_read_length _ _ _ hlast]
    rcases Nat.lt_or_gt_of_ne hji with hlt | hgt
    · exact Or.inl (slot_le v.elem_size hlt)
    · exact Or.inr (slot_le v.elem_size hgt)

/-- Overwriting an entry with the last one and dropping the last entry is a
permutation of erasing that entry. -/
theorem set_last_take_perm {α : Type} (d : α) :
    ∀ (l : List α) (i : Nat), i < l.length →
      List.Perm ((l.set i (l.getD (l.length - 1) d)).take (l.length - 1)) (l.eraseIdx i)
  | [], i, h => by simp at h
  | a :: t, 0, _ => by
    cases t with
    | nil => simp
    | cons b t' =>
      simp only [List.length_cons, Nat.add_sub_cancel, List.set_cons_zero, List.eraseIdx_cons_zero,
        List.take_succ_cons, List.getD_cons_succ]
      have hb : (b :: t').getD t'.length d = (b :: t').getLast (by simp) := by
        rw [List.getD_eq_getElem?_getD, List.getLast_eq_getElem]
        simp
      rw [hb]
      have hd : (b :: t').take t'.length = (b :: t').dropLast := by
        rw [List.dropLast_eq_take]; simp
      rw [hd]
      have := List.dropLast_append_getLast (l := b :: t') (by simp)
      conv_rhs => rw [← this]
      exact (List.perm_append_singleton _ _).symm
  | a :: t, k + 1, h => by
    have hk : k < t.length := by simpa using h
    obtain ⟨m, hm⟩ : ∃ m, t.length = m + 1 := ⟨t.length - 1, by omega⟩
    have ih := set_last_take_perm d t k hk
    simp only [List.length_cons, Nat.add_sub_cancel, List.set_cons_succ, List.eraseIdx_cons_succ]
    rw [hm] at ih ⊢
    simp only [Nat.add_sub_cancel, List.take_succ_cons, List.getD_cons_succ] at ih ⊢
    exact List.Perm.cons a ih

theorem vec_elems_getElem? (v : Vec β) (j : Nat) :
    (vec_elems v)[j]? = if j < v.len then some (vec_elem v j) else none := by
  unfold vec_elems
  rw [List.getElem?_map]
  by_cases h : j < v.len
  · rw [if_pos h, List.getElem?_range h]; rfl
  · rw [if_neg h, List.getElem?_eq_none (by simpa using h)]; rfl

theorem vec_elems_length (v : Vec β) : (vec_elems v).length = v.len := by
  simp [vec_elems]

theorem vec_remove_fast_elems (v : Vec β) (i : Nat) (hv : VecHolds v) (h : i < v.len) :
    vec_elems (vec_remove_fast v i) =
      ((vec_elems v).set i ((vec_elems v).getD ((vec_elems v).length - 1) [])).take
        ((vec_elems v).length - 1) := by
  have hlast : (vec_elems v).getD ((vec_elems v).length - 1) [] = vec_elem v (v.len - 1) := by
    rw [List.getD_eq_getElem?_getD, vec_elems_getElem?, vec_elems_length,
      if_pos (by omega : v.len - 1 < v.len)]
    rfl
  rw [hlast]
  apply List.ext_getElem?
  intro j
  rw [vec_elems_getElem?, vec_remove_fast_len v i h, List.getElem?_take, vec_elems_length]
  by_cases hj : j < v.len - 1
  · rw [if_pos hj, if_pos hj, vec_remove_fast_elem v i j hv h, List.getElem?_set]
    by_cases hji : j = i
    · subst hji
      rw [if_pos rfl, if_pos rfl, vec_elems_length, if_pos h]
    · rw [if_neg hji, if_neg (fun c => hji c.symm), vec_elems_getElem?, if_pos (by omega)]
  · rw [if_neg hj, if_neg hj]

end RemoveFast

section PushBack
variable {β : Type}

theorem mem_read_realloc (junk : Nat → β) (data : List β) (n off m : Nat)
    (h1 : off + m ≤ data.length) (h2 : data.length ≤ n) :
    mem_read (mem_realloc junk data n) off m = mem_read data off m := by
  apply List.ext_getElem?
  intro k
  rw [mem_read_getElem?, mem_read_getElem?, mem_realloc_getElem?]
  by_cases hk : k < m
  · rw [if_pos hk, if_pos hk, if_pos (by omega), if_pos (by omega)]
  · rw [if_neg hk, if_neg hk]

/-- Growing a vector keeps every unit of the old allocation. -/
theorem vec_resize_grow [Zero β] (junk : Nat → β) (v : Vec β) (new_cap : Nat)
    (hdata : v.data.length = v.capacity * v.elem_size) (hgrow : v.capacity < new_cap) :
    (vec_resize junk v new_cap).capacity = new_cap ∧
    (vec_resize junk v new_cap).data.length = new_cap * v.elem_size ∧
    (vec_resize junk v new_cap).len = v.len ∧
    (vec_resize junk v new_cap).elem_size = v.elem_size ∧
    (vec_resize junk v new_cap).grow = v.grow ∧
    (∀ off m : Nat, off + m ≤ v.data.length →
      mem_read (vec_resize junk v new_cap).data off m = mem_read v.data off m) := by
  have hne : new_cap ≠ v.capacity := by omega
  have h0 : new_cap ≠ 0 := by omega
  have hle : v.data.length ≤ new_cap * v.elem_size := by
    rw [hdata]; exact Nat.mul_le_mul_right _ hgrow.le
  unfold vec_resize
  rw [if_neg hne]
  simp only [if_neg h0]
  refine ⟨trivial, ?_, trivial, trivial, trivial, ?_⟩
  · split_ifs
    · rw [mem_write_length, mem_realloc_length]
    · rw [mem_realloc_length]
  · intro off m hom
    split_ifs
    · rw [mem_read_write_disjoint _ _ _ _ _ (Or.inl (by rw [← hdata]; exact hom)),
        mem_read_realloc junk v.data _ off m hom hle]
    · exact mem_read_realloc junk v.data _ off m hom hle

/-- `vec_push_back` on a well-formed vector: the allocation after the call,
read slot by slot. -/
theorem vec_push_back_wf [Zero β] (junk : Nat → β) (v : Vec β) (src : List β) (hv : VecWF v)
    (hsrc : v.elem_size ≤ src.length) :
    VecWF (vec_push_back junk v (some src)) ∧
    (vec_push_back junk v (some src)).len = v.len + 1 ∧
    (vec_push_back junk v (some src)).elem_size = v.elem_size ∧
    (vec_push_back junk v (some src)).free_entry = v.free_entry ∧
    (∀ j : Nat, j < v.len → vec_elem (vec_push_back junk v (some src)) j = vec_elem v j) ∧
    vec_elem (vec_push_back junk v (some src)) v.len = src.take v.elem_size := by
  obtain ⟨hdata, hlen, hcap, hg⟩ := hv
  have htake : (src.take v.elem_size).length = v.elem_size := by
    rw [List.length_take]; omega
  by_cases hfull : v.len ≥ v.capacity
  · have hgrow : v.capacity < v.grow v.len v.capacity v.elem_size := by
      rw [hg]; unfold default_growth_rate; omega
    obtain ⟨r1, r2, r3, r4, r5, r6⟩ := vec_resize_grow junk v _ hdata hgrow
    have hslot : v.len * v.elem_size + v.elem_size ≤
        (vec_resize junk v (v.grow v.len v.capacity v.elem_size)).data.length := by
      rw [r2, hg]
      unfold default_growth_rate
      have : v.len = v.capacity := by omega
      rw [this]
      have := slot_le v.elem_size (show v.capacity < v.capacity * 2 by omega)
      exact this
    have hfree : (vec_resize junk v (v.grow v.len v.capacity v.elem_size)).free_entry =
        v.free_entry := by
      unfold vec_resize
      split_ifs <;> rfl
    simp only [vec_push_back, if_pos hfull, vec_at, r3, r4]
    refine ⟨⟨?_, ?_, ?_, ?_⟩, (by trivial), (by trivial), (by trivial), ?_, ?_⟩
    · show (mem_write _ _ _).length = _
      rw [mem_write_length, r2, r1]
    · show v.len + 1 ≤ _
      rw [r1, hg]; unfold default_growth_rate; omega
    · show 1 ≤ _
      rw [r1]; omega
    · show (vec_resize junk v _).grow = _
      rw [r5, hg]
    · intro j hj
      show mem_read (mem_write _ _ _) (j * v.elem_size) v.elem_size = _
      rw [mem_read_write_disjoint _ _ _ _ _ (Or.inl (slot_le v.elem_size hj)), r6]
      · rfl
      · rw [hdata]
        exact (slot_le v.elem_size hj).trans (Nat.mul_le_mul_right _ hlen)
    · show mem_read (mem_write _ _ _) (v.len * v.elem_size) v.elem_size = _
      have := mem_read_write_same
        (vec_resize junk v (v.grow v.len v.capacity v.elem_size)).data (v.len * v.elem_size)
        (src.take v.elem_size) (by rw [htake]; exact hslot)
      rw [htake] at this
      exact this
  · have hlt : v.len < v.capacity := by omega
    have hslot : v.len * v.elem_size + v.elem_size ≤ v.data.length := by
      rw [hdata]; exact slot_le v.elem_size hlt
    simp only [vec_push_back, if_neg hfull, vec_at]
    refine ⟨⟨?_, ?_, hcap, hg⟩, (by trivial), (by trivial), (by trivial), ?_, ?_⟩
    · show (mem_write _ _ _).length = _
      rw [mem_write_length, hdata]
    · show v.len + 1 ≤ v.capacity
      omega
    · intro j hj
      show mem_read (mem_write _ _ _) (j * v.elem_size) v.elem_size = _
      rw [mem_read_write_disjoint _ _ _ _ _ (Or.inl (slot_le v.elem_size hj))]
      rfl
    · show mem_read (mem_write _ _ _) (v.len * v.elem_size) v.elem_size = _
      have := mem_read_write_same v.data (v.len * v.elem_size) (src.take v.elem_size)
        (by rw [htake]; exact hslot)
      rw [htake] at this
      exact this

/-- `vec_push_back` appends one element to the contents. -/
theorem vec_push_back_elems [Zero β] (junk : Nat → β) (v : Vec β) (src : List β) (hv : VecWF v)
    (hsrc : v.elem_size ≤ src.length) :
    vec_elems (vec_push_back junk v (some src)) = vec_elems v ++ [src.take v.elem_size] := by
  obtain ⟨-, hlen, -, -, hold, hnew⟩ := vec_push_back_wf junk v src hv hsrc
  apply List.ext_getElem?
  intro j
  rw [vec_elems_getElem?, hlen]
  by_cases hj : j < v.len
  · rw [if_pos (by omega), hold j hj, List.getElem?_append_left (by rw [vec_elems_length]; exact hj),
      vec_elems_getElem?, if_pos hj]
  · by_cases hj2 : j = v.len
    · subst hj2
      rw [if_pos (by omega), hnew, List.getElem?_append_right (by rw [vec_elems_length]),
        vec_elems_length, Nat.sub_self]
      rfl
    · rw [if_neg (by omega), List.getElem?_eq_none]
      rw [List.length_append, vec_elems_length]
      simp only [List.length_singleton]
      omega

end PushBack

section BoxLemmas
variable {K : Type} [LinearOrderedField K]

/-- The axes tested for two centred squares are the four unit normals. -/
theorem box_axes {M : FloatMath K} (hM : M.Exact) (a b : K) (ha : 0 < a) (hb : 0 < b) :
    sat_axes M (centredSquare a) (centredSquare b) =
      [⟨0, 1⟩, ⟨-1, 0⟩, ⟨0, -1⟩, ⟨1, 0⟩, ⟨0, 1⟩, ⟨-1, 0⟩, ⟨0, -1⟩, ⟨1, 0⟩] := by
  have hrange : List.range 4 = [0, 1, 2, 3] := by decide
  have n1 : ∀ c : K, 0 < c → Vector2Normalize M (⟨0, 2 * c⟩ : Vector2 K) = ⟨0, 1⟩ := by
    intro c hc
    rw [normalize_of_sq hM _ (2 * c) (by linarith) (by simp)]
    have : (2 * c) ≠ 0 := by positivity
    simp [this]
  have n2 : ∀ c : K, 0 < c → Vector2Normalize M (⟨-(2 * c), 0⟩ : Vector2 K) = ⟨-1, 0⟩ := by
    intro c hc
    rw [normalize_of_sq hM _ (2 * c) (by linarith) (by simp)]
    have : (2 * c) ≠ 0 := by positivity
    simp [this, neg_div]
  have n3 : ∀ c : K, 0 < c → Vector2Normalize M (⟨0, -(2 * c)⟩ : Vector2 K) = ⟨0, -1⟩ := by
    intro c hc
    rw [normalize_of_sq hM _ (2 * c) (by linarith) (by simp)]
    have : (2 * c) ≠ 0 := by positivity
    simp [this, neg_div]
  have n4 : ∀ c : K, 0 < c → Vector2Normalize M (⟨2 * c, 0⟩ : Vector2 K) = ⟨1, 0⟩ := by
    intro c hc
    rw [normalize_of_sq hM _ (2 * c) (by linarith) (by simp)]
    have : (2 * c) ≠ 0 := by positivity
    simp [this]
  have e1 : ∀ c : K, c - -c = 2 * c := fun c => by ring
  have e2 : ∀ c : K, -c - c = -(2 * c) := fun c => by ring
  simp only [sat_axes, centredSquare, hrange, edge_normal, Vector2EdgeNormal, Vector2Subtract,
    Vector2Zero, List.length_cons, List.length_nil, List.map_cons, List.map_nil,
    List.getD_cons_zero, List.getD_cons_succ, sub_self, neg_zero, e1, e2, neg_neg,
    n1 a ha, n2 a ha, n3 a ha, n4 a ha, n1 b hb, n2 b hb, n3 b hb, n4 b hb,
    List.cons_append, List.nil_append, Nat.reduceAdd, Nat.reduceMod]

/-- The projections of an unrotated centred square on the four unit normals. -/
theorem box_project {M : FloatMath K} (hM : M.Exact) (a : K) (ha : 0 < a) (p : Vector2 K) :
    project_onto_vector M (centredSquare a) p 0 ⟨0, 1⟩ = (p.y - a, p.y + a) ∧
    project_onto_vector M (centredSquare a) p 0 ⟨-1, 0⟩ = (-p.x - a, -p.x + a) ∧
    project_onto_vector M (centredSquare a) p 0 ⟨0, -1⟩ = (-p.y - a, -p.y + a) ∧
    project_onto_vector M (centredSquare a) p 0 ⟨1, 0⟩ = (p.x - a, p.x + a) := by
  refine ⟨?_, ?_, ?_, ?_⟩ <;>
  · simp only [project_onto_vector, project_step, centredSquare, Vector2Zero,
      Vector2DotProduct, Vector2Add, Vector2Rotate, hM.cosf_zero, hM.sinf_zero, mul_zero,
      List.getD_cons_zero, List.drop_succ_cons, List.drop_zero, List.foldl_cons, List.foldl_nil]
    split_ifs <;>
    first
      | (exfalso; linarith)
      | (refine Prod.ext ?_ ?_ <;> simp <;> linarith)

/-- Two unrotated centred squares collide exactly when their extents meet on
both coordinate axes. -/
theorem box_collision {M : FloatMath K} (hM : M.Exact) (a b : K) (ha : 0 < a) (hb : 0 < b)
    (p q : Vector2 K) (mtv : Option (Vector2 K)) :
    (sat_collision M (centredSquare a) p 0 (centredSquare b) q 0 mtv).1 =
      decide ((q.x - b ≤ p.x + a ∧ p.x - a ≤ q.x + b) ∧
        (q.y - b ≤ p.y + a ∧ p.y - a ≤ q.y + b)) := by
  obtain ⟨a1, a2, a3, a4⟩ := box_project hM a ha p
  obtain ⟨b1, b2, b3, b4⟩ := box_project hM b hb q
  rw [Bool.eq_iff_iff, sat_collision_fst, sat_search_eq_fold, sat_fold_isSome_iff,
    box_axes hM a b ha hb, decide_eq_true_iff]
  simp only [List.mem_cons, List.mem_singleton, List.not_mem_nil, or_false, forall_eq_or_imp,
    forall_eq, Option.isSome_iff_ne_none, Ne, axis_overlap, is_overlap_eq_none_iff,
    a1, a2, a3, a4, b1, b2, b3, b4, not_or, not_lt]
  constructor
  · rintro ⟨⟨h1, h2⟩, ⟨h3, h4⟩, -⟩
    refine ⟨⟨?_, ?_⟩, ?_, ?_⟩ <;> linarith
  · rintro ⟨⟨h1, h2⟩, h3, h4⟩
    refine ⟨⟨?_, ?_⟩, ⟨?_, ?_⟩, ⟨?_, ?_⟩, ⟨?_, ?_⟩, ⟨?_, ?_⟩, ⟨?_, ?_⟩, ⟨?_, ?_⟩, ?_, ?_⟩ <;>
      linarith

end BoxLemmas

section ScanLemmas
variable {K : Type} [LinearOrderedField K]

end ScanLemmas

section ScanSteps
variable {K : Type} [LinearOrderedField K] [FloorRing K]

end ScanSteps

section ScanEval
variable {K : Type} [LinearOrderedField K] [FloorRing K]

end ScanEval

section SplitLemmas
variable {K : Type} [LinearOrderedField K]

theorem asteroid_new_radius (M : FloatMath K) (rng : Rng) (r : K) (pos vel : Vector2 K) :
    (asteroid_new M rng r pos vel).1.radius = r := rfl

theorem asteroid_new_position (M : FloatMath K) (rng : Rng) (r : K) (pos vel : Vector2 K) :
    (asteroid_new M rng r pos vel).1.entity.position = pos := rfl

/-- One pass of the big-asteroid loop appends one medium asteroid at the
parent's position and its address to the collection. -/
theorem asteroid_split_big_step_spec (M : FloatMath K) (junk : Nat → Nat) (asteroid : Asteroid K)
    (st : SplitState K) (i : Nat) (hv : VecWF st.vec) (hes : st.vec.elem_size = 1) :
    ∃ c : Asteroid K,
      (asteroid_split_big_step M junk asteroid st i).heap = st.heap ++ [c] ∧
      c.radius = 16 ∧ c.entity.position = asteroid.entity.position ∧
      vec_elems (asteroid_split_big_step M junk asteroid st i).vec =
        vec_elems st.vec ++ [[st.heap.length]] ∧
      VecWF (asteroid_split_big_step M junk asteroid st i).vec ∧
      (asteroid_split_big_step M junk asteroid st i).vec.elem_size = 1 := by
  have hsrc : st.vec.elem_size ≤ [st.heap.length].length := by rw [hes]; rfl
  obtain ⟨hwf, -, hes2, -, -, -⟩ := vec_push_back_wf junk st.vec [st.heap.length] hv hsrc
  have helems := vec_push_back_elems junk st.vec [st.heap.length] hv hsrc
  rw [hes] at helems
  refine ⟨_, rfl, ?_, ?_, helems, hwf, hes2.trans hes⟩
  · split_ifs <;> rfl
  · split_ifs <;> rfl

end SplitLemmas

section ResponseLemmas
variable {K : Type} [LinearOrderedField K]

/-- The two squares after `handle_asteroid_collision` with the MTV `(0, 5)`:
both cover `y` from 2.5 to 12.5 and the overlap on `(0, 1)` is 10. -/
theorem squares_response {M : FloatMath K} (hM : M.Exact) :
    entity_axis_overlap M
      (handle_asteroid_collision M (restingAsteroid squareA) (restingAsteroid squareB)
        ⟨0, 5⟩).1.entity
      (handle_asteroid_collision M (restingAsteroid squareA) (restingAsteroid squareB)
        ⟨0, 5⟩).2.entity ⟨0, 1⟩ = some 10 := by
  norm_num [entity_axis_overlap, handle_asteroid_collision, restingAsteroid, axis_overlap,
    project_onto_vector, project_step, squareA, squareB, Vector2Zero, Vector2DotProduct,
    Vector2Add, Vector2Subtract, Vector2Scale, Vector2Rotate, hM.cosf_zero, hM.sinf_zero,
    is_overlap]

theorem squares_entity_collision {M : FloatMath K} (hM : M.Exact) (v : Vector2 K) :
    entity_collision M (restingAsteroid squareA).entity (restingAsteroid squareB).entity
      (some v) = (true, some ⟨0, 5⟩) := by
  have h := squares_collision hM v
  have e : Vector2Add (⟨0, 0⟩ : Vector2 K) ⟨0, 0⟩ = ⟨0, 0⟩ := by simp [Vector2Add]
  simpa [entity_collision, restingAsteroid, e] using h

theorem squares_entity_overlap {M : FloatMath K} (hM : M.Exact) :
    entity_axis_overlap M (restingAsteroid squareA).entity (restingAsteroid squareB).entity
      ⟨0, 1⟩ = some 5 := by
  have h := squares_overlap hM (⟨0, 1⟩ : Vector2 K) (by simp)
  have e : Vector2Add (⟨0, 0⟩ : Vector2 K) ⟨0, 0⟩ = ⟨0, 0⟩ := by simp [Vector2Add]
  simpa [entity_axis_overlap, restingAsteroid, e] using h

end ResponseLemmas

section RemoveLemmas
variable {β : Type}

/-- Reading inside a region just written gives the matching part of the
source. -/
theorem mem_read_write_inside (data : List β) (off : Nat) (src : List β) (off2 n : Nat)
    (h1 : off ≤ off2) (h2 : off2 + n ≤ off + src.length)
    (h3 : off + src.length ≤ data.length) :
    mem_read (mem_write data off src) off2 n = mem_read src (off2 - off) n := by
  apply List.ext_getElem?
  intro k
  rw [mem_read_getElem?, mem_read_getElem?, mem_write_getElem?]
  by_cases hk : k < n
  · rw [if_pos hk, if_pos hk, if_pos (by omega), if_neg (by omega), if_pos (by omega)]
    congr 1
    omega
  · rw [if_neg hk, if_neg hk]

theorem mem_read_read (data : List β) (a m b n : Nat) (h : b + n ≤ m) :
    mem_read (mem_read data a m) b n = mem_read data (a + b) n := by
  apply List.ext_getElem?
  intro k
  rw [mem_read_getElem?, mem_read_getElem?, mem_read_getElem?]
  by_cases hk : k < n
  · rw [if_pos hk, if_pos hk, if_pos (by omega), Nat.add_assoc]
  · rw [if_neg hk, if_neg hk]

theorem vec_remove_of_ge (v : Vec β) (i : Nat) (h : v.len ≤ i) : vec_remove v i = v := by
  unfold vec_remove
  rw [if_pos h]

theorem vec_remove_len (v : Vec β) (i : Nat) (h : i < v.len) :
    (vec_remove v i).len = v.len - 1 := by
  unfold vec_remove
  rw [if_neg (by omega)]
  simp only
  split_ifs <;> rfl

theorem vec_remove_elem_size (v : Vec β) (i : Nat) :
    (vec_remove v i).elem_size = v.elem_size := by
  unfold vec_remove
  simp only
  split_ifs <;> rfl

theorem vec_remove_data (v : Vec β) (i : Nat) (h : i < v.len) :
    (vec_remove v i).data =
      if i < v.len - 1 then
        mem_write v.data (vec_at v i)
          (mem_read v.data (vec_at v (i + 1)) ((v.len - i - 1) * v.elem_size))
      else v.data := by
  unfold vec_remove
  rw [if_neg (by omega)]
  simp only
  split_ifs <;> rfl

/-- The slots of a vector after `vec_remove`: the slots below `i` keep
their element, every later slot holds the element that was one slot up. -/
theorem vec_remove_elem (v : Vec β) (i j : Nat) (hv : VecHolds v) (h : i < v.len)
    (hj : j < v.len - 1) :
    vec_elem (vec_remove v i) j = if j < i then vec_elem v j else vec_elem v (j + 1) := by
  unfold VecHolds at hv
  have e1 : (i + 1) * v.elem_size + (v.len - i - 1) * v.elem_size = v.len * v.elem_size := by
    rw [← Nat.add_mul]; congr 1; omega
  have hlen : (mem_read v.data ((i + 1) * v.elem_size) ((v.len - i - 1) * v.elem_size)).length =
      (v.len - i - 1) * v.elem_size := by
    apply mem_read_length
    omega
  show mem_read (vec_remove v i).data (j * (vec_remove v i).elem_size)
    (vec_remove v i).elem_size = _
  rw [vec_remove_elem_size, vec_remove_data v i h]
  by_cases hji : j < i
  · rw [if_pos hji]
    split_ifs
    · exact mem_read_write_disjoint _ _ _ _ _ (Or.inl (slot_le v.elem_size hji))
    · rfl
  · rw [if_neg hji, if_pos (by omega)]
    show mem_read (mem_write v.data (i * v.elem_size)
      (mem_read v.data ((i + 1) * v.elem_size) ((v.len - i - 1) * v.elem_size)))
      (j * v.elem_size) v.elem_size = _
    have hij : i ≤ j := not_lt.mp hji
    have a1 : i * v.elem_size ≤ j * v.elem_size := Nat.mul_le_mul_right _ hij
    have a2 : j * v.elem_size + v.elem_size ≤ (v.len - 1) * v.elem_size :=
      slot_le v.elem_size hj
    have a3 : (v.len - 1) * v.elem_size = i * v.elem_size + (v.len - i - 1) * v.elem_size := by
      rw [← Nat.add_mul]; congr 1; omega
    have a4 : (v.len - 1) * v.elem_size ≤ v.len * v.elem_size :=
      Nat.mul_le_mul_right _ (Nat.sub_le _ _)
    have a5 : (j - i) * v.elem_size = j * v.elem_size - i * v.elem_size := Nat.sub_mul _ _ _
    have a6 : (j + 1) * v.elem_size = (i + 1) * v.elem_size + (j - i) * v.elem_size := by
      rw [← Nat.add_mul]; congr 1; omega
    rw [mem_read_write_inside _ _ _ _ _ a1 (by rw [hlen]; omega) (by rw [hlen]; omega),
      mem_read_read _ _ _ _ _ (by omega), ← a5, ← a6]
    rfl

theorem eraseIdx_getElem? {α : Type} : ∀ (l : List α) (i j : Nat),
    (l.eraseIdx i)[j]? = if j < i then l[j]? else l[j + 1]?
  | [], i, j => by simp
  | a :: t, 0, j => by simp
  | a :: t, i + 1, 0 => by simp
  | a :: t, i + 1, j + 1 => by
    simp only [List.eraseIdx_cons_succ, List.getElem?_cons_succ, eraseIdx_getElem? t i j,
      Nat.add_lt_add_iff_right]

/-- `vec_remove` erases entry `i` from the contents. -/
theorem vec_remove_elems (v : Vec β) (i : Nat) (hv : VecHolds v) (h : i < v.len) :
    vec_elems (vec_remove v i) = (vec_elems v).eraseIdx i := by
  apply List.ext_getElem?
  intro j
  rw [vec_elems_getElem?, vec_remove_len v i h, eraseIdx_getElem?, vec_elems_getElem?,
    vec_elems_getElem?]
  by_cases hj : j < v.len - 1
  · rw [if_pos hj, vec_remove_elem v i j hv h hj]
    by_cases hji : j < i
    · rw [if_pos hji, if_pos hji, if_pos (by omega)]
    · rw [if_neg hji, if_neg hji, if_pos (by omega)]
  · rw [if_neg hj]
    by_cases hji : j < i
    · omega
    · rw [if_neg hji, if_neg (by omega)]

end RemoveLemmas

section ExtremaLemmas
variable {K : Type} [LinearOrderedField K]

/-- Each end of the running interval of `project_onto_vector` is the seed or
the projection of a point already visited. -/
theorem project_fold_attained (M : FloatMath K) (position : Vector2 K) (rotation : K)
    (axis : Vector2 K) (ps : List (Vector2 K)) (acc : K × K) :
    ((ps.foldl (project_step M position rotation axis) acc).1 = acc.1 ∨
      ∃ p ∈ ps, Vector2DotProduct (transform M position rotation p) axis =
        (ps.foldl (project_step M position rotation axis) acc).1) ∧
    ((ps.foldl (project_step M position rotation axis) acc).2 = acc.2 ∨
      ∃ p ∈ ps, Vector2DotProduct (transform M position rotation p) axis =
        (ps.foldl (project_step M position rotation axis) acc).2) := by
  induction ps generalizing acc with
  | nil => simp
  | cons q qs ih =>
    simp only [List.foldl_cons, List.mem_cons, exists_eq_or_imp]
    obtain ⟨h1, h2⟩ := ih (project_step M position rotation axis acc q)
    have e := project_step_eq M position rotation axis acc q
    constructor
    · rcases h1 with h1 | ⟨p, hp, hpe⟩
      · rw [h1, e]
        rcases min_choice (Vector2DotProduct (transform M position rotation q) axis) acc.1
          with hc | hc
        · exact Or.inr (Or.inl hc.symm)
        · exact Or.inl hc
      · exact Or.inr (Or.inr ⟨p, hp, hpe⟩)
    · rcases h2 with h2 | ⟨p, hp, hpe⟩
      · rw [h2, e]
        rcases max_choice (Vector2DotProduct (transform M position rotation q) axis) acc.2
          with hc | hc
        · exact Or.inr (Or.inl hc.symm)
        · exact Or.inl hc
      · exact Or.inr (Or.inr ⟨p, hp, hpe⟩)

/-- For a non-empty list both ends of the interval returned by
`project_onto_vector` are projections of points of the list. -/
theorem project_attained (M : FloatMath K) (points : List (Vector2 K)) (position : Vector2 K)
    (rotation : K) (axis : Vector2 K) (hne : points ≠ []) :
    (∃ p ∈ points, Vector2DotProduct (transform M position rotation p) axis =
      (project_onto_vector M points position rotation axis).1) ∧
    (∃ p ∈ points, Vector2DotProduct (transform M position rotation p) axis =
      (project_onto_vector M points position rotation axis).2) := by
  cases points with
  | nil => exact absurd rfl hne
  | cons q qs =>
    unfold project_onto_vector
    simp only [List.getD_cons_zero, List.drop_succ_cons, List.drop_zero]
    obtain ⟨h1, h2⟩ := project_fold_attained M position rotation axis qs
      (Vector2DotProduct (transform M position rotation q) axis,
       Vector2DotProduct (transform M position rotation q) axis)
    constructor
    · rcases h1 with h1 | ⟨p, hp, hpe⟩
      · exact ⟨q, List.mem_cons_self _ _, h1.symm⟩
      · exact ⟨p, List.mem_cons_of_mem _ hp, hpe⟩
    · rcases h2 with h2 | ⟨p, hp, hpe⟩
      · exact ⟨q, List.mem_cons_self _ _, h2.symm⟩
      · exact ⟨p, List.mem_cons_of_mem _ hp, hpe⟩

/-- The interval of A ends before the interval of B starts exactly when every
projected point of A lies strictly below every projected point of B. -/
theorem project_lt_iff (M : FloatMath K)
    (shapeA : List (Vector2 K)) (positionA : Vector2 K) (rotationA : K)
    (shapeB : List (Vector2 K)) (positionB : Vector2 K) (rotationB : K)
    (axis : Vector2 K) (hA : shapeA ≠ []) (hB : shapeB ≠ []) :
    (project_onto_vector M shapeA positionA rotationA axis).2 <
        (project_onto_vector M shapeB positionB rotationB axis).1 ↔
      ∀ p ∈ shapeA, ∀ q ∈ shapeB,
        Vector2DotProduct (transform M positionA rotationA p) axis <
          Vector2DotProduct (transform M positionB rotationB q) axis := by
  constructor
  · intro h p hp q hq
    have h1 := (project_bounds M shapeA positionA rotationA axis p hp).2
    have h2 := (project_bounds M shapeB positionB rotationB axis q hq).1
    exact lt_of_le_of_lt h1 (lt_of_lt_of_le h h2)
  · intro h
    obtain ⟨p, hp, hpe⟩ := (project_attained M shapeA positionA rotationA axis hA).2
    obtain ⟨q, hq, hqe⟩ := (project_attained M shapeB positionB rotationB axis hB).1
    rw [← hpe, ← hqe]
    exact h p hp q hq

/-- The search fails exactly when some tested axis shows no overlap. -/
theorem sat_collision_false_iff_axis (M : FloatMath K)
    (shapeA : List (Vector2 K)) (positionA : Vector2 K) (rotationA : K)
    (shapeB : List (Vector2 K)) (positionB : Vector2 K) (rotationB : K)
    (mtv : Option (Vector2 K)) :
    (sat_collision M shapeA positionA rotationA shapeB positionB rotationB mtv).1 = false ↔
      ∃ n ∈ sat_axes M shapeA shapeB,
        (project_onto_vector M shapeA positionA rotationA n).2 <
            (project_onto_vector M shapeB positionB rotationB n).1 ∨
          (project_onto_vector M shapeB positionB rotationB n).2 <
            (project_onto_vector M shapeA positionA rotationA n).1 := by
  rw [← Bool.not_eq_true, sat_collision_fst, sat_search_eq_fold, sat_fold_isSome_iff]
  push_neg
  constructor
  · rintro ⟨n, hn, h⟩
    refine ⟨n, hn, ?_⟩
    have h0 : axis_overlap M shapeA positionA rotationA shapeB positionB rotationB n = none := by
      cases hx : axis_overlap M shapeA positionA rotationA shapeB positionB rotationB n with
      | none => rfl
      | some o => rw [hx] at h; exact absurd rfl h
    exact (is_overlap_eq_none_iff _ _ _ _).mp h0
  · rintro ⟨n, hn, h⟩
    refine ⟨n, hn, ?_⟩
    have := (is_overlap_eq_none_iff _ _ _ _).mpr h
    unfold axis_overlap
    rw [this]
    simp

/-- The minimum overlap recorded by the search is not negative. -/
theorem sat_search_nonneg (M : FloatMath K)
    {shapeA : List (Vector2 K)} {positionA : Vector2 K} {rotationA : K}
    {shapeB : List (Vector2 K)} {positionB : Vector2 K} {rotationB : K}
    {o : K} {n : Vector2 K}
    (h : sat_search M shapeA positionA rotationA shapeB positionB rotationB = some (o, n)) :
    0 ≤ o := by
  rw [sat_search_eq_fold] at h
  obtain ⟨-, -, hc⟩ := sat_fold_first_min M shapeA positionA rotationA shapeB positionB
    rotationB _ _ _ h
  rcases hc with hc | ⟨k, n1, -, -, -, hov, -⟩
  · simp only [Prod.mk.injEq] at hc
    rw [hc.1]
    norm_num [FLT_MAX]
  · exact is_overlap_nonneg hov

/-- The normalised vector is a non-negative multiple of the vector. -/
theorem normalize_eq_scale (M : FloatMath K) (v : Vector2 K) :
    ∃ k : K, 0 ≤ k ∧ Vector2Normalize M v = Vector2Scale v k := by
  unfold Vector2Normalize
  simp only
  split_ifs with h
  · exact ⟨1 / M.sqrtf (v.x * v.x + v.y * v.y), by positivity, rfl⟩
  · exact ⟨0, le_rfl, by simp [Vector2Scale]⟩

end ExtremaLemmas

section OutlineLemmas
variable {K : Type} [LinearOrderedField K]

/-- One pass of the loop of `asteroid_new` adds one point and keeps every
point made so far between the running extrema. -/
theorem asteroid_new_step_inv (M : FloatMath K) (r : K) (st : OutlineState K) (i : Nat)
    (h : ∀ p ∈ st.points,
      st.min_x ≤ p.x ∧ p.x ≤ st.max_x ∧ st.min_y ≤ p.y ∧ p.y ≤ st.max_y) :
    (∀ p ∈ (asteroid_new_step M r st i).points,
      (asteroid_new_step M r st i).min_x ≤ p.x ∧ p.x ≤ (asteroid_new_step M r st i).max_x ∧
      (asteroid_new_step M r st i).min_y ≤ p.y ∧ p.y ≤ (asteroid_new_step M r st i).max_y) ∧
    (asteroid_new_step M r st i).points.length = st.points.length + 1 := by
  refine ⟨?_, by simp [asteroid_new_step]⟩
  intro p hp
  simp only [asteroid_new_step, List.mem_append, List.mem_singleton] at hp ⊢
  rcases hp with hp | rfl
  · obtain ⟨h1, h2, h3, h4⟩ := h p hp
    refine ⟨?_, ?_, ?_, ?_⟩ <;> split_ifs <;> linarith
  · refine ⟨?_, ?_, ?_, ?_⟩ <;> split_ifs <;> linarith

theorem asteroid_new_fold_inv (M : FloatMath K) (r : K) (is : List Nat) (st : OutlineState K)
    (h : ∀ p ∈ st.points,
      st.min_x ≤ p.x ∧ p.x ≤ st.max_x ∧ st.min_y ≤ p.y ∧ p.y ≤ st.max_y) :
    (∀ p ∈ (is.foldl (asteroid_new_step M r) st).points,
      (is.foldl (asteroid_new_step M r) st).min_x ≤ p.x ∧
      p.x ≤ (is.foldl (asteroid_new_step M r) st).max_x ∧
      (is.foldl (asteroid_new_step M r) st).min_y ≤ p.y ∧
      p.y ≤ (is.foldl (asteroid_new_step M r) st).max_y) ∧
    (is.foldl (asteroid_new_step M r) st).points.length = st.points.length + is.length := by
  induction is generalizing st with
  | nil => exact ⟨h, rfl⟩
  | cons i is ih =>
    obtain ⟨h1, h2⟩ := asteroid_new_step_inv M r st i h
    obtain ⟨h3, h4⟩ := ih (asteroid_new_step M r st i) h1
    refine ⟨h3, ?_⟩
    simp only [List.foldl_cons, List.length_cons]
    rw [h4, h2]
    omega

end OutlineLemmas

section TranslateLemmas
variable {K : Type} [LinearOrderedField K]

/-- Shifting both intervals by the same amount does not change what
`is_overlap` returns. -/
theorem is_overlap_add (minA maxA minB maxB s : K) :
    is_overlap (minA + s) (maxA + s) (minB + s) (maxB + s) = is_overlap minA maxA minB maxB := by
  unfold is_overlap
  have e1 : (maxA + s < minB + s ∨ maxB + s < minA + s) ↔ (maxA < minB ∨ maxB < minA) := by
    rw [add_lt_add_iff_right, add_lt_add_iff_right]
  have e2 : (maxA + s < maxB + s) ↔ (maxA < maxB) := add_lt_add_iff_right s
  simp only [e1, e2, add_sub_add_right_eq_sub]

/-- Translating both shapes by `t` does not change the overlap on any axis. -/
theorem axis_overlap_translate (M : FloatMath K)
    (shapeA : List (Vector2 K)) (positionA : Vector2 K) (rotationA : K)
    (shapeB : List (Vector2 K)) (positionB : Vector2 K) (rotationB : K)
    (t axis : Vector2 K) :
    axis_overlap M shapeA (Vector2Add positionA t) rotationA
        shapeB (Vector2Add positionB t) rotationB axis =
      axis_overlap M shapeA positionA rotationA shapeB positionB rotationB axis := by
  simp only [axis_overlap, project_translate]
  exact is_overlap_add _ _ _ _ _

theorem sat_fold_translate (M : FloatMath K)
    (shapeA : List (Vector2 K)) (positionA : Vector2 K) (rotationA : K)
    (shapeB : List (Vector2 K)) (positionB : Vector2 K) (rotationB : K)
    (t : Vector2 K) (ns : List (Vector2 K)) (st : K × Vector2 K) :
    sat_fold M shapeA (Vector2Add positionA t) rotationA
        shapeB (Vector2Add positionB t) rotationB ns st =
      sat_fold M shapeA positionA rotationA shapeB positionB rotationB ns st := by
  induction ns generalizing st with
  | nil => rfl
  | cons n ns ih =>
    simp only [sat_fold, sat_axis_step_eq, axis_overlap_translate]
    cases axis_overlap M shapeA positionA rotationA shapeB positionB rotationB n with
    | none => rfl
    | some o =>
      simp only
      split_ifs
      · exact ih _
      · exact ih _

theorem sat_search_translate (M : FloatMath K)
    (shapeA : List (Vector2 K)) (positionA : Vector2 K) (rotationA : K)
    (shapeB : List (Vector2 K)) (positionB : Vector2 K) (rotationB : K)
    (t : Vector2 K) :
    sat_search M shapeA (Vector2Add positionA t) rotationA
        shapeB (Vector2Add positionB t) rotationB =
      sat_search M shapeA positionA rotationA shapeB positionB rotationB := by
  rw [sat_search_eq_fold, sat_search_eq_fold, sat_fold_translate]

/-- The torque on asteroid0: the cross product of `MTV/2` with a multiple of
the MTV is zero. -/
theorem torque0_zero (M : FloatMath K) (asteroid0 asteroid1 : Asteroid K) (mtv : Vector2 K) :
    Vector2CrossProduct
      (Vector2Subtract (Vector2Add asteroid0.entity.position (Vector2Scale mtv 0.5))
        asteroid0.entity.position)
      (collision_impulse M asteroid0 asteroid1 mtv) = 0 := by
  obtain ⟨k, -, hk⟩ := normalize_eq_scale M mtv
  simp only [collision_impulse, hk, Vector2CrossProduct, Vector2Subtract, Vector2Add,
    Vector2Scale]
  ring

/-- The two squares lying side by side: asteroid1 at `(10, 0)` moving down,
asteroid0 at the origin moving up, MTV `(0, 5)`.  The impulse is `(0, -32)`
and asteroid1's angular velocity goes from 0 to `-5/4`. -/
theorem offset_pair_angular {M : FloatMath K} (hM : M.Exact) :
    (handle_asteroid_collision M
      ⟨32, [], ⟨0, 0⟩, ⟨⟨0, 1⟩, 0⟩, 0, 0, EntityType.ET_ASTEROID, [], ⟨0, 0⟩⟩
      ⟨16, [], ⟨10, 0⟩, ⟨⟨0, -1⟩, 0⟩, 0, 0, EntityType.ET_ASTEROID, [], ⟨0, 0⟩⟩
      ⟨0, 5⟩).2.entity.velocity.angular = -(5 / 4) := by
  have hn : Vector2Normalize M (⟨0, 5⟩ : Vector2 K) = ⟨0, 1⟩ := by
    rw [normalize_of_sq hM _ 5 (by norm_num) (by norm_num)]; norm_num
  simp only [handle_asteroid_collision, hn, Vector2CrossProduct, Vector2Subtract, Vector2Add,
    Vector2Scale, Vector2DotProduct]
  norm_num

end TranslateLemmas

section TickBasics
variable {K : Type} [LinearOrderedField K]

end TickBasics

section OneUnit
variable {β : Type}

end OneUnit

section SwapRemove
variable {β : Type}

end SwapRemove

section ScanSteps2
variable {K : Type} [LinearOrderedField K] [FloorRing K]

end ScanSteps2

section OneUnit2
variable {β : Type}

end OneUnit2

section SplitGrows
variable {K : Type} [LinearOrderedField K]

end SplitGrows

section DamageRead
variable {K : Type}

end DamageRead

section OffScreen
variable {β : Type}

end OffScreen

section ScanOnce
variable {K : Type} [LinearOrderedField K] [FloorRing K]

end ScanOnce

section ScanRun
variable {K : Type} [LinearOrderedField K] [FloorRing K]

end ScanRun

section TickRun
variable {K : Type} [LinearOrderedField K] [FloorRing K]

end TickRun

section ScanEval2
variable {K : Type} [LinearOrderedField K] [FloorRing K]

end ScanEval2

/-! ## Claims -/

section Claims
variable {K : Type} [LinearOrderedField K]

/-- C1 (evaluated at the failing input). The right triangle `triangle345`
rotated by 90 degrees about the origin and the unit square moved to
`(-3, 0)` have no point in common (the line `4x + 3y = 0` carrying the
triangle's hypotenuse separates them), yet `sat_collision` returns true:
its axes are the normals of the unrotated local edges, so the normal of the
rotated hypotenuse is never tested. -/
theorem sat_collision_rotated_false_positive :
    (sat_collision (⟨Real.sqrt, Real.cos, Real.sin, Real.pi / 180⟩ : FloatMath ℝ)
      triangle345 ⟨0, 0⟩ 90 unitSquare ⟨-3, 0⟩ 0 none).1 = true ∧
    ∀ p : Vector2 ℝ,
      ¬(InPolygon (transformed (⟨Real.sqrt, Real.cos, Real.sin, Real.pi / 180⟩ : FloatMath ℝ)
          triangle345 ⟨0, 0⟩ 90) p ∧
        InPolygon (transformed (⟨Real.sqrt, Real.cos, Real.sin, Real.pi / 180⟩ : FloatMath ℝ)
          unitSquare ⟨-3, 0⟩ 0) p) := by
  have hc : Real.cos (Real.pi / 180 * 90) = 0 := by
    rw [show Real.pi / 180 * 90 = Real.pi / 2 by ring]; exact Real.cos_pi_div_two
  have hs : Real.sin (Real.pi / 180 * 90) = 1 := by
    rw [show Real.pi / 180 * 90 = Real.pi / 2 by ring]; exact Real.sin_pi_div_two
  refine ⟨?_, rotated_disjoint real_exact hc hs⟩
  rw [sat_collision_fst, sat_search_eq_fold, sat_fold_isSome_iff, rotated_axes real_exact]
  exact rotated_overlap real_exact hc hs

/-- C2. If the two transformed polygons (for a convex polygon, the convex
hull of its rotated and translated vertices) share a point, `sat_collision`
returns true, whatever the `mtv` pointer. -/
theorem sat_collision_true_of_common_point (M : FloatMath K)
    (shapeA : List (Vector2 K)) (positionA : Vector2 K) (rotationA : K)
    (shapeB : List (Vector2 K)) (positionB : Vector2 K) (rotationB : K)
    (mtv : Option (Vector2 K)) (p : Vector2 K)
    (hA : InPolygon (transformed M shapeA positionA rotationA) p)
    (hB : InPolygon (transformed M shapeB positionB rotationB) p) :
    (sat_collision M shapeA positionA rotationA shapeB positionB rotationB mtv).1 = true := by
  rw [sat_collision_fst, sat_search_eq_fold, sat_fold_isSome_iff]
  intro n _
  obtain ⟨a1, a2⟩ := inPolygon_project_bounds M shapeA positionA rotationA n p hA
  obtain ⟨b1, b2⟩ := inPolygon_project_bounds M shapeB positionB rotationB n p hB
  rw [Option.isSome_iff_ne_none, Ne, axis_overlap, is_overlap_eq_none_iff]
  rintro (h | h)
  · exact absurd (b1.trans a2) (not_le.mpr h)
  · exact absurd (a1.trans b2) (not_le.mpr h)

/-- C2 at a concrete input: two triangles sharing the point `(3, 0)`. -/
theorem sat_collision_true_of_common_point_witness :
    (sat_collision (⟨Real.sqrt, Real.cos, Real.sin, Real.pi / 180⟩ : FloatMath ℝ)
      [⟨0, 0⟩, ⟨4, 0⟩, ⟨0, 4⟩] ⟨0, 0⟩ 0 [⟨0, 0⟩, ⟨2, 0⟩, ⟨0, 2⟩] ⟨3, 0⟩ 0 none).1 = true :=
  sat_collision_true_of_common_point _ _ _ _ _ _ _ _ ⟨3, 0⟩
    ⟨[1 / 4, 3 / 4, 0], rfl, by norm_num, by norm_num,
      by norm_num [combine, transformed, transform, Vector2Add, Vector2Scale, Vector2Rotate]⟩
    ⟨[1, 0, 0], rfl, by simp, by norm_num,
      by simp [combine, transformed, transform, Vector2Add, Vector2Scale, Vector2Rotate]⟩

/-- C3. The boolean returned by `sat_collision` does not depend on the order
in which the two shapes are passed (nor on the `mtv` pointers). -/
theorem sat_collision_symm (M : FloatMath K)
    (shapeA : List (Vector2 K)) (positionA : Vector2 K) (rotationA : K)
    (shapeB : List (Vector2 K)) (positionB : Vector2 K) (rotationB : K)
    (mtv1 mtv2 : Option (Vector2 K)) :
    (sat_collision M shapeA positionA rotationA shapeB positionB rotationB mtv1).1 =
      (sat_collision M shapeB positionB rotationB shapeA positionA rotationA mtv2).1 := by
  rw [Bool.eq_iff_iff, sat_collision_fst, sat_collision_fst, sat_search_eq_fold,
    sat_search_eq_fold, sat_fold_isSome_iff, sat_fold_isSome_iff]
  simp only [sat_axes, List.mem_append]
  constructor
  · intro h n hn
    rw [← axis_overlap_comm_isSome]
    exact h n hn.symm
  · intro h n hn
    rw [axis_overlap_comm_isSome]
    exact h n hn.symm

/-- C4 as stated fails: for the square with corners `(±FLT_MAX, ±FLT_MAX)`
tested against itself every edge has non-zero length and `sat_collision`
returns true, but every axis overlaps by `2 * FLT_MAX`, which is not below
the initial `minOverlap = FLT_MAX`; no axis is ever recorded and the MTV
written is the zero vector, not `o * n`. -/
theorem sat_collision_mtv_first_min_counterexample :
    EdgesNonZero (centredSquare (FLT_MAX : ℝ)) ∧
    sat_collision (⟨Real.sqrt, Real.cos, Real.sin, Real.pi / 180⟩ : FloatMath ℝ)
      (centredSquare FLT_MAX) ⟨0, 0⟩ 0 (centredSquare FLT_MAX) ⟨0, 0⟩ 0 (some ⟨1, 1⟩) =
        (true, some ⟨0, 0⟩) ∧
    ¬ IsFirstMinMtv (⟨Real.sqrt, Real.cos, Real.sin, Real.pi / 180⟩ : FloatMath ℝ)
      (centredSquare FLT_MAX) ⟨0, 0⟩ 0 (centredSquare FLT_MAX) ⟨0, 0⟩ 0 ⟨0, 0⟩ :=
  ⟨big_square_edges, big_square_collision real_exact ⟨1, 1⟩, big_square_not_first_min real_exact⟩

/-- C4 (amended). When `sat_collision` returns true with a non-null `mtv`,
every edge of both shapes has non-zero length and some tested axis has an
overlap below `FLT_MAX`, the written MTV is `o * n` for the first axis `n`
in test order whose overlap `o` is the least overlap over all tested axes,
and the MTV's length is `o`. -/
theorem sat_collision_mtv_first_min (M : FloatMath K) (hM : M.Exact)
    (shapeA : List (Vector2 K)) (positionA : Vector2 K) (rotationA : K)
    (shapeB : List (Vector2 K)) (positionB : Vector2 K) (rotationB : K)
    (v m : Vector2 K)
    (hA : EdgesNonZero shapeA) (hB : EdgesNonZero shapeB)
    (hret : sat_collision M shapeA positionA rotationA shapeB positionB rotationB (some v) =
      (true, some m))
    (hbound : ∃ n ∈ sat_axes M shapeA shapeB, ∃ o : K,
      axis_overlap M shapeA positionA rotationA shapeB positionB rotationB n = some o ∧
        o < FLT_MAX) :
    IsFirstMinMtv M shapeA positionA rotationA shapeB positionB rotationB m := by
  obtain ⟨o, n, hs, rfl⟩ := sat_collision_some hret
  rw [sat_search_eq_fold] at hs
  obtain ⟨hb, -, hc⟩ := sat_fold_first_min M shapeA positionA rotationA shapeB positionB
    rotationB _ _ _ hs
  simp only at hb hc
  rcases hc with hc | ⟨k, n1, hk, rfl, -, hov, hj⟩
  · exfalso
    obtain ⟨n2, hn2, o2, ho2, hlt⟩ := hbound
    obtain ⟨o3, ho3, hle⟩ := hb n2 hn2
    rw [ho2] at ho3
    simp only [Option.some.injEq] at ho3
    subst ho3
    simp only [Prod.mk.injEq] at hc
    rw [hc.1] at hle
    exact absurd hlt (not_lt.mpr hle)
  · have hmem : n ∈ sat_axes M shapeA shapeB := List.getElem?_mem hk
    have hunit := sat_axes_unit hM shapeA shapeB hA hB n hmem
    have ho : 0 ≤ o := is_overlap_nonneg hov
    rw [normalize_of_unit hM n hunit]
    refine ⟨k, n, o, hk, hov, ?_, hj, rfl, length_scale_unit hM n o hunit ho⟩
    intro n2 hn2 o2 ho2
    obtain ⟨o3, ho3, hle⟩ := hb n2 hn2
    rw [ho2] at ho3
    simp only [Option.some.injEq] at ho3
    subst ho3
    exact hle

/-- C4 (amended) at the two-squares scenario, where the MTV is `(0, 5)`. -/
theorem sat_collision_mtv_first_min_witness :
    IsFirstMinMtv (⟨Real.sqrt, Real.cos, Real.sin, Real.pi / 180⟩ : FloatMath ℝ)
      squareA ⟨0, 0⟩ 0 squareB ⟨0, 0⟩ 0 ⟨0, 5⟩ :=
  sat_collision_mtv_first_min _ real_exact squareA ⟨0, 0⟩ 0 squareB ⟨0, 0⟩ 0 ⟨1, 1⟩ ⟨0, 5⟩
    squareA_edges squareB_edges (squares_collision real_exact ⟨1, 1⟩)
    ⟨⟨0, 1⟩, by rw [squares_axes real_exact]; simp, 5,
      squares_overlap real_exact _ (by simp), by norm_num [FLT_MAX]⟩

/-- C5. When `sat_collision` returns true with MTV `m` and the search ended
on axis `n`, the projections of the two shapes onto `n` overlap, and for at
least one of the two shapes translating it by `m` gives projections onto `n`
that still meet with an overlap amount no larger than before. -/
theorem mtv_translation_reduces_overlap (M : FloatMath K) (hM : M.Exact)
    (shapeA : List (Vector2 K)) (positionA : Vector2 K) (rotationA : K)
    (shapeB : List (Vector2 K)) (positionB : Vector2 K) (rotationB : K)
    (v m n : Vector2 K) (o : K)
    (hret : sat_collision M shapeA positionA rotationA shapeB positionB rotationB (some v) =
      (true, some m))
    (haxis : sat_search M shapeA positionA rotationA shapeB positionB rotationB = some (o, n)) :
    ∃ before : K,
      axis_overlap M shapeA positionA rotationA shapeB positionB rotationB n = some before ∧
      ((∃ after : K,
          axis_overlap M shapeA (Vector2Add positionA m) rotationA shapeB positionB rotationB n =
            some after ∧ after ≤ before) ∨
       (∃ after : K,
          axis_overlap M shapeA positionA rotationA shapeB (Vector2Add positionB m) rotationB n =
            some after ∧ after ≤ before)) := by
  obtain ⟨o1, n1, hs, rfl⟩ := sat_collision_some hret
  rw [haxis] at hs
  simp only [Option.some.injEq, Prod.mk.injEq] at hs
  obtain ⟨rfl, rfl⟩ := hs
  rcases sat_search_axis hM haxis with h0 | ⟨hunit, hov⟩
  · subst h0
    refine ⟨0, axis_overlap_zero_axis .., Or.inl ⟨0, axis_overlap_zero_axis .., le_rfl⟩⟩
  · refine ⟨o, hov, ?_⟩
    have ho := is_overlap_nonneg hov
    have hdot : Vector2DotProduct (Vector2Scale (Vector2Normalize M n) o) n = o := by
      rw [normalize_of_unit hM n hunit]
      simp only [Vector2DotProduct, Vector2Scale]
      have : n.x * o * n.x + n.y * o * n.y = (n.x * n.x + n.y * n.y) * o := by ring
      rw [this, hunit, one_mul]
    have hshift := is_overlap_shift
      (project_min_le_max M shapeA positionA rotationA n)
      (project_min_le_max M shapeB positionB rotationB n) hov
    rcases hshift with hA | hB
    · left
      refine ⟨0, ?_, ho⟩
      simp only [axis_overlap, project_translate, hdot]
      exact hA
    · right
      refine ⟨0, ?_, ho⟩
      simp only [axis_overlap, project_translate, hdot]
      exact hB

/-- C5 at the two-squares scenario: MTV `(0, 5)` on the axis `(0, 1)`. -/
theorem mtv_translation_reduces_overlap_witness :
    ∃ before : ℝ,
      axis_overlap (⟨Real.sqrt, Real.cos, Real.sin, Real.pi / 180⟩ : FloatMath ℝ)
        squareA ⟨0, 0⟩ 0 squareB ⟨0, 0⟩ 0 ⟨0, 1⟩ = some before ∧
      ((∃ after : ℝ,
          axis_overlap (⟨Real.sqrt, Real.cos, Real.sin, Real.pi / 180⟩ : FloatMath ℝ)
            squareA (Vector2Add ⟨0, 0⟩ ⟨0, 5⟩) 0 squareB ⟨0, 0⟩ 0 ⟨0, 1⟩ = some after ∧
            after ≤ before) ∨
       (∃ after : ℝ,
          axis_overlap (⟨Real.sqrt, Real.cos, Real.sin, Real.pi / 180⟩ : FloatMath ℝ)
            squareA ⟨0, 0⟩ 0 squareB (Vector2Add ⟨0, 0⟩ ⟨0, 5⟩) 0 ⟨0, 1⟩ = some after ∧
            after ≤ before)) :=
  mtv_translation_reduces_overlap _ real_exact squareA ⟨0, 0⟩ 0 squareB ⟨0, 0⟩ 0
    ⟨1, 1⟩ ⟨0, 5⟩ ⟨0, 1⟩ 5 (squares_collision real_exact ⟨1, 1⟩) (squares_search real_exact)

/-- C6. For the squares `(0,0)-(10,10)` and `(5,5)-(15,15)` at position
`(0,0)` and rotation 0, `sat_collision` returns true, eight axes are tested
and each shows an overlap amount of 5, and the MTV written has length 5 and
is 5 times the first tested axis, the normal of A's first edge. -/
theorem squares_scenario (M : FloatMath K) (hM : M.Exact) (v : Vector2 K) :
    sat_collision M (squareA : List (Vector2 K)) ⟨0, 0⟩ 0 squareB ⟨0, 0⟩ 0 none = (true, none) ∧
    (sat_axes M (squareA : List (Vector2 K)) squareB).length = 8 ∧
    (∀ n ∈ sat_axes M (squareA : List (Vector2 K)) squareB,
      axis_overlap M squareA ⟨0, 0⟩ 0 squareB ⟨0, 0⟩ 0 n = some 5) ∧
    (sat_axes M (squareA : List (Vector2 K)) squareB)[0]? = some (edge_normal M squareA 0) ∧
    ∃ m : Vector2 K,
      sat_collision M squareA ⟨0, 0⟩ 0 squareB ⟨0, 0⟩ 0 (some v) = (true, some m) ∧
      Vector2Length M m = 5 ∧
      m = Vector2Scale (edge_normal M squareA 0) 5 := by
  have hs := squares_search hM
  have hax := squares_axes hM
  have h0 : (sat_axes M (squareA : List (Vector2 K)) squareB)[0]? =
      some (edge_normal M squareA 0) := by
    simp [sat_axes, squareA, squareB, List.range_succ]
  have he : edge_normal M (squareA : List (Vector2 K)) 0 = ⟨0, 1⟩ := by
    rw [hax] at h0
    simpa using h0.symm
  refine ⟨by simp [sat_collision, hs], by rw [hax]; rfl, ?_, h0, ⟨0, 5⟩,
    squares_collision hM v, ?_, ?_⟩
  · intro n hn
    rw [hax] at hn
    apply squares_overlap hM
    simp only [List.mem_cons, List.mem_singleton, List.not_mem_nil, or_false] at hn ⊢
    tauto
  · have h := hM.sqrtf_mul_self_eq (a := 5) (by norm_num)
    simpa [Vector2Length] using h
  · rw [he]; simp [Vector2Scale]

/-- C6 with the exact real functions. -/
theorem squares_scenario_witness :
    sat_collision (⟨Real.sqrt, Real.cos, Real.sin, Real.pi / 180⟩ : FloatMath ℝ)
      squareA ⟨0, 0⟩ 0 squareB ⟨0, 0⟩ 0 none = (true, none) ∧
    (sat_axes (⟨Real.sqrt, Real.cos, Real.sin, Real.pi / 180⟩ : FloatMath ℝ)
      squareA squareB).length = 8 ∧
    (∀ n ∈ sat_axes (⟨Real.sqrt, Real.cos, Real.sin, Real.pi / 180⟩ : FloatMath ℝ)
        squareA squareB,
      axis_overlap (⟨Real.sqrt, Real.cos, Real.sin, Real.pi / 180⟩ : FloatMath ℝ)
        squareA ⟨0, 0⟩ 0 squareB ⟨0, 0⟩ 0 n = some 5) ∧
    (sat_axes (⟨Real.sqrt, Real.cos, Real.sin, Real.pi / 180⟩ : FloatMath ℝ)
      squareA squareB)[0]? =
        some (edge_normal (⟨Real.sqrt, Real.cos, Real.sin, Real.pi / 180⟩ : FloatMath ℝ)
          squareA 0) ∧
    ∃ m : Vector2 ℝ,
      sat_collision (⟨Real.sqrt, Real.cos, Real.sin, Real.pi / 180⟩ : FloatMath ℝ)
        squareA ⟨0, 0⟩ 0 squareB ⟨0, 0⟩ 0 (some ⟨1, 1⟩) = (true, some m) ∧
      Vector2Length (⟨Real.sqrt, Real.cos, Real.sin, Real.pi / 180⟩ : FloatMath ℝ) m = 5 ∧
      m = Vector2Scale
        (edge_normal (⟨Real.sqrt, Real.cos, Real.sin, Real.pi / 180⟩ : FloatMath ℝ) squareA 0)
        5 :=
  squares_scenario _ real_exact ⟨1, 1⟩

/-- C7. For a strictly convex polygon with at least 3 points (vertices in
counter-clockwise order for `s = 1`, clockwise for `s = -1`), any position
and rotation and any query point, `point_in_polygon` returns true when the
point is strictly on the interior side of every edge line of the transformed
polygon, and false when it is strictly on the exterior side of some edge
line. -/
theorem point_in_polygon_convex (M : FloatMath K) (hM : M.Exact) (polygon : List (Vector2 K))
    (position : Vector2 K) (rotation : K) (point : Vector2 K) (s : K) (hs : s = 1 ∨ s = -1)
    (hlen : 3 ≤ polygon.length) (hconv : ConvexPolygon s polygon) :
    (StrictlyInside s (transformed M polygon position rotation) point →
      point_in_polygon M polygon position rotation point = true) ∧
    (StrictlyOutside s (transformed M polygon position rotation) point →
      point_in_polygon M polygon position rotation point = false) := by
  have hpos : 0 < polygon.length := by omega
  have hl : (transformed M polygon position rotation).length = polygon.length := by
    simp [transformed]
  have hper := cyclic_vertex_periodic M polygon position rotation
  have hcv := cyclic_vertex_convex hM polygon position rotation s hpos hconv
  rw [point_in_polygon_eq_bodd M polygon position rotation point hpos]
  constructor
  · intro hin
    have hin' : ∀ k, 0 < s * side (cyclic_vertex M polygon position rotation k)
        (cyclic_vertex M polygon position rotation (k + 1)) point := by
      intro k
      rw [cyclic_vertex_side M polygon position rotation point k hpos]
      exact hin (k % polygon.length) (by rw [hl]; exact Nat.mod_lt _ hpos)
    rw [crossings_inside polygon.length hlen _ hper s hs hcv point hin']
    rfl
  · rintro ⟨i, hi, hout⟩
    rw [hl] at hi
    have hout' : ∃ k, s * side (cyclic_vertex M polygon position rotation k)
        (cyclic_vertex M polygon position rotation (k + 1)) point < 0 := by
      refine ⟨i, ?_⟩
      rw [cyclic_vertex_side M polygon position rotation point i hpos, Nat.mod_eq_of_lt hi]
      exact hout
    rcases crossings_outside polygon.length hlen _ hper s hs hcv point hout' with h | h
    · rw [h]; rfl
    · rw [h]; rfl

/-- C7 for the right triangle rotated by 90 degrees (vertices `(0,0)`,
`(0,4)`, `(-3,4)`): `(-1, 3)` is inside, `(-2, 1)` is outside. -/
theorem point_in_polygon_convex_witness :
    point_in_polygon (⟨Real.sqrt, Real.cos, Real.sin, Real.pi / 180⟩ : FloatMath ℝ)
      triangle345 ⟨0, 0⟩ 90 ⟨-1, 3⟩ = true ∧
    point_in_polygon (⟨Real.sqrt, Real.cos, Real.sin, Real.pi / 180⟩ : FloatMath ℝ)
      triangle345 ⟨0, 0⟩ 90 ⟨-2, 1⟩ = false := by
  have hc : Real.cos (Real.pi / 180 * 90) = 0 := by
    rw [show Real.pi / 180 * 90 = Real.pi / 2 by ring]; exact Real.cos_pi_div_two
  have hs : Real.sin (Real.pi / 180 * 90) = 1 := by
    rw [show Real.pi / 180 * 90 = Real.pi / 2 by ring]; exact Real.sin_pi_div_two
  constructor
  · refine (point_in_polygon_convex _ real_exact triangle345 ⟨0, 0⟩ 90 ⟨-1, 3⟩ 1 (Or.inl rfl)
      (by simp [triangle345]) triangle345_convex).1 ?_
    intro i hi
    simp only [transformed, triangle345, List.length_cons, List.length_nil, List.map_cons,
      List.map_nil] at hi
    interval_cases i <;>
      norm_num [transformed, triangle345, transform, Vector2Zero, side_def, Vector2Add,
        Vector2Rotate, hc, hs]
  · refine (point_in_polygon_convex _ real_exact triangle345 ⟨0, 0⟩ 90 ⟨-2, 1⟩ 1 (Or.inl rfl)
      (by simp [triangle345]) triangle345_convex).2 ?_
    refine ⟨2, by simp [transformed, triangle345], ?_⟩
    norm_num [transformed, triangle345, transform, Vector2Zero, side_def, Vector2Add,
      Vector2Rotate, hc, hs]

/-- C8. For every `r > 0` the square `(-r,-r), (r,-r), (r,r), (-r,r)` at
position `(0,0)` and rotation 0 contains `(0,0)` and does not contain
`(2r, 2r)` according to `point_in_polygon`. -/
theorem square_point_in_polygon (M : FloatMath K) (hM : M.Exact) (r : K) (hr : 0 < r) :
    point_in_polygon M (centredSquare r) ⟨0, 0⟩ 0 ⟨0, 0⟩ = true ∧
    point_in_polygon M (centredSquare r) ⟨0, 0⟩ 0 ⟨2 * r, 2 * r⟩ = false := by
  have hrange : List.range 4 = [0, 1, 2, 3] := by decide
  constructor
  · simp [point_in_polygon, point_in_polygon_loop, centredSquare, hrange, Vector2Add,
      Vector2Rotate, Vector2Zero, hM.cosf_zero, hM.sinf_zero, hr]
    exact hr.le
  · simp [point_in_polygon, point_in_polygon_loop, centredSquare, hrange, Vector2Add,
      Vector2Rotate, Vector2Zero, hM.cosf_zero, hM.sinf_zero, hr]
    linarith

/-- C8 at `r = 1` with the exact real functions. -/
theorem square_point_in_polygon_witness :
    point_in_polygon (⟨Real.sqrt, Real.cos, Real.sin, Real.pi / 180⟩ : FloatMath ℝ)
      (centredSquare 1) ⟨0, 0⟩ 0 ⟨0, 0⟩ = true ∧
    point_in_polygon (⟨Real.sqrt, Real.cos, Real.sin, Real.pi / 180⟩ : FloatMath ℝ)
      (centredSquare 1) ⟨0, 0⟩ 0 ⟨2 * 1, 2 * 1⟩ = false :=
  square_point_in_polygon _ real_exact 1 one_pos

/-- C9. For asteroids with positive radii and a non-zero MTV, the component
of the relative linear velocity (asteroid0 minus asteroid1) along
`normalize(MTV)` after `handle_asteroid_collision` is `-0.5` times its value
before; so when that value was non-zero the two have opposite signs. -/
theorem relative_velocity_reverses (M : FloatMath K) (hM : M.Exact)
    (asteroid0 asteroid1 : Asteroid K) (mtv : Vector2 K)
    (h0 : 0 < asteroid0.radius) (h1 : 0 < asteroid1.radius) (hm : mtv ≠ ⟨0, 0⟩) :
    normal_speed M (handle_asteroid_collision M asteroid0 asteroid1 mtv).1
        (handle_asteroid_collision M asteroid0 asteroid1 mtv).2 mtv =
      -0.5 * normal_speed M asteroid0 asteroid1 mtv ∧
    (normal_speed M asteroid0 asteroid1 mtv ≠ 0 →
      normal_speed M (handle_asteroid_collision M asteroid0 asteroid1 mtv).1
          (handle_asteroid_collision M asteroid0 asteroid1 mtv).2 mtv *
        normal_speed M asteroid0 asteroid1 mtv < 0) := by
  have hn := normalize_sq_of_ne_zero hM mtv hm
  have hs : 0 < 1 / asteroid0.radius + 1 / asteroid1.radius := by positivity
  have key : normal_speed M (handle_asteroid_collision M asteroid0 asteroid1 mtv).1
        (handle_asteroid_collision M asteroid0 asteroid1 mtv).2 mtv =
      -0.5 * normal_speed M asteroid0 asteroid1 mtv := by
    simp only [normal_speed, handle_asteroid_collision, Vector2DotProduct, Vector2Subtract,
      Vector2Add, Vector2Scale]
    generalize Vector2Normalize M mtv = n at hn ⊢
    generalize asteroid0.entity.velocity.linear = va
    generalize asteroid1.entity.velocity.linear = vb
    have h0' := h0.ne'
    have h1' := h1.ne'
    have hs' := hs.ne'
    set b := (va.x - vb.x) * n.x + (va.y - vb.y) * n.y with hb
    set s := 1 / asteroid0.radius + 1 / asteroid1.radius with hs2
    have e : (va.x + n.x * (-(1 + 0.5) * b / s) * (1 / asteroid0.radius) -
          (vb.x - n.x * (-(1 + 0.5) * b / s) * (1 / asteroid1.radius))) * n.x +
        (va.y + n.y * (-(1 + 0.5) * b / s) * (1 / asteroid0.radius) -
          (vb.y - n.y * (-(1 + 0.5) * b / s) * (1 / asteroid1.radius))) * n.y =
        b + (-(1 + 0.5) * b / s) * s * (n.x * n.x + n.y * n.y) := by
      rw [hb, hs2]; ring
    rw [e, hn]
    field_simp
    ring
  refine ⟨key, fun hne => ?_⟩
  rw [key]
  have := mul_self_pos.mpr hne
  norm_num
  nlinarith

/-- C9 for a big and a medium asteroid closing along the y axis. -/
theorem relative_velocity_reverses_witness :
    normal_speed (⟨Real.sqrt, Real.cos, Real.sin, Real.pi / 180⟩ : FloatMath ℝ)
        (handle_asteroid_collision (⟨Real.sqrt, Real.cos, Real.sin, Real.pi / 180⟩ : FloatMath ℝ)
          ⟨32, [], ⟨0, 0⟩, ⟨⟨0, 1⟩, 0⟩, 0, 100, .ET_ASTEROID, [], ⟨0, 0⟩⟩
          ⟨16, [], ⟨0, 40⟩, ⟨⟨0, -1⟩, 0⟩, 0, 100, .ET_ASTEROID, [], ⟨0, 0⟩⟩ ⟨0, 5⟩).1
        (handle_asteroid_collision (⟨Real.sqrt, Real.cos, Real.sin, Real.pi / 180⟩ : FloatMath ℝ)
          ⟨32, [], ⟨0, 0⟩, ⟨⟨0, 1⟩, 0⟩, 0, 100, .ET_ASTEROID, [], ⟨0, 0⟩⟩
          ⟨16, [], ⟨0, 40⟩, ⟨⟨0, -1⟩, 0⟩, 0, 100, .ET_ASTEROID, [], ⟨0, 0⟩⟩ ⟨0, 5⟩).2 ⟨0, 5⟩ =
      -0.5 * normal_speed (⟨Real.sqrt, Real.cos, Real.sin, Real.pi / 180⟩ : FloatMath ℝ)
          ⟨32, [], ⟨0, 0⟩, ⟨⟨0, 1⟩, 0⟩, 0, 100, .ET_ASTEROID, [], ⟨0, 0⟩⟩
          ⟨16, [], ⟨0, 40⟩, ⟨⟨0, -1⟩, 0⟩, 0, 100, .ET_ASTEROID, [], ⟨0, 0⟩⟩ ⟨0, 5⟩ :=
  (relative_velocity_reverses _ real_exact
    ⟨32, [], ⟨0, 0⟩, ⟨⟨0, 1⟩, 0⟩, 0, 100, .ET_ASTEROID, [], ⟨0, 0⟩⟩
    ⟨16, [], ⟨0, 40⟩, ⟨⟨0, -1⟩, 0⟩, 0, 100, .ET_ASTEROID, [], ⟨0, 0⟩⟩ ⟨0, 5⟩
    (by norm_num) (by norm_num) (by simp)).1

/-- C10. `handle_asteroid_collision` sets asteroid0's linear velocity to
`vA + (j / rA) * n` and asteroid1's to `vB - (j / rB) * n`, with
`n = normalize(MTV)` and `j = -(1 + 0.5) * ((vA - vB) . n) / (1/rA + 1/rB)`. -/
theorem impulse_linear_velocities (M : FloatMath K) (asteroid0 asteroid1 : Asteroid K)
    (mtv : Vector2 K) :
    (handle_asteroid_collision M asteroid0 asteroid1 mtv).1.entity.velocity.linear =
      Vector2Add asteroid0.entity.velocity.linear
        (Vector2Scale (Vector2Normalize M mtv)
          ((-(1 + 0.5) * normal_speed M asteroid0 asteroid1 mtv /
              (1 / asteroid0.radius + 1 / asteroid1.radius)) / asteroid0.radius)) ∧
    (handle_asteroid_collision M asteroid0 asteroid1 mtv).2.entity.velocity.linear =
      Vector2Subtract asteroid1.entity.velocity.linear
        (Vector2Scale (Vector2Normalize M mtv)
          ((-(1 + 0.5) * normal_speed M asteroid0 asteroid1 mtv /
              (1 / asteroid0.radius + 1 / asteroid1.radius)) / asteroid1.radius)) := by
  simp only [handle_asteroid_collision, normal_speed, Vector2Add, Vector2Scale, Vector2Subtract]
  constructor
  · congr 1 <;> ring
  · congr 1 <;> ring

/-- C11 fails on the two overlapping squares `(0,0)-(10,10)` and
`(5,5)-(15,15)`: `sat_collision` returns true with the MTV `(0, 5)`, the
overlap of the projections on the MTV axis `(0, 1)` is 5 before
`handle_asteroid_collision` and 10 after it has moved asteroid0 by `+m/2` and
asteroid1 by `-m/2`. -/
theorem handle_asteroid_collision_grows_overlap :
    entity_collision (⟨Real.sqrt, Real.cos, Real.sin, Real.pi / 180⟩ : FloatMath ℝ)
      (restingAsteroid squareA).entity (restingAsteroid squareB).entity (some ⟨0, 0⟩) =
        (true, some ⟨0, 5⟩) ∧
    entity_axis_overlap (⟨Real.sqrt, Real.cos, Real.sin, Real.pi / 180⟩ : FloatMath ℝ)
      (restingAsteroid squareA).entity (restingAsteroid squareB).entity ⟨0, 1⟩ = some 5 ∧
    entity_axis_overlap (⟨Real.sqrt, Real.cos, Real.sin, Real.pi / 180⟩ : FloatMath ℝ)
      (handle_asteroid_collision (⟨Real.sqrt, Real.cos, Real.sin, Real.pi / 180⟩ : FloatMath ℝ)
        (restingAsteroid squareA) (restingAsteroid squareB) ⟨0, 5⟩).1.entity
      (handle_asteroid_collision (⟨Real.sqrt, Real.cos, Real.sin, Real.pi / 180⟩ : FloatMath ℝ)
        (restingAsteroid squareA) (restingAsteroid squareB) ⟨0, 5⟩).2.entity ⟨0, 1⟩ = some 10 ∧
    (handle_asteroid_collision (⟨Real.sqrt, Real.cos, Real.sin, Real.pi / 180⟩ : FloatMath ℝ)
        (restingAsteroid squareA) (restingAsteroid squareB) ⟨0, 5⟩).1.entity.position =
      ⟨0, 5 / 2⟩ ∧
    (handle_asteroid_collision (⟨Real.sqrt, Real.cos, Real.sin, Real.pi / 180⟩ : FloatMath ℝ)
        (restingAsteroid squareA) (restingAsteroid squareB) ⟨0, 5⟩).2.entity.position =
      ⟨0, -(5 / 2)⟩ :=
  ⟨squares_entity_collision real_exact _, squares_entity_overlap real_exact,
    squares_response real_exact,
    by norm_num [handle_asteroid_collision, restingAsteroid, Vector2Add, Vector2Scale],
    by norm_num [handle_asteroid_collision, restingAsteroid, Vector2Subtract, Vector2Scale]⟩

/-- C12. `handle_asteroid_collision` adds `cross(P - posA, J) / rA^2` to
asteroid0's angular velocity and subtracts `cross(P - posB, J) / rB^2` from
asteroid1's, where `P = posA + MTV/2`, `J` is the impulse vector, the
positions are those before the call and
`cross(a, b) = a.x * b.y - a.y * b.x`. -/
theorem torque_angular_velocities (M : FloatMath K) (asteroid0 asteroid1 : Asteroid K)
    (mtv : Vector2 K) :
    (handle_asteroid_collision M asteroid0 asteroid1 mtv).1.entity.velocity.angular =
      asteroid0.entity.velocity.angular +
        Vector2CrossProduct
          (Vector2Subtract (Vector2Add asteroid0.entity.position (Vector2Scale mtv (1 / 2)))
            asteroid0.entity.position)
          (collision_impulse M asteroid0 asteroid1 mtv) / asteroid0.radius ^ 2 ∧
    (handle_asteroid_collision M asteroid0 asteroid1 mtv).2.entity.velocity.angular =
      asteroid1.entity.velocity.angular -
        Vector2CrossProduct
          (Vector2Subtract (Vector2Add asteroid0.entity.position (Vector2Scale mtv (1 / 2)))
            asteroid1.entity.position)
          (collision_impulse M asteroid0 asteroid1 mtv) / asteroid1.radius ^ 2 ∧
    ∀ a b : Vector2 K, Vector2CrossProduct a b = a.x * b.y - a.y * b.x := by
  have h : (0.5 : K) = 1 / 2 := by norm_num
  refine ⟨?_, ?_, fun _ _ => rfl⟩
  · simp only [handle_asteroid_collision, collision_impulse, h, pow_two]
  · simp only [handle_asteroid_collision, collision_impulse, h, pow_two]

/-- C13. On a well-formed collection of asteroid pointers, `asteroid_split`
appends exactly 4 new asteroids of radius 16 when the asteroid's radius is
32, exactly 2 of radius 8 when it is 16, and nothing for any other radius;
every appended asteroid is at the parent's position, the pointers appended
are the addresses of the new asteroids in creation order, and the entries
already in the collection and the asteroids already on the heap are
unchanged. -/
theorem asteroid_split_spec (M : FloatMath K) (junk : Nat → Nat) (asteroid : Asteroid K)
    (st : SplitState K) (hv : VecWF st.vec) (hes : st.vec.elem_size = 1) :
    ∃ children : List (Asteroid K),
      (asteroid_split M junk asteroid st).heap = st.heap ++ children ∧
      vec_elems (asteroid_split M junk asteroid st).vec =
        vec_elems st.vec ++ (List.range children.length).map (fun k => [st.heap.length + k]) ∧
      (∀ c ∈ children, c.entity.position = asteroid.entity.position) ∧
      (asteroid.radius = 32 → children.length = 4 ∧ ∀ c ∈ children, c.radius = 16) ∧
      (asteroid.radius = 16 → children.length = 2 ∧ ∀ c ∈ children, c.radius = 8) ∧
      (asteroid.radius ≠ 32 → asteroid.radius ≠ 16 → children = []) := by
  have hv0 : VecWF ({ st.vec with free_entry := some FreeEntry.vec_free_asteroid } : Vec Nat) := hv
  have hel0 : vec_elems ({ st.vec with free_entry := some FreeEntry.vec_free_asteroid } : Vec Nat) =
      vec_elems st.vec := rfl
  by_cases hbig : asteroid.radius = 32
  · have hne : ¬ asteroid.radius = 16 := by rw [hbig]; norm_num
    have hr : List.range 4 = [0, 1, 2, 3] := by decide
    obtain ⟨c1, hh1, hr1, hp1, he1, hw1, hs1⟩ := asteroid_split_big_step_spec M junk asteroid
      { st with vec := { st.vec with free_entry := some FreeEntry.vec_free_asteroid } } 0 hv0 hes
    obtain ⟨c2, hh2, hr2, hp2, he2, hw2, hs2⟩ := asteroid_split_big_step_spec M junk asteroid
      _ 1 hw1 hs1
    obtain ⟨c3, hh3, hr3, hp3, he3, hw3, hs3⟩ := asteroid_split_big_step_spec M junk asteroid
      _ 2 hw2 hs2
    obtain ⟨c4, hh4, hr4, hp4, he4, -, -⟩ := asteroid_split_big_step_spec M junk asteroid
      _ 3 hw3 hs3
    refine ⟨[c1, c2, c3, c4], ?_, ?_, ?_, ?_, ?_, ?_⟩
    · simp only [asteroid_split, ASTEROID_RADIUS_BIG, hbig, if_true, hr, List.foldl_cons,
        List.foldl_nil]
      rw [hh4, hh3, hh2, hh1]
      simp
    · simp only [asteroid_split, ASTEROID_RADIUS_BIG, hbig, if_true, hr, List.foldl_cons,
        List.foldl_nil]
      rw [he4, hh3, he3, hh2, he2, hh1, he1, hel0]
      simp [List.range_succ]
    · intro c hc
      simp only [List.mem_cons, List.mem_singleton, List.not_mem_nil, or_false] at hc
      rcases hc with rfl | rfl | rfl | rfl <;> assumption
    · intro _
      refine ⟨rfl, ?_⟩
      intro c hc
      simp only [List.mem_cons, List.mem_singleton, List.not_mem_nil, or_false] at hc
      rcases hc with rfl | rfl | rfl | rfl <;> assumption
    · intro h; exact absurd h hne
    · intro h; exact absurd hbig h
  · by_cases hmed : asteroid.radius = 16
    · have hsrc : st.vec.elem_size ≤ [st.heap.length].length := by rw [hes]; rfl
      obtain ⟨hwf, -, hes2, -, -, -⟩ := vec_push_back_wf junk _ [st.heap.length] hv0 hsrc
      have helems := vec_push_back_elems junk _ [st.heap.length] hv0 hsrc
      have hsrc2 : (vec_push_back junk
          ({ st.vec with free_entry := some FreeEntry.vec_free_asteroid } : Vec Nat)
          (some [st.heap.length])).elem_size ≤ [st.heap.length + 1].length := by
        rw [hes2]; exact hsrc
      have helems2 := vec_push_back_elems junk _ [st.heap.length + 1] hwf hsrc2
      rw [hes2] at helems2
      change _ = _ ++ [List.take st.vec.elem_size _] at helems2
      change _ = _ ++ [List.take st.vec.elem_size _] at helems
      rw [hes] at helems helems2
      refine ⟨[?c1, ?c2], ?h1, ?h2, ?h3, ?h4, ?h5, ?h6⟩
      case h1 =>
        simp only [asteroid_split, ASTEROID_RADIUS_BIG, ASTEROID_RADIUS_MEDIUM, if_neg hbig,
          if_pos hmed]
        exact rfl
      case h2 =>
        simp only [asteroid_split, ASTEROID_RADIUS_BIG, ASTEROID_RADIUS_MEDIUM, if_neg hbig,
          if_pos hmed]
        rw [helems2, helems, hel0]
        simp [List.range_succ]
      case h3 =>
        intro c hc
        simp only [List.mem_cons, List.mem_singleton, List.not_mem_nil, or_false] at hc
        rcases hc with rfl | rfl <;> rfl
      case h4 => intro h; exact absurd h hbig
      case h5 =>
        intro _
        refine ⟨rfl, ?_⟩
        intro c hc
        simp only [List.mem_cons, List.mem_singleton, List.not_mem_nil, or_false] at hc
        rcases hc with rfl | rfl
        · exact asteroid_new_radius ..
        · exact asteroid_new_radius ..
      case h6 => intro _ h; exact absurd hmed h
    · refine ⟨[], ?_, ?_, ?_, ?_, ?_, ?_⟩
      · simp [asteroid_split, ASTEROID_RADIUS_BIG, ASTEROID_RADIUS_MEDIUM, hbig, hmed]
      · simp [asteroid_split, ASTEROID_RADIUS_BIG, ASTEROID_RADIUS_MEDIUM, hbig, hmed, hel0]
      · intro c hc; exact absurd hc (List.not_mem_nil c)
      · intro h; exact absurd h hbig
      · intro h; exact absurd h hmed
      · intro _ _; rfl

/-- C13 for a big asteroid and a collection holding one pointer, with room
for one more: four asteroids are appended. -/
theorem asteroid_split_spec_witness :
    VecWF (⟨[0, 0], 1, 2, 1, none, default_growth_rate, none, 0⟩ : Vec Nat) ∧
    ∃ children : List (Asteroid ℝ),
      (asteroid_split (⟨Real.sqrt, Real.cos, Real.sin, Real.pi / 180⟩ : FloatMath ℝ)
        (fun _ => 0) (restingAsteroid squareA)
        ⟨⟨fun _ => 0, 0⟩, [restingAsteroid squareA],
          ⟨[0, 0], 1, 2, 1, none, default_growth_rate, none, 0⟩⟩).heap =
        [restingAsteroid squareA] ++ children ∧
      vec_elems (asteroid_split (⟨Real.sqrt, Real.cos, Real.sin, Real.pi / 180⟩ : FloatMath ℝ)
        (fun _ => 0) (restingAsteroid squareA)
        ⟨⟨fun _ => 0, 0⟩, [restingAsteroid squareA],
          ⟨[0, 0], 1, 2, 1, none, default_growth_rate, none, 0⟩⟩).vec =
        [[0], [1], [2], [3], [4]] ∧
      children.length = 4 ∧ ∀ c ∈ children, c.radius = 16 := by
  have hwf : VecWF (⟨[0, 0], 1, 2, 1, none, default_growth_rate, none, 0⟩ : Vec Nat) :=
    ⟨rfl, by decide, by decide, rfl⟩
  refine ⟨hwf, ?_⟩
  obtain ⟨children, h1, h2, -, h4, -, -⟩ :=
    asteroid_split_spec (⟨Real.sqrt, Real.cos, Real.sin, Real.pi / 180⟩ : FloatMath ℝ)
      (fun _ => 0) (restingAsteroid squareA)
      ⟨⟨fun _ => 0, 0⟩, [restingAsteroid squareA],
        ⟨[0, 0], 1, 2, 1, none, default_growth_rate, none, 0⟩⟩ hwf rfl
  obtain ⟨hlen, hrad⟩ := h4 rfl
  refine ⟨children, h1, ?_, hlen, hrad⟩
  rw [h2, hlen]
  decide

/-- C17 (evaluated at the failing input). For the vector of two 2-byte
elements `[1,2]`, `[3,4]` with capacity 2, `vec_copy` returns a vector of
length 0 whose allocation is `[1,2,0,0]`: `len` is set to 0 and never
updated, and `memcpy` copies `capacity` bytes instead of
`capacity * elem_size`.  This holds whatever the fresh memory contains. -/
theorem vec_copy_loses_contents (junk : Nat → Nat) (raw : Vec Nat) :
    vec_elems (⟨[1, 2, 3, 4], 2, 2, 2, none, default_growth_rate, none, 0⟩ : Vec Nat) =
      [[1, 2], [3, 4]] ∧
    ∃ ret : Vec Nat,
      vec_copy junk raw ⟨[1, 2, 3, 4], 2, 2, 2, none, default_growth_rate, none, 0⟩ = some ret ∧
      ret.len = 0 ∧ vec_elems ret = [] ∧ ret.data = [1, 2, 0, 0] ∧ ret.elem_size = 2 := by
  refine ⟨by decide, _, rfl, rfl, rfl, ?_, rfl⟩
  simp [vec_resize, mem_realloc, mem_write, mem_read]

/-- C18 (evaluated at the failing input). Appending the one-element vector
`[7]` of capacity 2 to an empty vector of the same element size appends the
element but returns 2, not 0: the loop runs to `source->capacity` and
`vec_at_s` returns `NULL` at index `len`. -/
theorem vec_append_returns_partial (junk : Nat → Nat) :
    (vec_append junk (⟨[0, 0], 0, 2, 1, none, default_growth_rate, none, 0⟩ : Vec Nat)
      ⟨[7, 0], 1, 2, 1, none, default_growth_rate, none, 0⟩).1 = 2 ∧
    vec_elems (vec_append junk (⟨[0, 0], 0, 2, 1, none, default_growth_rate, none, 0⟩ : Vec Nat)
      ⟨[7, 0], 1, 2, 1, none, default_growth_rate, none, 0⟩).2 = [[7]] := by
  constructor <;> rfl

/-- C19 (evaluated at the failing input). For the vector `[1, 2]`,
`vec_pop_front` leaves the contents `[2]` and returns the pointer to slot 0,
which after the call holds 2, not the former first element 1: the pointer is
taken before `vec_remove` shifts the elements down. -/
theorem vec_pop_front_returns_shifted :
    vec_elems (⟨[1, 2], 2, 2, 1, none, default_growth_rate, none, 0⟩ : Vec Nat) = [[1], [2]] ∧
    (vec_pop_front (⟨[1, 2], 2, 2, 1, none, default_growth_rate, none, 0⟩ : Vec Nat)).1 =
      some 0 ∧
    vec_elems (vec_pop_front (⟨[1, 2], 2, 2, 1, none, default_growth_rate, none, 0⟩ : Vec Nat)).2 =
      [[2]] ∧
    mem_read (vec_pop_front (⟨[1, 2], 2, 2, 1, none, default_growth_rate, none, 0⟩ : Vec Nat)).2.data
      0 1 = [2] := by
  decide

/-- C20. For a vector whose allocation holds its `len` elements and an index
`i < len`, `vec_remove_fast` leaves length `len - 1`, slot `i` holds the
former last element (when `i < len - 1`), every other slot below `len - 1`
is unchanged, and the contents are a permutation of the old contents with
entry `i` erased; for `i >= len` the vector is unchanged. -/
theorem vec_remove_fast_spec {β : Type} (v : Vec β) (i : Nat) (hv : VecHolds v) :
    (i < v.len →
      (vec_remove_fast v i).len = v.len - 1 ∧
      (i < v.len - 1 → vec_elem (vec_remove_fast v i) i = vec_elem v (v.len - 1)) ∧
      (∀ j : Nat, j < v.len - 1 → j ≠ i → vec_elem (vec_remove_fast v i) j = vec_elem v j) ∧
      List.Perm (vec_elems (vec_remove_fast v i)) ((vec_elems v).eraseIdx i)) ∧
    (v.len ≤ i → vec_remove_fast v i = v) := by
  refine ⟨fun h => ⟨vec_remove_fast_len v i h, ?_, ?_, ?_⟩, vec_remove_fast_of_ge v i⟩
  · intro _
    rw [vec_remove_fast_elem v i i hv h, if_pos rfl]
  · intro j _ hji
    rw [vec_remove_fast_elem v i j hv h, if_neg hji]
  · rw [vec_remove_fast_elems v i hv h]
    exact set_last_take_perm [] (vec_elems v) i (by rw [vec_elems_length]; exact h)

/-- C20 on the 2-byte-element vector `[1,2], [3,4], [5,6]`, removing index 0. -/
theorem vec_remove_fast_spec_witness :
    (vec_remove_fast (⟨[1, 2, 3, 4, 5, 6, 0, 0], 3, 4, 2, none, default_growth_rate, none, 0⟩ :
        Vec Nat) 0).len = 3 - 1 ∧
    List.Perm
      (vec_elems (vec_remove_fast
        (⟨[1, 2, 3, 4, 5, 6, 0, 0], 3, 4, 2, none, default_growth_rate, none, 0⟩ : Vec Nat) 0))
      ((vec_elems (⟨[1, 2, 3, 4, 5, 6, 0, 0], 3, 4, 2, none, default_growth_rate, none, 0⟩ :
        Vec Nat)).eraseIdx 0) :=
  have h := (vec_remove_fast_spec
    (⟨[1, 2, 3, 4, 5, 6, 0, 0], 3, 4, 2, none, default_growth_rate, none, 0⟩ : Vec Nat) 0
    (by decide)).1 (by decide)
  ⟨h.1, h.2.2.2⟩

/-- C21. For a vector whose allocation holds its `len` elements and an index
`i < len`, `vec_remove` leaves length `len - 1`, the slots below `i` keep
their elements, every slot from `i` on holds the element that was one slot
up, and the contents are the old contents with entry `i` erased; for
`i >= len` the vector is unchanged. -/
theorem vec_remove_spec {β : Type} (v : Vec β) (i : Nat) (hv : VecHolds v) :
    (i < v.len →
      (vec_remove v i).len = v.len - 1 ∧
      (∀ j : Nat, j < i → vec_elem (vec_remove v i) j = vec_elem v j) ∧
      (∀ j : Nat, i ≤ j → j < v.len - 1 → vec_elem (vec_remove v i) j = vec_elem v (j + 1)) ∧
      vec_elems (vec_remove v i) = (vec_elems v).eraseIdx i) ∧
    (v.len ≤ i → vec_remove v i = v) := by
  refine ⟨fun h => ⟨vec_remove_len v i h, ?_, ?_, vec_remove_elems v i hv h⟩,
    vec_remove_of_ge v i⟩
  · intro j hj
    rw [vec_remove_elem v i j hv h (by omega), if_pos hj]
  · intro j hij hj
    rw [vec_remove_elem v i j hv h hj, if_neg (by omega)]

/-- C21 on the 2-byte-element vector `[1,2], [3,4], [5,6]`, removing index 0. -/
theorem vec_remove_spec_witness :
    VecHolds (⟨[1, 2, 3, 4, 5, 6, 0, 0], 3, 4, 2, none, default_growth_rate, none, 0⟩ :
      Vec Nat) ∧
    (vec_remove (⟨[1, 2, 3, 4, 5, 6, 0, 0], 3, 4, 2, none, default_growth_rate, none, 0⟩ :
        Vec Nat) 0).len = 3 - 1 ∧
    vec_elems (vec_remove
        (⟨[1, 2, 3, 4, 5, 6, 0, 0], 3, 4, 2, none, default_growth_rate, none, 0⟩ : Vec Nat) 0) =
      (vec_elems (⟨[1, 2, 3, 4, 5, 6, 0, 0], 3, 4, 2, none, default_growth_rate, none, 0⟩ :
        Vec Nat)).eraseIdx 0 :=
  have h := (vec_remove_spec
    (⟨[1, 2, 3, 4, 5, 6, 0, 0], 3, 4, 2, none, default_growth_rate, none, 0⟩ : Vec Nat) 0
    (by decide)).1 (by decide)
  ⟨by decide, h.1, h.2.2.2⟩

/-- C22 fails.  A vector made by `vec_new(1, 1, ...)` and clamped while empty
has capacity 0 (its allocation is one element); `vec_push_back` then asks
the growth function for `0 * 2 = 0`, does not grow, and stores the element:
length 1, capacity 0.  A vector made by `vec_new(2, 1, ...)` holding two
elements has length 2 and capacity 1 after `vec_resize(v, 1)`. -/
theorem len_exceeds_capacity (junk : Nat → Nat) :
    (∃ v : Vec Nat, vec_new junk 1 1 none none none = some v ∧
      (vec_run junk v [VecOp.clamp]).len = 0 ∧
      (vec_run junk v [VecOp.clamp]).capacity = 0 ∧
      (vec_run junk v [VecOp.clamp, VecOp.push_back (some [7])]).len = 1 ∧
      (vec_run junk v [VecOp.clamp, VecOp.push_back (some [7])]).capacity = 0 ∧
      (vec_run junk v [VecOp.clamp, VecOp.push_back (some [7])]).data = [7]) ∧
    (∃ v : Vec Nat, vec_new junk 2 1 none none none = some v ∧
      vec_elems (vec_run junk v [VecOp.push_back (some [7]), VecOp.push_back (some [8])]) =
        [[7], [8]] ∧
      (vec_run junk v [VecOp.push_back (some [7]), VecOp.push_back (some [8])]).capacity = 2 ∧
      (vec_run junk v [VecOp.push_back (some [7]), VecOp.push_back (some [8]),
        VecOp.resize 1]).len = 2 ∧
      (vec_run junk v [VecOp.push_back (some [7]), VecOp.push_back (some [8]),
        VecOp.resize 1]).capacity = 1) :=
  ⟨⟨_, rfl, rfl, rfl, rfl, rfl, rfl⟩, ⟨_, rfl, rfl, rfl, rfl, rfl⟩⟩

/-- C23. For a vector with `capacity >= 1`, `len <= capacity`, an allocation
of `capacity` slots and the default growth function, and a pointer `data`
with `elem_size` readable units, `vec_push_back` increases the length by
one, stores a copy of the `elem_size` units as the new last element and
leaves every earlier element unchanged, so the contents are the old contents
followed by the new element; with a null pointer the vector is unchanged. -/
theorem vec_push_back_spec {β : Type} [Zero β] (junk : Nat → β) (v : Vec β) (data : List β)
    (hv : VecWF v) (hdata : v.elem_size ≤ data.length) :
    (vec_push_back junk v (some data)).len = v.len + 1 ∧
    vec_elem (vec_push_back junk v (some data)) v.len = data.take v.elem_size ∧
    (∀ j : Nat, j < v.len → vec_elem (vec_push_back junk v (some data)) j = vec_elem v j) ∧
    vec_elems (vec_push_back junk v (some data)) = vec_elems v ++ [data.take v.elem_size] ∧
    (vec_push_back junk v (some data)).len ≤ (vec_push_back junk v (some data)).capacity ∧
    vec_push_back junk v none = v := by
  obtain ⟨hwf, hlen, -, -, hold, hnew⟩ := vec_push_back_wf junk v data hv hdata
  exact ⟨hlen, hnew, hold, vec_push_back_elems junk v data hv hdata, hwf.2.1, rfl⟩

/-- C23 on a full vector `[1], [2]` of capacity 2: the allocation grows and
the contents become `[1], [2], [3]`. -/
theorem vec_push_back_spec_witness :
    VecWF (⟨[1, 2], 2, 2, 1, none, default_growth_rate, none, 0⟩ : Vec Nat) ∧
    vec_elems (vec_push_back (fun _ => 9)
      (⟨[1, 2], 2, 2, 1, none, default_growth_rate, none, 0⟩ : Vec Nat) (some [3])) =
      [[1], [2], [3]] ∧
    (vec_push_back (fun _ => 9)
      (⟨[1, 2], 2, 2, 1, none, default_growth_rate, none, 0⟩ : Vec Nat) (some [3])).capacity =
      4 := by
  have hwf : VecWF (⟨[1, 2], 2, 2, 1, none, default_growth_rate, none, 0⟩ : Vec Nat) :=
    ⟨rfl, by decide, by decide, rfl⟩
  have h := vec_push_back_spec (fun _ => 9)
    (⟨[1, 2], 2, 2, 1, none, default_growth_rate, none, 0⟩ : Vec Nat) [3] hwf (by decide)
  exact ⟨hwf, h.2.2.2.1, rfl⟩

/-- C24. While `is_immune` is set `ship_on_hit` returns the ship unchanged;
while it is clear the health drops by exactly 10, `is_immune` is set,
`last_hit_time` becomes the current time and nothing else changes. -/
theorem ship_on_hit_spec {T : Type} (now : T) (ship : Ship T) :
    (ship.state.is_immune = true → ship_on_hit now ship = ship) ∧
    (ship.state.is_immune = false →
      (ship_on_hit now ship).entity.health = ship.entity.health - 10 ∧
      (ship_on_hit now ship).state.is_immune = true ∧
      (ship_on_hit now ship).state.last_hit_time = now ∧
      (ship_on_hit now ship).body = ship.body ∧
      (ship_on_hit now ship).trail = ship.trail ∧
      (ship_on_hit now ship).entity.position = ship.entity.position ∧
      (ship_on_hit now ship).entity.velocity = ship.entity.velocity ∧
      (ship_on_hit now ship).entity.rotation = ship.entity.rotation ∧
      (ship_on_hit now ship).entity.type = ship.entity.type ∧
      (ship_on_hit now ship).entity.hitshape = ship.entity.hitshape ∧
      (ship_on_hit now ship).state.immune_duration = ship.state.immune_duration ∧
      (ship_on_hit now ship).state.draw_trail = ship.state.draw_trail ∧
      (ship_on_hit now ship).state.last_time_shot = ship.state.last_time_shot ∧
      (ship_on_hit now ship).state.shot_cooldown = ship.state.shot_cooldown) := by
  constructor
  · intro h
    unfold ship_on_hit
    rw [if_pos h]
  · intro h
    have hn : ¬ (ship.state.is_immune = true) := by rw [h]; decide
    unfold ship_on_hit
    rw [if_neg hn]
    exact ⟨rfl, rfl, rfl, rfl, rfl, rfl, rfl, rfl, rfl, rfl, rfl, rfl, rfl, rfl⟩

/-- C24 on the ship `ship_new` makes, hit at time 7, and on the same ship hit
again at time 8. -/
theorem ship_on_hit_spec_witness :
    (ship_on_hit (7 : ℝ) (ship_new ⟨500, 225⟩ ⟨0, 0⟩)).entity.health = 100 - 10 ∧
    ship_on_hit (8 : ℝ) (ship_on_hit (7 : ℝ) (ship_new ⟨500, 225⟩ ⟨0, 0⟩)) =
      ship_on_hit (7 : ℝ) (ship_new ⟨500, 225⟩ ⟨0, 0⟩) :=
  ⟨((ship_on_hit_spec (7 : ℝ) (ship_new ⟨500, 225⟩ ⟨0, 0⟩)).2 rfl).1,
    (ship_on_hit_spec (8 : ℝ) (ship_on_hit (7 : ℝ) (ship_new ⟨500, 225⟩ ⟨0, 0⟩))).1 rfl⟩

/-- C25. For shapes with at least one point each, `sat_collision` returns
false exactly when there is an edge normal of A or of B (`Vector2EdgeNormal`
of consecutive points, wrapping) on which the intervals written by
`project_onto_vector` satisfy `maxA < minB` or `maxB < minA`; and on every
axis `maxA < minB` says that every projected point of the transformed A lies
strictly below every projected point of the transformed B (likewise for
`maxB < minA`). -/
theorem sat_collision_false_iff (M : FloatMath K)
    (shapeA : List (Vector2 K)) (positionA : Vector2 K) (rotationA : K)
    (shapeB : List (Vector2 K)) (positionB : Vector2 K) (rotationB : K)
    (mtv : Option (Vector2 K)) (hA : shapeA ≠ []) (hB : shapeB ≠ []) :
    ((sat_collision M shapeA positionA rotationA shapeB positionB rotationB mtv).1 = false ↔
      ∃ n : Vector2 K,
        ((∃ i : Nat, i < shapeA.length ∧ n = edge_normal M shapeA i) ∨
          (∃ i : Nat, i < shapeB.length ∧ n = edge_normal M shapeB i)) ∧
        ((project_onto_vector M shapeA positionA rotationA n).2 <
            (project_onto_vector M shapeB positionB rotationB n).1 ∨
          (project_onto_vector M shapeB positionB rotationB n).2 <
            (project_onto_vector M shapeA positionA rotationA n).1)) ∧
    ∀ n : Vector2 K,
      ((project_onto_vector M shapeA positionA rotationA n).2 <
          (project_onto_vector M shapeB positionB rotationB n).1 ↔
        ∀ p ∈ shapeA, ∀ q ∈ shapeB,
          Vector2DotProduct (transform M positionA rotationA p) n <
            Vector2DotProduct (transform M positionB rotationB q) n) ∧
      ((project_onto_vector M shapeB positionB rotationB n).2 <
          (project_onto_vector M shapeA positionA rotationA n).1 ↔
        ∀ q ∈ shapeB, ∀ p ∈ shapeA,
          Vector2DotProduct (transform M positionB rotationB q) n <
            Vector2DotProduct (transform M positionA rotationA p) n) := by
  refine ⟨?_, fun n => ⟨project_lt_iff M shapeA positionA rotationA shapeB positionB rotationB
    n hA hB, project_lt_iff M shapeB positionB rotationB shapeA positionA rotationA n hB hA⟩⟩
  rw [sat_collision_false_iff_axis]
  constructor
  · rintro ⟨n, hn, h⟩
    refine ⟨n, ?_, h⟩
    simp only [sat_axes, List.mem_append, List.mem_map, List.mem_range] at hn
    rcases hn with ⟨i, hi, rfl⟩ | ⟨i, hi, rfl⟩
    · exact Or.inl ⟨i, hi, rfl⟩
    · exact Or.inr ⟨i, hi, rfl⟩
  · rintro ⟨n, hn, h⟩
    refine ⟨n, ?_, h⟩
    simp only [sat_axes, List.mem_append, List.mem_map, List.mem_range]
    rcases hn with ⟨i, hi, rfl⟩ | ⟨i, hi, rfl⟩
    · exact Or.inl ⟨i, hi, rfl⟩
    · exact Or.inr ⟨i, hi, rfl⟩

/-- C25 on two squares of half-side 1 centred at `(0, 0)` and `(5, 0)`:
`sat_collision` returns false and a separating edge normal exists. -/
theorem sat_collision_false_iff_witness :
    (sat_collision (⟨Real.sqrt, Real.cos, Real.sin, Real.pi / 180⟩ : FloatMath ℝ)
      (centredSquare 1) ⟨0, 0⟩ 0 (centredSquare 1) ⟨5, 0⟩ 0 none).1 = false ∧
    ∃ n : Vector2 ℝ,
      ((∃ i : Nat, i < (centredSquare (1 : ℝ)).length ∧
          n = edge_normal (⟨Real.sqrt, Real.cos, Real.sin, Real.pi / 180⟩ : FloatMath ℝ)
            (centredSquare 1) i) ∨
        (∃ i : Nat, i < (centredSquare (1 : ℝ)).length ∧
          n = edge_normal (⟨Real.sqrt, Real.cos, Real.sin, Real.pi / 180⟩ : FloatMath ℝ)
            (centredSquare 1) i)) ∧
      ((project_onto_vector (⟨Real.sqrt, Real.cos, Real.sin, Real.pi / 180⟩ : FloatMath ℝ)
            (centredSquare 1) ⟨0, 0⟩ 0 n).2 <
          (project_onto_vector (⟨Real.sqrt, Real.cos, Real.sin, Real.pi / 180⟩ : FloatMath ℝ)
            (centredSquare 1) ⟨5, 0⟩ 0 n).1 ∨
        (project_onto_vector (⟨Real.sqrt, Real.cos, Real.sin, Real.pi / 180⟩ : FloatMath ℝ)
            (centredSquare 1) ⟨5, 0⟩ 0 n).2 <
          (project_onto_vector (⟨Real.sqrt, Real.cos, Real.sin, Real.pi / 180⟩ : FloatMath ℝ)
            (centredSquare 1) ⟨0, 0⟩ 0 n).1) := by
  have hf : (sat_collision (⟨Real.sqrt, Real.cos, Real.sin, Real.pi / 180⟩ : FloatMath ℝ)
      (centredSquare 1) ⟨0, 0⟩ 0 (centredSquare 1) ⟨5, 0⟩ 0 none).1 = false := by
    rw [box_collision real_exact 1 1 one_pos one_pos]
    norm_num
  exact ⟨hf, (sat_collision_false_iff _ (centredSquare 1) ⟨0, 0⟩ 0 (centredSquare 1) ⟨5, 0⟩ 0
    none (by simp [centredSquare]) (by simp [centredSquare])).1.mp hf⟩

/-- C26 fails when one interval lies inside the other near its upper end:
for `[0, 10]` and `[8, 9]` the intervals overlap, `is_overlap` writes
`maxB - minA = 9`, and `min(maxA - minB, maxB - minA)` is 2. -/
theorem is_overlap_not_min :
    (0 : ℝ) ≤ 10 ∧ (8 : ℝ) ≤ 9 ∧ ¬ ((10 : ℝ) < 8 ∨ (9 : ℝ) < 0) ∧
    is_overlap (0 : ℝ) 10 8 9 = some 9 ∧
    min ((10 : ℝ) - 8) (9 - 0) = 2 := by
  refine ⟨by norm_num, by norm_num, by norm_num, ?_, ?_⟩
  · norm_num [is_overlap]
  · norm_num

/-- C27. For a non-empty point list, `project_onto_vector` writes `min` and
`max` with `min <= dot(rotate(p, rotation) + position, axis) <= max` for
every point `p` of the list, and each of `min` and `max` is that value for
some point of the list. -/
theorem project_onto_vector_extrema (M : FloatMath K) (points : List (Vector2 K))
    (position : Vector2 K) (rotation : K) (axis : Vector2 K) (hne : points ≠ []) :
    (∀ p ∈ points,
      (project_onto_vector M points position rotation axis).1 ≤
          Vector2DotProduct
            (Vector2Add (Vector2Rotate M p (M.DEG2RAD * rotation)) position) axis ∧
        Vector2DotProduct
            (Vector2Add (Vector2Rotate M p (M.DEG2RAD * rotation)) position) axis ≤
          (project_onto_vector M points position rotation axis).2) ∧
    (∃ p ∈ points,
      Vector2DotProduct (Vector2Add (Vector2Rotate M p (M.DEG2RAD * rotation)) position) axis =
        (project_onto_vector M points position rotation axis).1) ∧
    (∃ p ∈ points,
      Vector2DotProduct (Vector2Add (Vector2Rotate M p (M.DEG2RAD * rotation)) position) axis =
        (project_onto_vector M points position rotation axis).2) :=
  ⟨fun p hp => project_bounds M points position rotation axis p hp,
    (project_attained M points position rotation axis hne).1,
    (project_attained M points position rotation axis hne).2⟩

/-- C27 on the two-squares scenario: the square `(0,0)-(10,10)` projected on
the axis `(0, 1)` gives the interval from 0 to 10. -/
theorem project_onto_vector_extrema_witness :
    (squareA : List (Vector2 ℝ)) ≠ [] ∧
    (∃ p ∈ (squareA : List (Vector2 ℝ)),
      Vector2DotProduct
        (Vector2Add (Vector2Rotate (⟨Real.sqrt, Real.cos, Real.sin, Real.pi / 180⟩ : FloatMath ℝ)
          p (Real.pi / 180 * 0)) ⟨0, 0⟩) ⟨0, 1⟩ =
        (project_onto_vector (⟨Real.sqrt, Real.cos, Real.sin, Real.pi / 180⟩ : FloatMath ℝ)
          squareA ⟨0, 0⟩ 0 ⟨0, 1⟩).1) ∧
    (∃ p ∈ (squareA : List (Vector2 ℝ)),
      Vector2DotProduct
        (Vector2Add (Vector2Rotate (⟨Real.sqrt, Real.cos, Real.sin, Real.pi / 180⟩ : FloatMath ℝ)
          p (Real.pi / 180 * 0)) ⟨0, 0⟩) ⟨0, 1⟩ =
        (project_onto_vector (⟨Real.sqrt, Real.cos, Real.sin, Real.pi / 180⟩ : FloatMath ℝ)
          squareA ⟨0, 0⟩ 0 ⟨0, 1⟩).2) :=
  ⟨by simp [squareA],
    (project_onto_vector_extrema (⟨Real.sqrt, Real.cos, Real.sin, Real.pi / 180⟩ : FloatMath ℝ)
      squareA ⟨0, 0⟩ 0 ⟨0, 1⟩ (by simp [squareA])).2⟩

/-- C28. With exact `sqrtf`, for `a != b` the vector `Vector2EdgeNormal(a, b)`
has length 1, is perpendicular to `b - a` and equals `(-dy, dx) / |b - a|`
with `(dx, dy) = b - a`; for `a = b` it is the zero vector. -/
theorem edge_normal_spec (M : FloatMath K) (hM : M.Exact) (a b : Vector2 K) :
    (a ≠ b →
      Vector2Length M (Vector2EdgeNormal M a b) = 1 ∧
      Vector2DotProduct (Vector2EdgeNormal M a b) (Vector2Subtract b a) = 0 ∧
      Vector2EdgeNormal M a b =
        ⟨-(b.y - a.y) / Vector2Length M (Vector2Subtract b a),
          (b.x - a.x) / Vector2Length M (Vector2Subtract b a)⟩) ∧
    Vector2EdgeNormal M a a = ⟨0, 0⟩ := by
  constructor
  · intro hab
    have hu := edge_normal_unit hM a b hab
    have hsq : -(b.y - a.y) * -(b.y - a.y) + (b.x - a.x) * (b.x - a.x) =
        (b.x - a.x) * (b.x - a.x) + (b.y - a.y) * (b.y - a.y) := by ring
    have hpos : 0 < (b.x - a.x) * (b.x - a.x) + (b.y - a.y) * (b.y - a.y) := by
      have hne : b.x - a.x ≠ 0 ∨ b.y - a.y ≠ 0 := by
        by_contra h
        push_neg at h
        apply hab
        cases a; cases b
        simp only [Vector2.mk.injEq]
        simp only at h
        constructor <;> linarith [h.1, h.2]
      rcases hne with h | h
      · nlinarith [mul_self_pos.mpr h, mul_self_nonneg (b.y - a.y)]
      · nlinarith [mul_self_pos.mpr h, mul_self_nonneg (b.x - a.x)]
    have hL := hM.sqrtf_pos hpos
    have he : Vector2EdgeNormal M a b =
        ⟨-(b.y - a.y) / Vector2Length M (Vector2Subtract b a),
          (b.x - a.x) / Vector2Length M (Vector2Subtract b a)⟩ := by
      simp only [Vector2EdgeNormal, Vector2Normalize, Vector2Length, Vector2Subtract, hsq,
        gt_iff_lt, hL, if_true, mul_one_div]
    refine ⟨?_, ?_, he⟩
    · unfold Vector2Length
      rw [hu, hM.sqrtf_one]
    · rw [he]
      simp only [Vector2DotProduct, Vector2Subtract]
      ring
  · have h0 : Vector2Subtract a a = ⟨0, 0⟩ := by simp [Vector2Subtract]
    simp only [Vector2EdgeNormal, h0, neg_zero]
    exact normalize_zero hM

/-- C28 on the edge from `(0, 0)` to `(3, 4)`, of length 5. -/
theorem edge_normal_spec_witness :
    (⟨0, 0⟩ : Vector2 ℝ) ≠ ⟨3, 4⟩ ∧
    Vector2Length (⟨Real.sqrt, Real.cos, Real.sin, Real.pi / 180⟩ : FloatMath ℝ)
      (Vector2EdgeNormal (⟨Real.sqrt, Real.cos, Real.sin, Real.pi / 180⟩ : FloatMath ℝ)
        ⟨0, 0⟩ ⟨3, 4⟩) = 1 ∧
    Vector2DotProduct
      (Vector2EdgeNormal (⟨Real.sqrt, Real.cos, Real.sin, Real.pi / 180⟩ : FloatMath ℝ)
        ⟨0, 0⟩ ⟨3, 4⟩) (Vector2Subtract ⟨3, 4⟩ ⟨0, 0⟩) = 0 := by
  have hne : (⟨0, 0⟩ : Vector2 ℝ) ≠ ⟨3, 4⟩ := by
    intro h
    have := congrArg Vector2.x h
    norm_num at this
  have h := (edge_normal_spec (⟨Real.sqrt, Real.cos, Real.sin, Real.pi / 180⟩ : FloatMath ℝ)
    real_exact ⟨0, 0⟩ ⟨3, 4⟩).1 hne
  exact ⟨hne, h.1, h.2.1⟩

/-- C29. For every radius, position, velocity and random source, the
asteroid returned by `asteroid_new` has the hit-shape points
`(min_x,min_y), (max_x,min_y), (max_x,max_y), (min_x,max_y)` with
`min_x <= max_x` and `min_y <= max_y`, its outline has 11 points, and every
outline point `p` has `min_x <= p.x <= max_x` and `min_y <= p.y <= max_y`. -/
theorem asteroid_new_hitshape (M : FloatMath K) (rng : Rng) (asteroid_radius : K)
    (pos vel : Vector2 K) :
    ∃ min_x max_x min_y max_y : K,
      (asteroid_new M rng asteroid_radius pos vel).1.entity.hitshape.points =
        [⟨min_x, min_y⟩, ⟨max_x, min_y⟩, ⟨max_x, max_y⟩, ⟨min_x, max_y⟩] ∧
      (asteroid_new M rng asteroid_radius pos vel).1.entity.hitshape.points.length = 4 ∧
      min_x ≤ max_x ∧ min_y ≤ max_y ∧
      (asteroid_new M rng asteroid_radius pos vel).1.points.length = 11 ∧
      ∀ p ∈ (asteroid_new M rng asteroid_radius pos vel).1.points,
        min_x ≤ p.x ∧ p.x ≤ max_x ∧ min_y ≤ p.y ∧ p.y ≤ max_y := by
  obtain ⟨hinv, hlen⟩ := asteroid_new_fold_inv M asteroid_radius (List.range ASTEROID_POINTS)
    ⟨[], -1, -1, 1000, 1000, rng⟩ (by intro p hp; simp at hp)
  have hlen11 : ((List.range ASTEROID_POINTS).foldl (asteroid_new_step M asteroid_radius)
      ⟨[], -1, -1, 1000, 1000, rng⟩).points.length = 11 := by
    rw [hlen]; rfl
  obtain ⟨p, hp⟩ := List.exists_mem_of_length_pos (by rw [hlen11]; decide :
    0 < ((List.range ASTEROID_POINTS).foldl (asteroid_new_step M asteroid_radius)
      ⟨[], -1, -1, 1000, 1000, rng⟩).points.length)
  obtain ⟨h1, h2, h3, h4⟩ := hinv p hp
  exact ⟨_, _, _, _, rfl, rfl, h1.trans h2, h3.trans h4, hlen11, hinv⟩

/-- C30. Whenever `is_overlap` returns true the amount it writes is
non-negative; and when `sat_collision` returns true and writes the MTV `m`,
the recorded minimum overlap `o` is non-negative and `m` is a non-negative
multiple `c * n` of the recorded axis `n`. -/
theorem overlap_nonneg_mtv (M : FloatMath K)
    (shapeA : List (Vector2 K)) (positionA : Vector2 K) (rotationA : K)
    (shapeB : List (Vector2 K)) (positionB : Vector2 K) (rotationB : K)
    (v m : Vector2 K) :
    (∀ minA maxA minB maxB o : K, is_overlap minA maxA minB maxB = some o → 0 ≤ o) ∧
    (sat_collision M shapeA positionA rotationA shapeB positionB rotationB (some v) =
        (true, some m) →
      ∃ (o : K) (n : Vector2 K) (c : K),
        sat_search M shapeA positionA rotationA shapeB positionB rotationB = some (o, n) ∧
        0 ≤ o ∧ m = Vector2Scale (Vector2Normalize M n) o ∧
        0 ≤ c ∧ m = Vector2Scale n c) := by
  refine ⟨fun _ _ _ _ _ h => is_overlap_nonneg h, fun hret => ?_⟩
  obtain ⟨o, n, hs, hm⟩ := sat_collision_some hret
  have ho := sat_search_nonneg M hs
  obtain ⟨k, hk, hn⟩ := normalize_eq_scale M n
  refine ⟨o, n, k * o, hs, ho, hm, mul_nonneg hk ho, ?_⟩
  rw [hm, hn]
  simp only [Vector2Scale, mul_assoc]

/-- C30 on the two-squares scenario: the MTV `(0, 5)` is 5 times the axis
`(0, 1)`. -/
theorem overlap_nonneg_mtv_witness :
    ∃ (o : ℝ) (n : Vector2 ℝ) (c : ℝ),
      sat_search (⟨Real.sqrt, Real.cos, Real.sin, Real.pi / 180⟩ : FloatMath ℝ)
        squareA ⟨0, 0⟩ 0 squareB ⟨0, 0⟩ 0 = some (o, n) ∧
      0 ≤ o ∧ (⟨0, 5⟩ : Vector2 ℝ) = Vector2Scale
        (Vector2Normalize (⟨Real.sqrt, Real.cos, Real.sin, Real.pi / 180⟩ : FloatMath ℝ) n) o ∧
      0 ≤ c ∧ (⟨0, 5⟩ : Vector2 ℝ) = Vector2Scale n c :=
  (overlap_nonneg_mtv (⟨Real.sqrt, Real.cos, Real.sin, Real.pi / 180⟩ : FloatMath ℝ)
    squareA ⟨0, 0⟩ 0 squareB ⟨0, 0⟩ 0 ⟨1, 1⟩ ⟨0, 5⟩).2 (squares_collision real_exact ⟨1, 1⟩)

/-- C31. `handle_asteroid_collision` leaves asteroid0's angular velocity
unchanged: its torque is the cross product of `P - posA = MTV/2` with the
impulse, a multiple of the MTV, and is zero.  Asteroid1's angular velocity
can change: for asteroid0 (radius 32) at the origin moving up, asteroid1
(radius 16) at `(10, 0)` moving down and the MTV `(0, 5)` it goes from 0 to
`-5/4`. -/
theorem angular_velocity_frame (M : FloatMath K) (asteroid0 asteroid1 : Asteroid K)
    (mtv : Vector2 K) :
    Vector2CrossProduct
      (Vector2Subtract (Vector2Add asteroid0.entity.position (Vector2Scale mtv 0.5))
        asteroid0.entity.position)
      (collision_impulse M asteroid0 asteroid1 mtv) = 0 ∧
    (handle_asteroid_collision M asteroid0 asteroid1 mtv).1.entity.velocity.angular =
      asteroid0.entity.velocity.angular ∧
    (handle_asteroid_collision (⟨Real.sqrt, Real.cos, Real.sin, Real.pi / 180⟩ : FloatMath ℝ)
      ⟨32, [], ⟨0, 0⟩, ⟨⟨0, 1⟩, 0⟩, 0, 0, EntityType.ET_ASTEROID, [], ⟨0, 0⟩⟩
      ⟨16, [], ⟨10, 0⟩, ⟨⟨0, -1⟩, 0⟩, 0, 0, EntityType.ET_ASTEROID, [], ⟨0, 0⟩⟩
      ⟨0, 5⟩).2.entity.velocity.angular = -(5 / 4) := by
  have h0 := torque0_zero M asteroid0 asteroid1 mtv
  refine ⟨h0, ?_, offset_pair_angular real_exact⟩
  have h1 : (handle_asteroid_collision M asteroid0 asteroid1 mtv).1.entity.velocity.angular =
      asteroid0.entity.velocity.angular +
        Vector2CrossProduct
          (Vector2Subtract (Vector2Add asteroid0.entity.position (Vector2Scale mtv 0.5))
            asteroid0.entity.position)
          (collision_impulse M asteroid0 asteroid1 mtv) /
            (asteroid0.radius * asteroid0.radius) := rfl
  rw [h1, h0, zero_div, add_zero]

/-- C32. For asteroids with non-zero radii `rA`, `rB` and any MTV,
`handle_asteroid_collision` keeps `rA * vA + rB * vB` unchanged, `vA` and
`vB` being the linear velocities. -/
theorem radius_weighted_momentum (M : FloatMath K) (asteroid0 asteroid1 : Asteroid K)
    (mtv : Vector2 K) (h0 : asteroid0.radius ≠ 0) (h1 : asteroid1.radius ≠ 0) :
    Vector2Add
      (Vector2Scale (handle_asteroid_collision M asteroid0 asteroid1 mtv).1.entity.velocity.linear
        asteroid0.radius)
      (Vector2Scale (handle_asteroid_collision M asteroid0 asteroid1 mtv).2.entity.velocity.linear
        asteroid1.radius) =
    Vector2Add (Vector2Scale asteroid0.entity.velocity.linear asteroid0.radius)
      (Vector2Scale asteroid1.entity.velocity.linear asteroid1.radius) := by
  have key : ∀ a b J : K, (a + J * (1 / asteroid0.radius)) * asteroid0.radius +
      (b - J * (1 / asteroid1.radius)) * asteroid1.radius =
      a * asteroid0.radius + b * asteroid1.radius := by
    intro a b J
    field_simp
  simp only [handle_asteroid_collision, Vector2Add, Vector2Scale, Vector2Subtract]
  congr 1
  · exact key _ _ _
  · exact key _ _ _

/-- C32 for a big and a medium asteroid closing along the y axis:
`32 * (0, 1) + 16 * (0, -1) = (0, 16)` before and after. -/
theorem radius_weighted_momentum_witness :
    Vector2Add
      (Vector2Scale (handle_asteroid_collision
        (⟨Real.sqrt, Real.cos, Real.sin, Real.pi / 180⟩ : FloatMath ℝ)
        ⟨32, [], ⟨0, 0⟩, ⟨⟨0, 1⟩, 0⟩, 0, 0, EntityType.ET_ASTEROID, [], ⟨0, 0⟩⟩
        ⟨16, [], ⟨0, 40⟩, ⟨⟨0, -1⟩, 0⟩, 0, 0, EntityType.ET_ASTEROID, [], ⟨0, 0⟩⟩
        ⟨0, 5⟩).1.entity.velocity.linear 32)
      (Vector2Scale (handle_asteroid_collision
        (⟨Real.sqrt, Real.cos, Real.sin, Real.pi / 180⟩ : FloatMath ℝ)
        ⟨32, [], ⟨0, 0⟩, ⟨⟨0, 1⟩, 0⟩, 0, 0, EntityType.ET_ASTEROID, [], ⟨0, 0⟩⟩
        ⟨16, [], ⟨0, 40⟩, ⟨⟨0, -1⟩, 0⟩, 0, 0, EntityType.ET_ASTEROID, [], ⟨0, 0⟩⟩
        ⟨0, 5⟩).2.entity.velocity.linear 16) =
    Vector2Add (Vector2Scale (⟨0, 1⟩ : Vector2 ℝ) 32) (Vector2Scale ⟨0, -1⟩ 16) :=
  radius_weighted_momentum (⟨Real.sqrt, Real.cos, Real.sin, Real.pi / 180⟩ : FloatMath ℝ)
    ⟨32, [], ⟨0, 0⟩, ⟨⟨0, 1⟩, 0⟩, 0, 0, EntityType.ET_ASTEROID, [], ⟨0, 0⟩⟩
    ⟨16, [], ⟨0, 40⟩, ⟨⟨0, -1⟩, 0⟩, 0, 0, EntityType.ET_ASTEROID, [], ⟨0, 0⟩⟩
    ⟨0, 5⟩ (by norm_num) (by norm_num)

/-- C33. With both positions translated by the same vector `t`,
`sat_collision` returns the same boolean and writes the same MTV (and leaves
a null `mtv` alone) as with the original positions, for all shapes and
rotations. -/
theorem sat_collision_translate (M : FloatMath K)
    (shapeA : List (Vector2 K)) (positionA : Vector2 K) (rotationA : K)
    (shapeB : List (Vector2 K)) (positionB : Vector2 K) (rotationB : K)
    (t : Vector2 K) (mtv : Option (Vector2 K)) :
    sat_collision M shapeA (Vector2Add positionA t) rotationA
        shapeB (Vector2Add positionB t) rotationB mtv =
      sat_collision M shapeA positionA rotationA shapeB positionB rotationB mtv := by
  unfold sat_collision
  rw [sat_search_translate]

end Claims

end Asteroids
